import Mathlib

/-!
Verification of the file-based doubly linked list core (fut/fut0lst.cc).

The development shallowly embeds the page memory as a byte store addressed by
page number and byte offset, the mini-transaction as a byte store paired with a
list of logged-write records, and each list routine as a Lean function that is
a direct translation of the corresponding C++ function.  The page cache is
abstracted as an oracle mapping a page number to either success or the error
returned by the failed fetch, mirroring buf_page_get_gen.
-/

namespace Flst

/-- Byte store: page number, then byte offset within the page, to byte value. -/
abbrev Mem := Nat → Nat → Nat

/-- The reserved all-ones null page number sentinel (FIL_NULL). -/
@[simp] def FIL_NULL : Nat := 4294967295

/-- Offset of the page-number part of an on-page file address. -/
@[simp] def FIL_ADDR_PAGE : Nat := 0

/-- Offset of the byte-offset part of an on-page file address. -/
@[simp] def FIL_ADDR_BYTE : Nat := 4

/-- Size in bytes of an on-page file address. -/
@[simp] def FIL_ADDR_SIZE : Nat := 6

/-- Offset of the length field within a list base node. -/
@[simp] def FLST_LEN : Nat := 0

/-- Offset of the first-node address within a list base node. -/
@[simp] def FLST_FIRST : Nat := 4

/-- Offset of the last-node address within a list base node. -/
@[simp] def FLST_LAST : Nat := 10

/-- Offset of the predecessor address within a list node. -/
@[simp] def FLST_PREV : Nat := 0

/-- Offset of the successor address within a list node. -/
@[simp] def FLST_NEXT : Nat := 6

/-- Store one byte (truncated to 8 bits) at a page/offset location. -/
def setByte (m : Mem) (p o v : Nat) : Mem :=
  fun q r => if q = p ∧ r = o then v % 256 else m q r

/-- Big-endian 2-byte read (mach_read_from_2). -/
def read2 (m : Mem) (p o : Nat) : Nat := m p o * 256 + m p (o + 1)

/-- Big-endian 4-byte read (mach_read_from_4). -/
def read4 (m : Mem) (p o : Nat) : Nat :=
  ((m p o * 256 + m p (o + 1)) * 256 + m p (o + 2)) * 256 + m p (o + 3)

/-- Big-endian 2-byte store (mach_write_to_2). -/
def write2mem (m : Mem) (p o v : Nat) : Mem :=
  setByte (setByte m p o (v / 256)) p (o + 1) v

/-- Big-endian 4-byte store (mach_write_to_4). -/
def write4mem (m : Mem) (p o v : Nat) : Mem :=
  setByte (setByte (setByte (setByte m p o (v / 16777216)) p (o + 1) (v / 65536))
    p (o + 2) (v / 256)) p (o + 3) v

/-- A record of one logged write issued through the mini-transaction.
Modelled from the spec: the log-scoped mutation primitives (log_write,
log_memset, log_memmove) are external collaborators whose sources are not part
of this repository; each carries the target page, offset and byte payload. -/
inductive LogRec where
  | writeRec (p o len v : Nat)
  | memcpyRec (p o : Nat) (bytes : List Nat)
  | memsetRec (p o len fill : Nat)
  | memmoveRec (p dst src len : Nat)
deriving DecidableEq, Repr

/-- A mini-transaction: current page bytes plus the logged writes issued. -/
structure Mtr where
  mem : Mem
  log : List LogRec

/-- Logged 1-byte write (mtr_t::write of width 1). -/
def mtrWrite1 (st : Mtr) (p o v : Nat) : Mtr :=
  ⟨setByte st.mem p o v, st.log ++ [LogRec.writeRec p o 1 (v % 256)]⟩

/-- Logged 2-byte write (mtr_t::write of width 2). -/
def mtrWrite2 (st : Mtr) (p o v : Nat) : Mtr :=
  ⟨write2mem st.mem p o v, st.log ++ [LogRec.writeRec p o 2 (v % 65536)]⟩

/-- Logged 4-byte write (mtr_t::write of width 4). -/
def mtrWrite4 (st : Mtr) (p o v : Nat) : Mtr :=
  ⟨write4mem st.mem p o v, st.log ++ [LogRec.writeRec p o 4 (v % 4294967296)]⟩

/-- Logged 2-byte write with the MAYBE_NOP option: skipped when unchanged. -/
def mtrWrite2Nop (st : Mtr) (p o v : Nat) : Mtr :=
  if read2 st.mem p o = v % 65536 then st else mtrWrite2 st p o v

/-- Logged 4-byte write with the MAYBE_NOP option: skipped when unchanged. -/
def mtrWrite4Nop (st : Mtr) (p o v : Nat) : Mtr :=
  if read4 st.mem p o = v % 4294967296 then st else mtrWrite4 st p o v

/-- Logged memset (mtr_t::memset). -/
def mtrMemset (st : Mtr) (p o len fill : Nat) : Mtr :=
  ⟨fun q r => if q = p ∧ o ≤ r ∧ r < o + len then fill % 256 else st.mem q r,
   st.log ++ [LogRec.memsetRec p o len fill]⟩

/-- Buffer copy within one page together with its logged move record
(the raw memcpy followed by mtr_t::memmove in the source). -/
def mtrMemmove (st : Mtr) (p dst src len : Nat) : Mtr :=
  ⟨fun q r => if q = p ∧ dst ≤ r ∧ r < dst + len then st.mem p (src + (r - dst))
     else st.mem q r,
   st.log ++ [LogRec.memmoveRec p dst src len]⟩

/-- The six bytes of the on-disk encoding of a (page, offset) file address. -/
def encAddr (page off : Nat) : List Nat :=
  [page / 16777216 % 256, page / 65536 % 256, page / 256 % 256, page % 256,
   off / 256 % 256, off % 256]

/-- Logged 6-byte overwrite of a whole file address (the mtr_t::memcpy branch
of flst_write_addr). -/
def mtrMemcpyAddr (st : Mtr) (p o page off : Nat) : Mtr :=
  ⟨write2mem (write4mem st.mem p o page) p (o + 4) off,
   st.log ++ [LogRec.memcpyRec p o (encAddr page off)]⟩

/-- A decoded file address: page number plus byte offset within the page. -/
structure FilAddr where
  page : Nat
  boffset : Nat
deriving DecidableEq, Repr

/-- The null file address: page FIL_NULL, offset pinned to 0. -/
def nullAddr : FilAddr := ⟨FIL_NULL, 0⟩

/-- Decode the 6-byte file address stored at a page/offset location.
Modelled from the spec: the fil_addr accessors live in headers that are not
part of this repository; layout is 4-byte page then 2-byte offset. -/
def readAddr (m : Mem) (p o : Nat) : FilAddr :=
  ⟨read4 m p (o + FIL_ADDR_PAGE), read2 m p (o + FIL_ADDR_BYTE)⟩

/-- Read the base-node length field.  Modelled from the spec: flst_get_len is
declared in a header not present in the repository sources. -/
def flst_get_len (m : Mem) (p o : Nat) : Nat := read4 m p (o + FLST_LEN)

/-- Read the base-node first-node address.  Modelled from the spec. -/
def flst_get_first (m : Mem) (p o : Nat) : FilAddr := readAddr m p (o + FLST_FIRST)

/-- Read the base-node last-node address.  Modelled from the spec. -/
def flst_get_last (m : Mem) (p o : Nat) : FilAddr := readAddr m p (o + FLST_LAST)

/-- Read a node's predecessor address.  Modelled from the spec. -/
def flst_get_prev_addr (m : Mem) (p o : Nat) : FilAddr := readAddr m p (o + FLST_PREV)

/-- Read a node's successor address.  Modelled from the spec. -/
def flst_get_next_addr (m : Mem) (p o : Nat) : FilAddr := readAddr m p (o + FLST_NEXT)

/-- Error results (dberr_t): success, corruption, or some other error such as
an I/O failure, abstracted by a code. -/
inductive Dberr where
  | DB_SUCCESS
  | DB_CORRUPTION
  | DB_OTHER (n : Nat)
deriving DecidableEq, Repr

/-- The page-cache oracle: none means buf_page_get_gen succeeds for that page
number, some e means the fetch fails and reports error e. -/
def FetchEnv := Nat → Option Dberr

/-- flst_write_addr: write a file address at (bp, faddr), minimizing logged
bytes exactly as the source does. -/
def flst_write_addr (st : Mtr) (bp faddr page boffset : Nat) : Mtr :=
  if read4 st.mem bp (faddr + FIL_ADDR_PAGE) = page then
    (if read2 st.mem bp (faddr + FIL_ADDR_BYTE) = boffset then st
     else mtrWrite2 st bp (faddr + FIL_ADDR_BYTE) boffset)
  else if read2 st.mem bp (faddr + FIL_ADDR_BYTE) = boffset then
    mtrWrite4 st bp (faddr + FIL_ADDR_PAGE) page
  else mtrMemcpyAddr st bp faddr page boffset

/-- flst_zero_both: null out the two consecutive addresses at (p, a). -/
def flst_zero_both (st : Mtr) (p a : Nat) : Mtr :=
  let st1 := if read4 st.mem p (a + FIL_ADDR_PAGE) ≠ FIL_NULL then
      mtrMemset st p (a + FIL_ADDR_PAGE) 4 255
    else st
  let st2 := mtrWrite2Nop st1 p (a + FIL_ADDR_BYTE) 0
  mtrMemmove st2 p (a + FIL_ADDR_SIZE) a FIL_ADDR_SIZE

/-- flst_add_to_empty: link the node at (ap, ao) into the empty list whose
base node is at (bp, bo). -/
def flst_add_to_empty (st : Mtr) (bp bo ap ao : Nat) : Mtr :=
  let st1 := mtrWrite1 st bp (bo + FLST_LEN + 3) 1
  let st2 := flst_write_addr st1 bp (bo + FLST_FIRST) ap ao
  let st3 := mtrMemmove st2 bp (bo + FLST_LAST) (bo + FLST_FIRST) FIL_ADDR_SIZE
  flst_zero_both st3 ap (ao + FLST_PREV)

/-- flst_insert_after: insert the node at (ap, ao) after the node at (cp, co)
in the list based at (bp, bo). -/
def flst_insert_after (env : FetchEnv) (st : Mtr) (bp bo cp co ap ao : Nat) :
    Dberr × Mtr :=
  let next_addr := flst_get_next_addr st.mem cp co
  let st1 := flst_write_addr st ap (ao + FLST_PREV) cp co
  let st2 := flst_write_addr st1 ap (ao + FLST_NEXT) next_addr.page next_addr.boffset
  let p :=
    if next_addr.page = FIL_NULL then
      (Dberr.DB_SUCCESS, flst_write_addr st2 bp (bo + FLST_LAST) ap ao)
    else
      match env next_addr.page with
      | none => (Dberr.DB_SUCCESS,
          flst_write_addr st2 next_addr.page (next_addr.boffset + FLST_PREV) ap ao)
      | some e => (e, st2)
  let st3 := flst_write_addr p.2 cp (co + FLST_NEXT) ap ao
  (p.1, mtrWrite4 st3 bp (bo + FLST_LEN) (read4 st3.mem bp (bo + FLST_LEN) + 1))

/-- flst_insert_before: insert the node at (ap, ao) before the node at
(cp, co) in the list based at (bp, bo). -/
def flst_insert_before (env : FetchEnv) (st : Mtr) (bp bo cp co ap ao : Nat) :
    Dberr × Mtr :=
  let prev_addr := flst_get_prev_addr st.mem cp co
  let st1 := flst_write_addr st ap (ao + FLST_PREV) prev_addr.page prev_addr.boffset
  let st2 := flst_write_addr st1 ap (ao + FLST_NEXT) cp co
  let p :=
    if prev_addr.page = FIL_NULL then
      (Dberr.DB_SUCCESS, flst_write_addr st2 bp (bo + FLST_FIRST) ap ao)
    else
      match env prev_addr.page with
      | none => (Dberr.DB_SUCCESS,
          flst_write_addr st2 prev_addr.page (prev_addr.boffset + FLST_NEXT) ap ao)
      | some e => (e, st2)
  let st3 := flst_write_addr p.2 cp (co + FLST_PREV) ap ao
  (p.1, mtrWrite4 st3 bp (bo + FLST_LEN) (read4 st3.mem bp (bo + FLST_LEN) + 1))

/-- flst_init: set the length to 0 and null out first/last. -/
def flst_init (st : Mtr) (p base : Nat) : Mtr :=
  let st1 := mtrWrite4Nop st p (base + FLST_LEN) 0
  flst_zero_both st1 p (base + FLST_FIRST)

/-- flst_add_last: append the node at (ap, ao) to the list based at (bp, bo). -/
def flst_add_last (env : FetchEnv) (st : Mtr) (bp bo ap ao : Nat) : Dberr × Mtr :=
  if flst_get_len st.mem bp bo = 0 then
    (Dberr.DB_SUCCESS, flst_add_to_empty st bp bo ap ao)
  else
    let addr := flst_get_last st.mem bp bo
    if addr.page ≠ ap then
      match env addr.page with
      | some e => (e, st)
      | none => flst_insert_after env st bp bo addr.page addr.boffset ap ao
    else
      flst_insert_after env st bp bo addr.page addr.boffset ap ao

/-- flst_add_first: prepend the node at (ap, ao) to the list based at (bp, bo). -/
def flst_add_first (env : FetchEnv) (st : Mtr) (bp bo ap ao : Nat) : Dberr × Mtr :=
  if flst_get_len st.mem bp bo = 0 then
    (Dberr.DB_SUCCESS, flst_add_to_empty st bp bo ap ao)
  else
    let addr := flst_get_first st.mem bp bo
    if addr.page ≠ ap then
      match env addr.page with
      | some e => (e, st)
      | none => flst_insert_before env st bp bo addr.page addr.boffset ap ao
    else
      flst_insert_before env st bp bo addr.page addr.boffset ap ao

/-- The prev-side block of flst_remove: relink the predecessor (or the base
first pointer) to the removed node's successor, fetching the predecessor page
when it differs from the removed node's page. -/
def flst_remove_side1 (env : FetchEnv) (st : Mtr) (bp bo cp : Nat)
    (prev_addr next_addr : FilAddr) : Dberr × Mtr :=
  if prev_addr.page = FIL_NULL then
    (Dberr.DB_SUCCESS,
     flst_write_addr st bp (bo + FLST_FIRST) next_addr.page next_addr.boffset)
  else if prev_addr.page ≠ cp then
    match env prev_addr.page with
    | some e => (e, st)
    | none => (Dberr.DB_SUCCESS,
        flst_write_addr st prev_addr.page (prev_addr.boffset + FLST_NEXT)
          next_addr.page next_addr.boffset)
  else
    (Dberr.DB_SUCCESS,
     flst_write_addr st cp (prev_addr.boffset + FLST_NEXT)
       next_addr.page next_addr.boffset)

/-- The next-side block of flst_remove: relink the successor (or the base
last pointer) to the removed node's predecessor; a fetch failure keeps the
first error encountered. -/
def flst_remove_side2 (env : FetchEnv) (st : Mtr) (bp bo cp : Nat)
    (prev_addr next_addr : FilAddr) (e1 : Dberr) : Dberr × Mtr :=
  if next_addr.page = FIL_NULL then
    (e1, flst_write_addr st bp (bo + FLST_LAST) prev_addr.page prev_addr.boffset)
  else if next_addr.page ≠ cp then
    match env next_addr.page with
    | some e2 => (if e1 = Dberr.DB_SUCCESS then e2 else e1, st)
    | none => (e1,
        flst_write_addr st next_addr.page (next_addr.boffset + FLST_PREV)
          prev_addr.page prev_addr.boffset)
  else
    (e1,
     flst_write_addr st cp (next_addr.boffset + FLST_PREV)
       prev_addr.page prev_addr.boffset)

/-- flst_remove: unlink the node at (cp, co) from the list based at (bp, bo). -/
def flst_remove (env : FetchEnv) (st : Mtr) (bp bo cp co : Nat) : Dberr × Mtr :=
  let prev_addr := flst_get_prev_addr st.mem cp co
  let next_addr := flst_get_next_addr st.mem cp co
  let p1 := flst_remove_side1 env st bp bo cp prev_addr next_addr
  let p2 := flst_remove_side2 env p1.2 bp bo cp prev_addr next_addr p1.1
  if read4 p2.2.mem bp (bo + FLST_LEN) = 0 then (Dberr.DB_CORRUPTION, p2.2)
  else
    (p2.1, mtrWrite4 p2.2 bp (bo + FLST_LEN) (read4 p2.2.mem bp (bo + FLST_LEN) - 1))

/-! ### Derived predicates and specification-level definitions -/

/-- A byte store is well formed when every cell holds a genuine byte. -/
def ByteMem (m : Mem) : Prop := ∀ p o, m p o < 256

/-- Head of an address list, with a default for the empty list. -/
def headD : List FilAddr → FilAddr → FilAddr
  | [], d => d
  | a :: _, _ => a

/-- Last element of an address list, with a default for the empty list. -/
def lastD : List FilAddr → FilAddr → FilAddr
  | [], d => d
  | a :: t, _ => lastD t a

/-- The decoded predecessor field of the node at address a. -/
def prevF (m : Mem) (a : FilAddr) : FilAddr := readAddr m a.page (a.boffset + FLST_PREV)

/-- The decoded successor field of the node at address a. -/
def nextF (m : Mem) (a : FilAddr) : FilAddr := readAddr m a.page (a.boffset + FLST_NEXT)

/-- The chain of nodes ns is correctly doubly linked in m, where the node
before the segment is pv and the address after the segment is nx. -/
def chainSeg (m : Mem) : FilAddr → List FilAddr → FilAddr → Prop
  | _, [], _ => True
  | pv, a :: t, nx => prevF m a = pv ∧ nextF m a = headD t nx ∧ chainSeg m a t nx

/-- The byte regions (p1, [s1, s1+l1)) and (p2, [s2, s2+l2)) do not intersect. -/
def regDisj (p1 s1 l1 p2 s2 l2 : Nat) : Prop :=
  ¬ (p1 = p2 ∧ s1 < s2 + l2 ∧ s2 < s1 + l1)

/-- The 12-byte link regions of two nodes do not intersect. -/
def nodeDisj (a b : FilAddr) : Prop :=
  regDisj a.page a.boffset 12 b.page b.boffset 12

/-- A node address is valid for the list based at (bp, bo): a real bounded
page, a bounded offset, and a link region disjoint from the base node. -/
def validNode (bp bo : Nat) (a : FilAddr) : Prop :=
  a.page ≠ FIL_NULL ∧ a.page < 4294967296 ∧ a.boffset < 65536 ∧
    regDisj a.page a.boffset 12 bp bo 16

/-- The node a does not overlap any node of ns. -/
def Fresh (a : FilAddr) (ns : List FilAddr) : Prop := ∀ b ∈ ns, nodeDisj a b

/-- Representation invariant: the byte store m holds, at the base node
(bp, bo), exactly the abstract list ns. -/
structure Reps (m : Mem) (bp bo : Nat) (ns : List FilAddr) : Prop where
  bytes : ByteMem m
  lenBound : ns.length < 4294967296
  len : read4 m bp (bo + FLST_LEN) = ns.length
  first : readAddr m bp (bo + FLST_FIRST) = headD ns nullAddr
  last : readAddr m bp (bo + FLST_LAST) = lastD ns nullAddr
  chain : chainSeg m nullAddr ns nullAddr
  nodes : ∀ a ∈ ns, validNode bp bo a
  disj : ns.Pairwise nodeDisj

/-- The page cache never reports a failed fetch as DB_SUCCESS. -/
def EnvOK (env : FetchEnv) : Prop := ∀ p, env p ≠ some Dberr.DB_SUCCESS

/-- One successfully completed structural operation, relating the concrete
state and the abstract list before and after.  The side conditions are the
documented caller obligations: an added node is valid and does not overlap
existing nodes, an insertion position or removal target is a list member, and
the length counter does not wrap. -/
inductive LegalStep (env : FetchEnv) (bp bo : Nat) :
    Mtr × List FilAddr → Mtr × List FilAddr → Prop where
  | addFirst (st st' : Mtr) (ns : List FilAddr) (a : FilAddr) :
      validNode bp bo a → Fresh a ns → ns.length + 1 < 4294967296 →
      flst_add_first env st bp bo a.page a.boffset = (Dberr.DB_SUCCESS, st') →
      LegalStep env bp bo (st, ns) (st', a :: ns)
  | addLast (st st' : Mtr) (ns : List FilAddr) (a : FilAddr) :
      validNode bp bo a → Fresh a ns → ns.length + 1 < 4294967296 →
      flst_add_last env st bp bo a.page a.boffset = (Dberr.DB_SUCCESS, st') →
      LegalStep env bp bo (st, ns) (st', ns ++ [a])
  | insAfter (st st' : Mtr) (l1 l2 : List FilAddr) (cur a : FilAddr) :
      validNode bp bo a → Fresh a (l1 ++ cur :: l2) →
      (l1 ++ cur :: l2).length + 1 < 4294967296 →
      flst_insert_after env st bp bo cur.page cur.boffset a.page a.boffset =
        (Dberr.DB_SUCCESS, st') →
      LegalStep env bp bo (st, l1 ++ cur :: l2) (st', l1 ++ cur :: a :: l2)
  | insBefore (st st' : Mtr) (l1 l2 : List FilAddr) (cur a : FilAddr) :
      validNode bp bo a → Fresh a (l1 ++ cur :: l2) →
      (l1 ++ cur :: l2).length + 1 < 4294967296 →
      flst_insert_before env st bp bo cur.page cur.boffset a.page a.boffset =
        (Dberr.DB_SUCCESS, st') →
      LegalStep env bp bo (st, l1 ++ cur :: l2) (st', l1 ++ a :: cur :: l2)
  | removeStep (st st' : Mtr) (l1 l2 : List FilAddr) (cur : FilAddr) :
      flst_remove env st bp bo cur.page cur.boffset = (Dberr.DB_SUCCESS, st') →
      LegalStep env bp bo (st, l1 ++ cur :: l2) (st', l1 ++ l2)

/-- A sequence of successfully completed structural operations. -/
inductive LegalTrace (env : FetchEnv) (bp bo : Nat) :
    Mtr × List FilAddr → Mtr × List FilAddr → Prop where
  | refl (x : Mtr × List FilAddr) : LegalTrace env bp bo x x
  | step (x y z : Mtr × List FilAddr) :
      LegalTrace env bp bo x y → LegalStep env bp bo y z → LegalTrace env bp bo x z

/-- Number of hops needed to reach a null address by following successor
fields, with an explicit fuel bound; none when null is not reached in time. -/
def hopNext (m : Mem) : Nat → FilAddr → Option Nat
  | fuel, a =>
    if a.page = FIL_NULL then some 0
    else match fuel with
      | 0 => none
      | f + 1 => (hopNext m f (nextF m a)).map (fun k => k + 1)

/-- Number of hops needed to reach a null address by following predecessor
fields, with an explicit fuel bound. -/
def hopPrev (m : Mem) : Nat → FilAddr → Option Nat
  | fuel, a =>
    if a.page = FIL_NULL then some 0
    else match fuel with
      | 0 => none
      | f + 1 => (hopPrev m f (prevF m a)).map (fun k => k + 1)

/-- The log records appended between two mini-transaction states. -/
def logDelta (st st' : Mtr) : List LogRec := st'.log.drop st.log.length

/-- The page, start offset and length of the byte range written by a record. -/
def recTarget : LogRec → Nat × Nat × Nat
  | .writeRec p o len _ => (p, o, len)
  | .memcpyRec p o bs => (p, o, bs.length)
  | .memsetRec p o len _ => (p, o, len)
  | .memmoveRec p dst _ len => (p, dst, len)

/-- Whether a log record writes into the byte range (p, [lo, lo+len)). -/
def recTouches (r : LogRec) (p lo len : Nat) : Bool :=
  (recTarget r).1 == p && decide (lo < (recTarget r).2.1 + (recTarget r).2.2) &&
    decide ((recTarget r).2.1 < lo + len)

/-- The log records of flst_write_addr as a function of the pre-state. -/
def waLog (m : Mem) (bp faddr page off : Nat) : List LogRec :=
  if read4 m bp (faddr + FIL_ADDR_PAGE) = page then
    (if read2 m bp (faddr + FIL_ADDR_BYTE) = off then []
     else [LogRec.writeRec bp (faddr + FIL_ADDR_BYTE) 2 (off % 65536)])
  else if read2 m bp (faddr + FIL_ADDR_BYTE) = off then
    [LogRec.writeRec bp (faddr + FIL_ADDR_PAGE) 4 (page % 4294967296)]
  else [LogRec.memcpyRec bp faddr (encAddr page off)]

/-- Between two mini-transaction states, every appended log record satisfies P. -/
def TargetsSub (st st' : Mtr) (P : LogRec → Prop) : Prop :=
  ∃ l, st'.log = st.log ++ l ∧ ∀ rec ∈ l, P rec

/-- The all-zero byte store. -/
def mem0 : Mem := fun _ _ => 0

/-- The page-cache oracle in which every fetch succeeds. -/
def envAll : FetchEnv := fun _ => none

/-- Concrete scenario states: base node at (0, 100), nodes A = (1, 200),
B = (2, 300), C = (3, 400); build the three-element list of claim C4. -/
def c4s1 : Mtr := flst_init ⟨mem0, []⟩ 0 100

/-- After add_last of node A. -/
def c4r2 : Dberr × Mtr := flst_add_last envAll c4s1 0 100 1 200

/-- After add_last of node B. -/
def c4r3 : Dberr × Mtr := flst_add_last envAll c4r2.2 0 100 2 300

/-- After insert_after of node C behind node A. -/
def c4r4 : Dberr × Mtr := flst_insert_after envAll c4r3.2 0 100 1 200 3 400

/-- After remove of node C. -/
def c4r5 : Dberr × Mtr := flst_remove envAll c4r4.2 0 100 3 400

/-- Concrete store for the C1 counterexample: empty base node at (0, 0) with
null first/last, target node at (1, 50) with null prev but next = (5, 100). -/
def c1m : Mem :=
  write2mem (write4mem (write4mem (write4mem (write4mem mem0
    0 4 FIL_NULL) 0 10 FIL_NULL) 1 50 FIL_NULL) 1 56 5) 1 60 100

/-- Concrete store for the C1 witness: empty base node at (0, 0), target node
at (1, 50) whose prev and next are both null. -/
def c1wm : Mem :=
  write4mem (write4mem (write4mem (write4mem mem0
    0 4 FIL_NULL) 0 10 FIL_NULL) 1 50 FIL_NULL) 1 56 FIL_NULL

/-- Concrete store for the C3 witness: the address field at (9, 40) holds
page 7, offset 20. -/
def c3m : Mem := write2mem (write4mem mem0 9 40 7) 9 44 20

/-- Concrete store for the C10 counterexample: the base node at (0, 0) has
length field 1 at entry. -/
def c10m : Mem := write4mem mem0 0 0 1

/-- Concrete state for exercising remove with a failing successor fetch:
base node at (0, 0) with length 2, first (1, 50), last (2, 50); the node to
remove at (1, 50) has prev null and next (2, 50). -/
def c6m : Mem :=
  write2mem (write4mem (write4mem (write2mem (write4mem (write2mem (write4mem
    (write4mem mem0 0 0 2) 0 4 1) 0 8 50) 0 10 2) 0 14 50) 1 50 4294967295)
    1 56 2) 1 60 50

/-- A page cache in which fetching page 2 fails with error 7 and every other
fetch succeeds. -/
def c6env : FetchEnv := fun p => if p = 2 then some (Dberr.DB_OTHER 7) else none

/-- Concrete state for exercising insert_after with a failing successor
fetch: base node at (0, 0) with length 1, the node at (1, 50) has successor
(3, 70), and page 3 cannot be fetched. -/
def c7m : Mem := write2mem (write4mem (write4mem mem0 0 0 1) 1 56 3) 1 60 70

/-- A page cache in which fetching page 3 fails with error 7 and every other
fetch succeeds. -/
def c7env : FetchEnv := fun p => if p = 3 then some (Dberr.DB_OTHER 7) else none

/-! ### Byte-level lemmas -/

theorem setByte_same {m : Mem} {p o : Nat} (v : Nat) : setByte m p o v p o = v % 256 := by
  simp [setByte]

theorem setByte_ne {m : Mem} {p o v q r : Nat} (h : ¬(q = p ∧ r = o)) :
    setByte m p o v q r = m q r := by
  simp only [setByte, if_neg h]

theorem byteMem_setByte {m : Mem} (hm : ByteMem m) (p o v : Nat) :
    ByteMem (setByte m p o v) := by
  intro q r
  unfold setByte
  split
  · exact Nat.mod_lt _ (by norm_num)
  · exact hm q r

theorem byteMem_write2mem {m : Mem} (hm : ByteMem m) (p o v : Nat) :
    ByteMem (write2mem m p o v) :=
  byteMem_setByte (byteMem_setByte hm _ _ _) _ _ _

theorem byteMem_write4mem {m : Mem} (hm : ByteMem m) (p o v : Nat) :
    ByteMem (write4mem m p o v) :=
  byteMem_setByte (byteMem_setByte (byteMem_setByte (byteMem_setByte hm _ _ _) _ _ _) _ _ _) _ _ _

theorem read2_lt {m : Mem} (hm : ByteMem m) (p o : Nat) : read2 m p o < 65536 := by
  have h0 := hm p o
  have h1 := hm p (o + 1)
  unfold read2
  omega

theorem read4_lt {m : Mem} (hm : ByteMem m) (p o : Nat) : read4 m p o < 4294967296 := by
  have h0 := hm p o
  have h1 := hm p (o + 1)
  have h2 := hm p (o + 2)
  have h3 := hm p (o + 3)
  unfold read4
  omega

theorem read2_write2mem (m : Mem) (p o v : Nat) :
    read2 (write2mem m p o v) p o = v % 65536 := by
  simp [read2, write2mem, setByte]
  omega

theorem read4_write4mem (m : Mem) (p o v : Nat) :
    read4 (write4mem m p o v) p o = v % 4294967296 := by
  simp [read4, write4mem, setByte]
  omega

theorem write2mem_frame {m : Mem} {p o v q r : Nat} (h : ¬(q = p ∧ o ≤ r ∧ r < o + 2)) :
    write2mem m p o v q r = m q r := by
  simp only [write2mem, setByte]
  split
  next hc => exact absurd (by omega) h
  next =>
    split
    next hc => exact absurd (by omega) h
    next => rfl

theorem write4mem_frame {m : Mem} {p o v q r : Nat} (h : ¬(q = p ∧ o ≤ r ∧ r < o + 4)) :
    write4mem m p o v q r = m q r := by
  simp only [write4mem, setByte]
  split
  next hc => exact absurd (by omega) h
  next =>
    split
    next hc => exact absurd (by omega) h
    next =>
      split
      next hc => exact absurd (by omega) h
      next =>
        split
        next hc => exact absurd (by omega) h
        next => rfl

theorem read2_congr {m m' : Mem} {p o : Nat} (h0 : m' p o = m p o)
    (h1 : m' p (o + 1) = m p (o + 1)) : read2 m' p o = read2 m p o := by
  unfold read2
  rw [h0, h1]

theorem read4_congr {m m' : Mem} {p o : Nat} (h0 : m' p o = m p o)
    (h1 : m' p (o + 1) = m p (o + 1)) (h2 : m' p (o + 2) = m p (o + 2))
    (h3 : m' p (o + 3) = m p (o + 3)) : read4 m' p o = read4 m p o := by
  unfold read4
  rw [h0, h1, h2, h3]

theorem readAddr_congr {m m' : Mem} {p o : Nat}
    (h : ∀ i, i < 6 → m' p (o + i) = m p (o + i)) :
    readAddr m' p o = readAddr m p o := by
  have h0 : m' p o = m p o := by
    have := h 0 (by omega)
    rwa [Nat.add_zero] at this
  have h1 := h 1 (by omega)
  have h2 := h 2 (by omega)
  have h3 := h 3 (by omega)
  have h4 := h 4 (by omega)
  have h5 : m' p (o + 4 + 1) = m p (o + 4 + 1) := by
    have e : o + 4 + 1 = o + 5 := by omega
    rw [e]
    exact h 5 (by omega)
  unfold readAddr
  simp only [FIL_ADDR_PAGE, FIL_ADDR_BYTE, Nat.add_zero]
  rw [read4_congr h0 h1 h2 h3, read2_congr h4 h5]

/-! ### Mini-transaction level lemmas -/

theorem mtrWrite1_frame {st : Mtr} {p o v q r : Nat} (h : ¬(q = p ∧ r = o)) :
    (mtrWrite1 st p o v).mem q r = st.mem q r := setByte_ne h

theorem mtrWrite2_frame {st : Mtr} {p o v q r : Nat} (h : ¬(q = p ∧ o ≤ r ∧ r < o + 2)) :
    (mtrWrite2 st p o v).mem q r = st.mem q r := write2mem_frame h

theorem mtrWrite4_frame {st : Mtr} {p o v q r : Nat} (h : ¬(q = p ∧ o ≤ r ∧ r < o + 4)) :
    (mtrWrite4 st p o v).mem q r = st.mem q r := write4mem_frame h

theorem mtrWrite2Nop_frame {st : Mtr} {p o v q r : Nat}
    (h : ¬(q = p ∧ o ≤ r ∧ r < o + 2)) :
    (mtrWrite2Nop st p o v).mem q r = st.mem q r := by
  unfold mtrWrite2Nop
  split
  · rfl
  · exact write2mem_frame h

theorem mtrWrite4Nop_frame {st : Mtr} {p o v q r : Nat}
    (h : ¬(q = p ∧ o ≤ r ∧ r < o + 4)) :
    (mtrWrite4Nop st p o v).mem q r = st.mem q r := by
  unfold mtrWrite4Nop
  split
  · rfl
  · exact write4mem_frame h

theorem mtrMemset_frame {st : Mtr} {p o len fill q r : Nat}
    (h : ¬(q = p ∧ o ≤ r ∧ r < o + len)) :
    (mtrMemset st p o len fill).mem q r = st.mem q r := by
  simp only [mtrMemset]
  rw [if_neg h]

theorem mtrMemmove_frame {st : Mtr} {p dst src len q r : Nat}
    (h : ¬(q = p ∧ dst ≤ r ∧ r < dst + len)) :
    (mtrMemmove st p dst src len).mem q r = st.mem q r := by
  simp only [mtrMemmove]
  rw [if_neg h]

theorem mtrMemcpyAddr_frame {st : Mtr} {p o page off q r : Nat}
    (h : ¬(q = p ∧ o ≤ r ∧ r < o + 6)) :
    (mtrMemcpyAddr st p o page off).mem q r = st.mem q r :=
  (write2mem_frame (by omega)).trans (write4mem_frame (by omega))

theorem mtrWrite2_read (st : Mtr) (p o v : Nat) :
    read2 (mtrWrite2 st p o v).mem p o = v % 65536 := read2_write2mem _ _ _ _

theorem mtrWrite4_read (st : Mtr) (p o v : Nat) :
    read4 (mtrWrite4 st p o v).mem p o = v % 4294967296 := read4_write4mem _ _ _ _

theorem read4_mtrWrite2_above (st : Mtr) (p a v : Nat) :
    read4 (mtrWrite2 st p (a + 4) v).mem p a = read4 st.mem p a :=
  read4_congr (mtrWrite2_frame (by omega)) (mtrWrite2_frame (by omega))
    (mtrWrite2_frame (by omega)) (mtrWrite2_frame (by omega))

theorem read2_mtrWrite4_below (st : Mtr) (p a v : Nat) :
    read2 (mtrWrite4 st p a v).mem p (a + 4) = read2 st.mem p (a + 4) :=
  read2_congr (mtrWrite4_frame (by omega)) (mtrWrite4_frame (by omega))

theorem mtrMemcpyAddr_read (st : Mtr) (p o page off : Nat) :
    readAddr (mtrMemcpyAddr st p o page off).mem p o =
      ⟨page % 4294967296, off % 65536⟩ := by
  unfold readAddr
  simp only [FIL_ADDR_PAGE, FIL_ADDR_BYTE, Nat.add_zero, FilAddr.mk.injEq]
  constructor
  · have e : read4 (mtrMemcpyAddr st p o page off).mem p o =
        read4 (write4mem st.mem p o page) p o :=
      read4_congr (write2mem_frame (by omega)) (write2mem_frame (by omega))
        (write2mem_frame (by omega)) (write2mem_frame (by omega))
    rw [e, read4_write4mem]
  · exact read2_write2mem _ _ _ _

theorem byteMem_mtrWrite1 {st : Mtr} (hm : ByteMem st.mem) (p o v : Nat) :
    ByteMem (mtrWrite1 st p o v).mem := byteMem_setByte hm _ _ _

theorem byteMem_mtrWrite2 {st : Mtr} (hm : ByteMem st.mem) (p o v : Nat) :
    ByteMem (mtrWrite2 st p o v).mem := byteMem_write2mem hm _ _ _

theorem byteMem_mtrWrite4 {st : Mtr} (hm : ByteMem st.mem) (p o v : Nat) :
    ByteMem (mtrWrite4 st p o v).mem := byteMem_write4mem hm _ _ _

theorem byteMem_mtrWrite2Nop {st : Mtr} (hm : ByteMem st.mem) (p o v : Nat) :
    ByteMem (mtrWrite2Nop st p o v).mem := by
  unfold mtrWrite2Nop
  split
  · exact hm
  · exact byteMem_write2mem hm _ _ _

theorem byteMem_mtrWrite4Nop {st : Mtr} (hm : ByteMem st.mem) (p o v : Nat) :
    ByteMem (mtrWrite4Nop st p o v).mem := by
  unfold mtrWrite4Nop
  split
  · exact hm
  · exact byteMem_write4mem hm _ _ _

theorem byteMem_mtrMemset {st : Mtr} (hm : ByteMem st.mem) (p o len fill : Nat) :
    ByteMem (mtrMemset st p o len fill).mem := by
  intro q r
  simp only [mtrMemset]
  split
  · exact Nat.mod_lt _ (by norm_num)
  · exact hm q r

theorem byteMem_mtrMemmove {st : Mtr} (hm : ByteMem st.mem) (p dst src len : Nat) :
    ByteMem (mtrMemmove st p dst src len).mem := by
  intro q r
  simp only [mtrMemmove]
  split
  · exact hm _ _
  · exact hm q r

theorem byteMem_mtrMemcpyAddr {st : Mtr} (hm : ByteMem st.mem) (p o page off : Nat) :
    ByteMem (mtrMemcpyAddr st p o page off).mem :=
  byteMem_write2mem (byteMem_write4mem hm _ _ _) _ _ _

/-! ### Lemmas on flst_write_addr and flst_zero_both -/

theorem flst_write_addr_frame {st : Mtr} {bp a page off q r : Nat}
    (h : ¬(q = bp ∧ a ≤ r ∧ r < a + 6)) :
    (flst_write_addr st bp a page off).mem q r = st.mem q r := by
  unfold flst_write_addr
  simp only [FIL_ADDR_PAGE, FIL_ADDR_BYTE, Nat.add_zero]
  split
  · split
    · rfl
    · exact mtrWrite2_frame (by omega)
  · split
    · exact mtrWrite4_frame (by omega)
    · exact mtrMemcpyAddr_frame (by omega)

theorem flst_write_addr_read {st : Mtr} {bp a page off : Nat}
    (hp : page < 4294967296) (ho : off < 65536) :
    readAddr (flst_write_addr st bp a page off).mem bp a = ⟨page, off⟩ := by
  unfold flst_write_addr
  simp only [FIL_ADDR_PAGE, FIL_ADDR_BYTE, Nat.add_zero]
  split
  next h1 =>
    split
    next h2 =>
      unfold readAddr
      simp only [FIL_ADDR_PAGE, FIL_ADDR_BYTE, Nat.add_zero]
      rw [h1, h2]
    next h2 =>
      unfold readAddr
      simp only [FIL_ADDR_PAGE, FIL_ADDR_BYTE, Nat.add_zero, FilAddr.mk.injEq]
      refine ⟨?_, ?_⟩
      · rw [read4_mtrWrite2_above, h1]
      · rw [mtrWrite2_read, Nat.mod_eq_of_lt ho]
  next h1 =>
    split
    next h2 =>
      unfold readAddr
      simp only [FIL_ADDR_PAGE, FIL_ADDR_BYTE, Nat.add_zero, FilAddr.mk.injEq]
      refine ⟨?_, ?_⟩
      · rw [mtrWrite4_read, Nat.mod_eq_of_lt hp]
      · rw [read2_mtrWrite4_below, h2]
    next h2 =>
      rw [mtrMemcpyAddr_read, Nat.mod_eq_of_lt hp, Nat.mod_eq_of_lt ho]

theorem byteMem_flst_write_addr {st : Mtr} (hm : ByteMem st.mem) (bp a page off : Nat) :
    ByteMem (flst_write_addr st bp a page off).mem := by
  unfold flst_write_addr
  split
  · split
    · exact hm
    · exact byteMem_mtrWrite2 hm _ _ _
  · split
    · exact byteMem_mtrWrite4 hm _ _ _
    · exact byteMem_mtrMemcpyAddr hm _ _ _ _

theorem read4_copy {m m' : Mem} {p A B : Nat}
    (h : ∀ i, i < 4 → m' p (A + i) = m p (B + i)) : read4 m' p A = read4 m p B := by
  have h0 := h 0 (by omega)
  have h1 := h 1 (by omega)
  have h2 := h 2 (by omega)
  have h3 := h 3 (by omega)
  simp only [Nat.add_zero] at h0
  unfold read4
  rw [h0, h1, h2, h3]

theorem read2_copy {m m' : Mem} {p A B : Nat}
    (h : ∀ i, i < 2 → m' p (A + i) = m p (B + i)) : read2 m' p A = read2 m p B := by
  have h0 := h 0 (by omega)
  have h1 := h 1 (by omega)
  simp only [Nat.add_zero] at h0
  unfold read2
  rw [h0, h1]

theorem readAddr_copy {m m' : Mem} {p A B : Nat}
    (h : ∀ i, i < 6 → m' p (A + i) = m p (B + i)) : readAddr m' p A = readAddr m p B := by
  unfold readAddr
  simp only [FIL_ADDR_PAGE, FIL_ADDR_BYTE, Nat.add_zero, FilAddr.mk.injEq]
  refine ⟨read4_copy (fun i hi => h i (by omega)), read2_copy ?_⟩
  intro i hi
  have e1 : A + 4 + i = A + (4 + i) := by omega
  have e2 : B + 4 + i = B + (4 + i) := by omega
  rw [e1, e2]
  exact h (4 + i) (by omega)

theorem mtrMemmove_byte (st : Mtr) {p dst src len : Nat} (i : Nat) (hi : i < len) :
    (mtrMemmove st p dst src len).mem p (dst + i) = st.mem p (src + i) := by
  simp only [mtrMemmove]
  split
  next =>
    congr 1
    omega
  next hc => exact absurd ⟨by trivial, by omega, by omega⟩ hc

theorem readAddr_mtrMemmove6 (st : Mtr) (p dst src : Nat) :
    readAddr (mtrMemmove st p dst src 6).mem p dst = readAddr st.mem p src :=
  readAddr_copy (fun i hi => mtrMemmove_byte st i hi)

theorem mtrWrite2Nop_read (st : Mtr) (p o v : Nat) :
    read2 (mtrWrite2Nop st p o v).mem p o = v % 65536 := by
  unfold mtrWrite2Nop
  split
  next h => exact h
  next => exact read2_write2mem _ _ _ _

theorem mtrWrite4Nop_read (st : Mtr) (p o v : Nat) :
    read4 (mtrWrite4Nop st p o v).mem p o = v % 4294967296 := by
  unfold mtrWrite4Nop
  split
  next h => exact h
  next => exact read4_write4mem _ _ _ _

theorem read4_mtrMemset255 (st : Mtr) (p a : Nat) :
    read4 (mtrMemset st p a 4 255).mem p a = FIL_NULL := by
  have hb : ∀ i, i < 4 → (mtrMemset st p a 4 255).mem p (a + i) = 255 := by
    intro i hi
    simp only [mtrMemset]
    split
    next => norm_num
    next hc => exact absurd ⟨by trivial, by omega, by omega⟩ hc
  have h0 := hb 0 (by omega)
  have h1 := hb 1 (by omega)
  have h2 := hb 2 (by omega)
  have h3 := hb 3 (by omega)
  simp only [Nat.add_zero] at h0
  unfold read4
  rw [h0, h1, h2, h3]
  rfl

theorem flst_zero_both_pre_read {st : Mtr} (p a : Nat) :
    readAddr (mtrWrite2Nop (if read4 st.mem p a ≠ FIL_NULL then
      mtrMemset st p a 4 255 else st) p (a + 4) 0).mem p a = nullAddr := by
  unfold readAddr
  simp only [FIL_ADDR_PAGE, FIL_ADDR_BYTE, Nat.add_zero, nullAddr, FilAddr.mk.injEq]
  constructor
  · have e : read4 (mtrWrite2Nop (if read4 st.mem p a ≠ FIL_NULL then
        mtrMemset st p a 4 255 else st) p (a + 4) 0).mem p a =
        read4 (if read4 st.mem p a ≠ FIL_NULL then
          mtrMemset st p a 4 255 else st).mem p a :=
      read4_congr (mtrWrite2Nop_frame (by omega)) (mtrWrite2Nop_frame (by omega))
        (mtrWrite2Nop_frame (by omega)) (mtrWrite2Nop_frame (by omega))
    rw [e]
    split
    next => exact read4_mtrMemset255 st p a
    next h => omega
  · rw [mtrWrite2Nop_read]

theorem flst_zero_both_read1 (st : Mtr) (p a : Nat) :
    readAddr (flst_zero_both st p a).mem p a = nullAddr := by
  simp only [flst_zero_both, FIL_ADDR_PAGE, FIL_ADDR_BYTE, FIL_ADDR_SIZE, Nat.add_zero]
  have e : readAddr (mtrMemmove (mtrWrite2Nop (if read4 st.mem p a ≠ FIL_NULL then
      mtrMemset st p a 4 255 else st) p (a + 4) 0) p (a + 6) a 6).mem p a =
      readAddr (mtrWrite2Nop (if read4 st.mem p a ≠ FIL_NULL then
        mtrMemset st p a 4 255 else st) p (a + 4) 0).mem p a :=
    readAddr_congr (fun i hi => mtrMemmove_frame (by omega))
  rw [e, flst_zero_both_pre_read]

theorem flst_zero_both_read2 (st : Mtr) (p a : Nat) :
    readAddr (flst_zero_both st p a).mem p (a + 6) = nullAddr := by
  simp only [flst_zero_both, FIL_ADDR_PAGE, FIL_ADDR_BYTE, FIL_ADDR_SIZE, Nat.add_zero]
  rw [readAddr_mtrMemmove6, flst_zero_both_pre_read]

theorem flst_zero_both_frame {st : Mtr} {p a q r : Nat}
    (h : ¬(q = p ∧ a ≤ r ∧ r < a + 12)) :
    (flst_zero_both st p a).mem q r = st.mem q r := by
  simp only [flst_zero_both, FIL_ADDR_PAGE, FIL_ADDR_BYTE, FIL_ADDR_SIZE, Nat.add_zero]
  refine (mtrMemmove_frame (by omega)).trans ?_
  refine (mtrWrite2Nop_frame (by omega)).trans ?_
  split
  · exact mtrMemset_frame (by omega)
  · rfl

theorem byteMem_flst_zero_both {st : Mtr} (hm : ByteMem st.mem) (p a : Nat) :
    ByteMem (flst_zero_both st p a).mem := by
  simp only [flst_zero_both, FIL_ADDR_PAGE, FIL_ADDR_BYTE, FIL_ADDR_SIZE, Nat.add_zero]
  refine byteMem_mtrMemmove (byteMem_mtrWrite2Nop ?_ _ _ _) _ _ _ _
  split
  · exact byteMem_mtrMemset hm _ _ _ _
  · exact hm

/-! ### Log bookkeeping lemmas -/

@[simp] theorem recTarget_writeRec (p o len v : Nat) :
    recTarget (LogRec.writeRec p o len v) = (p, o, len) := rfl

@[simp] theorem recTarget_memcpyRec (p o : Nat) (bs : List Nat) :
    recTarget (LogRec.memcpyRec p o bs) = (p, o, bs.length) := rfl

@[simp] theorem recTarget_memsetRec (p o len fill : Nat) :
    recTarget (LogRec.memsetRec p o len fill) = (p, o, len) := rfl

@[simp] theorem recTarget_memmoveRec (p dst src len : Nat) :
    recTarget (LogRec.memmoveRec p dst src len) = (p, dst, len) := rfl

theorem logDelta_of_append {st st' : Mtr} {l : List LogRec}
    (h : st'.log = st.log ++ l) : logDelta st st' = l := by
  unfold logDelta
  rw [h]
  exact List.drop_left _ _

theorem targetsSub_refl (st : Mtr) (P : LogRec → Prop) : TargetsSub st st P :=
  ⟨[], by simp, by simp⟩

theorem TargetsSub.comp (t : Mtr) {st st'' : Mtr} {P : LogRec → Prop}
    (h1 : TargetsSub st t P) (h2 : TargetsSub t st'' P) : TargetsSub st st'' P := by
  obtain ⟨l1, e1, m1⟩ := h1
  obtain ⟨l2, e2, m2⟩ := h2
  refine ⟨l1 ++ l2, by rw [e2, e1, List.append_assoc], ?_⟩
  intro rec hrec
  rcases List.mem_append.1 hrec with h | h
  · exact m1 rec h
  · exact m2 rec h

theorem targetsSub_single {st st' : Mtr} {r : LogRec} {P : LogRec → Prop}
    (h : st'.log = st.log ++ [r]) (hp : P r) : TargetsSub st st' P :=
  ⟨[r], h, by simpa⟩

theorem mtrWrite2Nop_targets {st : Mtr} {p o v : Nat} {P : LogRec → Prop}
    (hp : P (LogRec.writeRec p o 2 (v % 65536))) :
    TargetsSub st (mtrWrite2Nop st p o v) P := by
  unfold mtrWrite2Nop
  split
  · exact targetsSub_refl _ _
  · exact targetsSub_single rfl hp

/-- Every record logged by flst_write_addr writes within (bp, [a, a+6)). -/
theorem flst_write_addr_targets {st : Mtr} {bp a page off : Nat} {P : LogRec → Prop}
    (h : ∀ rec, (recTarget rec).1 = bp → a ≤ (recTarget rec).2.1 →
      (recTarget rec).2.1 + (recTarget rec).2.2 ≤ a + 6 → P rec) :
    TargetsSub st (flst_write_addr st bp a page off) P := by
  unfold flst_write_addr
  split
  · split
    · exact targetsSub_refl _ _
    · exact targetsSub_single rfl
        (h _ rfl (show a ≤ a + 4 by omega) (show a + 4 + 2 ≤ a + 6 by omega))
  · split
    · exact targetsSub_single rfl
        (h _ rfl (show a ≤ a + 0 by omega) (show a + 0 + 4 ≤ a + 6 by omega))
    · exact targetsSub_single rfl
        (h _ rfl (show a ≤ a by omega) (show a + 6 ≤ a + 6 by omega))

/-- Every record logged by flst_zero_both writes within (p, [a, a+12)). -/
theorem flst_zero_both_targets {st : Mtr} {p a : Nat} {P : LogRec → Prop}
    (h : ∀ rec, (recTarget rec).1 = p → a ≤ (recTarget rec).2.1 →
      (recTarget rec).2.1 + (recTarget rec).2.2 ≤ a + 12 → P rec) :
    TargetsSub st (flst_zero_both st p a) P := by
  unfold flst_zero_both
  simp only [FIL_ADDR_PAGE, FIL_ADDR_BYTE, FIL_ADDR_SIZE, Nat.add_zero]
  refine TargetsSub.comp (mtrWrite2Nop (if read4 st.mem p a ≠ FIL_NULL then
    mtrMemset st p a 4 255 else st) p (a + 4) 0) ?_ ?_
  · refine TargetsSub.comp (if read4 st.mem p a ≠ FIL_NULL then
      mtrMemset st p a 4 255 else st) ?_ ?_
    · split
      · exact targetsSub_single rfl
          (h _ rfl (show a ≤ a by omega) (show a + 4 ≤ a + 12 by omega))
      · exact targetsSub_refl _ _
    · exact mtrWrite2Nop_targets
        (h _ rfl (show a ≤ a + 4 by omega) (show a + 4 + 2 ≤ a + 12 by omega))
  · exact targetsSub_single rfl
      (h _ rfl (show a ≤ a + 6 by omega) (show a + 6 + 6 ≤ a + 12 by omega))

/-! ### Effect lemmas for flst_add_to_empty -/

theorem flst_add_to_empty_frame {st : Mtr} {bp bo ap ao q r : Nat}
    (h1 : ¬(q = bp ∧ bo ≤ r ∧ r < bo + 16)) (h2 : ¬(q = ap ∧ ao ≤ r ∧ r < ao + 12)) :
    (flst_add_to_empty st bp bo ap ao).mem q r = st.mem q r := by
  simp only [flst_add_to_empty, FLST_LEN, FLST_FIRST, FLST_LAST, FLST_PREV,
    FIL_ADDR_SIZE, Nat.add_zero]
  refine (flst_zero_both_frame (by omega)).trans ?_
  refine (mtrMemmove_frame (by omega)).trans ?_
  refine (flst_write_addr_frame (by omega)).trans ?_
  exact mtrWrite1_frame (by omega)

theorem byteMem_flst_add_to_empty {st : Mtr} (hm : ByteMem st.mem) (bp bo ap ao : Nat) :
    ByteMem (flst_add_to_empty st bp bo ap ao).mem := by
  simp only [flst_add_to_empty, FLST_LEN, FLST_FIRST, FLST_LAST, FLST_PREV,
    FIL_ADDR_SIZE, Nat.add_zero]
  exact byteMem_flst_zero_both
    (byteMem_mtrMemmove (byteMem_flst_write_addr (byteMem_mtrWrite1 hm _ _ _) _ _ _ _) _ _ _ _) _ _

theorem regDisj_symm {A S L B T M : Nat} (h : regDisj A S L B T M) :
    regDisj B T M A S L := by
  intro hc
  exact h ⟨hc.1.symm, hc.2.2, hc.2.1⟩

theorem regDisj_cond {A S L B T M : Nat} (h : regDisj A S L B T M)
    {a k o j r : Nat}
    (ha1 : T ≤ a) (ha2 : a + k ≤ T + M)
    (ho1 : S ≤ o) (ho2 : o + j ≤ S + L)
    (h1 : o ≤ r) (h2 : r < o + j) :
    ¬(A = B ∧ a ≤ r ∧ r < a + k) := by
  intro hc
  refine h ⟨hc.1, by omega, by omega⟩

theorem read4_frame_of {m m' : Mem} {p o : Nat}
    (h : ∀ r, o ≤ r → r < o + 4 → m' p r = m p r) : read4 m' p o = read4 m p o :=
  read4_congr (h o (by omega) (by omega)) (h (o + 1) (by omega) (by omega))
    (h (o + 2) (by omega) (by omega)) (h (o + 3) (by omega) (by omega))

theorem read2_frame_of {m m' : Mem} {p o : Nat}
    (h : ∀ r, o ≤ r → r < o + 2 → m' p r = m p r) : read2 m' p o = read2 m p o :=
  read2_congr (h o (by omega) (by omega)) (h (o + 1) (by omega) (by omega))

theorem readAddr_frame_of {m m' : Mem} {p o : Nat}
    (h : ∀ r, o ≤ r → r < o + 6 → m' p r = m p r) : readAddr m' p o = readAddr m p o :=
  readAddr_congr (fun i hi => h (o + i) (by omega) (by omega))

theorem flst_add_to_empty_len {st : Mtr} {bp bo ap ao : Nat} (hm : ByteMem st.mem)
    (hd : regDisj ap ao 12 bp bo 16) (hlen : read4 st.mem bp (bo + FLST_LEN) = 0) :
    read4 (flst_add_to_empty st bp bo ap ao).mem bp (bo + FLST_LEN) = 1 := by
  have hd' : ¬(ap = bp ∧ ao < bo + 16 ∧ bo < ao + 12) := hd
  simp only [FLST_LEN, Nat.add_zero] at hlen ⊢
  simp only [flst_add_to_empty, FLST_LEN, FLST_FIRST, FLST_LAST, FLST_PREV,
    FIL_ADDR_SIZE, Nat.add_zero]
  refine ((read4_frame_of fun r h1 h2 => flst_zero_both_frame (by omega)).trans ?_)
  refine ((read4_frame_of fun r h1 h2 => mtrMemmove_frame (by omega)).trans ?_)
  refine ((read4_frame_of fun r h1 h2 => flst_write_addr_frame (by omega)).trans ?_)
  have c0 : (mtrWrite1 st bp (bo + 3) 1).mem bp bo = st.mem bp bo :=
    mtrWrite1_frame (by omega)
  have c1 : (mtrWrite1 st bp (bo + 3) 1).mem bp (bo + 1) = st.mem bp (bo + 1) :=
    mtrWrite1_frame (by omega)
  have c2 : (mtrWrite1 st bp (bo + 3) 1).mem bp (bo + 2) = st.mem bp (bo + 2) :=
    mtrWrite1_frame (by omega)
  have c3 : (mtrWrite1 st bp (bo + 3) 1).mem bp (bo + 3) = 1 := setByte_same 1
  have hb0 := hm bp bo
  have hb1 := hm bp (bo + 1)
  have hb2 := hm bp (bo + 2)
  have hb3 := hm bp (bo + 3)
  unfold read4 at hlen ⊢
  rw [c0, c1, c2, c3]
  omega

theorem flst_add_to_empty_first {st : Mtr} {bp bo ap ao : Nat}
    (hap : ap < 4294967296) (hao : ao < 65536) (hd : regDisj ap ao 12 bp bo 16) :
    readAddr (flst_add_to_empty st bp bo ap ao).mem bp (bo + FLST_FIRST) = ⟨ap, ao⟩ := by
  have hd' : ¬(ap = bp ∧ ao < bo + 16 ∧ bo < ao + 12) := hd
  simp only [FLST_FIRST]
  simp only [flst_add_to_empty, FLST_LEN, FLST_FIRST, FLST_LAST, FLST_PREV,
    FIL_ADDR_SIZE, Nat.add_zero]
  refine ((readAddr_frame_of fun r h1 h2 => flst_zero_both_frame (by omega)).trans ?_)
  refine ((readAddr_frame_of fun r h1 h2 => mtrMemmove_frame (by omega)).trans ?_)
  exact flst_write_addr_read hap hao

theorem flst_add_to_empty_last {st : Mtr} {bp bo ap ao : Nat}
    (hap : ap < 4294967296) (hao : ao < 65536) (hd : regDisj ap ao 12 bp bo 16) :
    readAddr (flst_add_to_empty st bp bo ap ao).mem bp (bo + FLST_LAST) = ⟨ap, ao⟩ := by
  have hd' : ¬(ap = bp ∧ ao < bo + 16 ∧ bo < ao + 12) := hd
  simp only [FLST_LAST]
  simp only [flst_add_to_empty, FLST_LEN, FLST_FIRST, FLST_LAST, FLST_PREV,
    FIL_ADDR_SIZE, Nat.add_zero]
  refine ((readAddr_frame_of fun r h1 h2 => flst_zero_both_frame (by omega)).trans ?_)
  refine ((readAddr_mtrMemmove6 _ _ _ _).trans ?_)
  exact flst_write_addr_read hap hao

theorem flst_add_to_empty_prev {st : Mtr} (bp bo ap ao : Nat) :
    readAddr (flst_add_to_empty st bp bo ap ao).mem ap (ao + FLST_PREV) = nullAddr := by
  simp only [FLST_PREV, Nat.add_zero]
  simp only [flst_add_to_empty, FLST_LEN, FLST_FIRST, FLST_LAST, FLST_PREV,
    FIL_ADDR_SIZE, Nat.add_zero]
  exact flst_zero_both_read1 _ _ _

theorem flst_add_to_empty_next {st : Mtr} (bp bo ap ao : Nat) :
    readAddr (flst_add_to_empty st bp bo ap ao).mem ap (ao + FLST_NEXT) = nullAddr := by
  simp only [FLST_NEXT]
  simp only [flst_add_to_empty, FLST_LEN, FLST_FIRST, FLST_LAST, FLST_PREV,
    FIL_ADDR_SIZE, Nat.add_zero]
  exact flst_zero_both_read2 _ _ _

/-! ### Claim C4: the three-element scenario -/

/-- C4: starting from an empty list, add_last(A), add_last(B), then
insert_after(cur = A, add = C), with every neighbor-page fetch succeeding,
yields forward order A, C, B, backward order B, C, A, and length 3; a
subsequent remove(C) yields forward order A, B, length 2, A.next = B and
B.prev = A. -/
theorem C4_thm :
    c4r2.1 = Dberr.DB_SUCCESS ∧ c4r3.1 = Dberr.DB_SUCCESS ∧
    c4r4.1 = Dberr.DB_SUCCESS ∧
    flst_get_len c4r4.2.mem 0 100 = 3 ∧
    flst_get_first c4r4.2.mem 0 100 = ⟨1, 200⟩ ∧
    flst_get_next_addr c4r4.2.mem 1 200 = ⟨3, 400⟩ ∧
    flst_get_next_addr c4r4.2.mem 3 400 = ⟨2, 300⟩ ∧
    flst_get_next_addr c4r4.2.mem 2 300 = nullAddr ∧
    flst_get_last c4r4.2.mem 0 100 = ⟨2, 300⟩ ∧
    flst_get_prev_addr c4r4.2.mem 2 300 = ⟨3, 400⟩ ∧
    flst_get_prev_addr c4r4.2.mem 3 400 = ⟨1, 200⟩ ∧
    flst_get_prev_addr c4r4.2.mem 1 200 = nullAddr ∧
    c4r5.1 = Dberr.DB_SUCCESS ∧
    flst_get_len c4r5.2.mem 0 100 = 2 ∧
    flst_get_first c4r5.2.mem 0 100 = ⟨1, 200⟩ ∧
    flst_get_next_addr c4r5.2.mem 1 200 = ⟨2, 300⟩ ∧
    flst_get_next_addr c4r5.2.mem 2 300 = nullAddr ∧
    flst_get_prev_addr c4r5.2.mem 2 300 = ⟨1, 200⟩ ∧
    flst_get_prev_addr c4r5.2.mem 1 200 = nullAddr ∧
    flst_get_last c4r5.2.mem 0 100 = ⟨2, 300⟩ := by
  decide

/-! ### Claim C1: remove on an empty list -/

/-- C1 counterexample: on a list whose length field is 0, remove does return
the corruption error, but it does not leave the base node unmodified: with a
target node whose next field is (5, 100), the base first field is overwritten
from null to (5, 100) before the error is reported. -/
theorem C1_cex :
    (flst_remove envAll ⟨c1m, []⟩ 0 0 1 50).1 = Dberr.DB_CORRUPTION ∧
    read4 c1m 0 0 = 0 ∧
    flst_get_first c1m 0 0 = nullAddr ∧
    flst_get_first (flst_remove envAll ⟨c1m, []⟩ 0 0 1 50).2.mem 0 0 = ⟨5, 100⟩ := by
  decide

/-! ### Claim C10: the one-byte length write of add_to_empty -/

/-- C10 counterexample: with entry length 1 (violating the asserted
precondition), the resulting length still equals 1, so the resulting length
equals 1 is not equivalent to the precondition length = 0 holding at entry. -/
theorem C10_cex :
    ¬ (read4 (flst_add_to_empty ⟨c10m, []⟩ 0 0 5 50).mem 0 (0 + FLST_LEN) = 1 ↔
       read4 c10m 0 (0 + FLST_LEN) = 0) := by
  decide

/-- C3: flst_write_addr issues no logged write when page and offset are both
unchanged, exactly one 2-byte logged write of the offset field when only the
offset differs, exactly one 4-byte logged write of the page field when only
the page differs, and a single 6-byte logged overwrite otherwise; in all four
cases the resulting 6-byte field holds the encoded (page, offset) value. -/
theorem C3_thm (st : Mtr) (bp a page off : Nat)
    (hp : page < 4294967296) (ho : off < 65536) :
    (read4 st.mem bp (a + FIL_ADDR_PAGE) = page →
      read2 st.mem bp (a + FIL_ADDR_BYTE) = off →
      logDelta st (flst_write_addr st bp a page off) = []) ∧
    (read4 st.mem bp (a + FIL_ADDR_PAGE) = page →
      read2 st.mem bp (a + FIL_ADDR_BYTE) ≠ off →
      logDelta st (flst_write_addr st bp a page off) =
        [LogRec.writeRec bp (a + FIL_ADDR_BYTE) 2 off]) ∧
    (read4 st.mem bp (a + FIL_ADDR_PAGE) ≠ page →
      read2 st.mem bp (a + FIL_ADDR_BYTE) = off →
      logDelta st (flst_write_addr st bp a page off) =
        [LogRec.writeRec bp (a + FIL_ADDR_PAGE) 4 page]) ∧
    (read4 st.mem bp (a + FIL_ADDR_PAGE) ≠ page →
      read2 st.mem bp (a + FIL_ADDR_BYTE) ≠ off →
      logDelta st (flst_write_addr st bp a page off) =
        [LogRec.memcpyRec bp a (encAddr page off)]) ∧
    readAddr (flst_write_addr st bp a page off).mem bp a = ⟨page, off⟩ := by
  refine ⟨?_, ?_, ?_, ?_, flst_write_addr_read hp ho⟩
  · intro h1 h2
    apply logDelta_of_append
    unfold flst_write_addr
    rw [if_pos h1, if_pos h2]
    simp
  · intro h1 h2
    apply logDelta_of_append
    unfold flst_write_addr
    rw [if_pos h1, if_neg h2]
    simp [mtrWrite2, Nat.mod_eq_of_lt ho]
  · intro h1 h2
    apply logDelta_of_append
    unfold flst_write_addr
    rw [if_neg h1, if_pos h2]
    simp [mtrWrite4, Nat.mod_eq_of_lt hp]
  · intro h1 h2
    apply logDelta_of_append
    unfold flst_write_addr
    rw [if_neg h1, if_neg h2]
    simp [mtrMemcpyAddr]

/-- C3 witness: a concrete call with the page unchanged and the offset
changed from 20 to 30. -/
theorem C3_wit :
    (read4 (⟨c3m, []⟩ : Mtr).mem 9 (40 + FIL_ADDR_PAGE) = 7 →
      read2 (⟨c3m, []⟩ : Mtr).mem 9 (40 + FIL_ADDR_BYTE) = 30 →
      logDelta ⟨c3m, []⟩ (flst_write_addr ⟨c3m, []⟩ 9 40 7 30) = []) ∧
    (read4 (⟨c3m, []⟩ : Mtr).mem 9 (40 + FIL_ADDR_PAGE) = 7 →
      read2 (⟨c3m, []⟩ : Mtr).mem 9 (40 + FIL_ADDR_BYTE) ≠ 30 →
      logDelta ⟨c3m, []⟩ (flst_write_addr ⟨c3m, []⟩ 9 40 7 30) =
        [LogRec.writeRec 9 (40 + FIL_ADDR_BYTE) 2 30]) ∧
    (read4 (⟨c3m, []⟩ : Mtr).mem 9 (40 + FIL_ADDR_PAGE) ≠ 7 →
      read2 (⟨c3m, []⟩ : Mtr).mem 9 (40 + FIL_ADDR_BYTE) = 30 →
      logDelta ⟨c3m, []⟩ (flst_write_addr ⟨c3m, []⟩ 9 40 7 30) =
        [LogRec.writeRec 9 (40 + FIL_ADDR_PAGE) 4 7]) ∧
    (read4 (⟨c3m, []⟩ : Mtr).mem 9 (40 + FIL_ADDR_PAGE) ≠ 7 →
      read2 (⟨c3m, []⟩ : Mtr).mem 9 (40 + FIL_ADDR_BYTE) ≠ 30 →
      logDelta ⟨c3m, []⟩ (flst_write_addr ⟨c3m, []⟩ 9 40 7 30) =
        [LogRec.memcpyRec 9 40 (encAddr 7 30)]) ∧
    readAddr (flst_write_addr ⟨c3m, []⟩ 9 40 7 30).mem 9 40 = ⟨7, 30⟩ :=
  C3_thm ⟨c3m, []⟩ 9 40 7 30 (by norm_num) (by norm_num)

/-- Helper: the all-zero byte store is a well-formed byte store. -/
theorem byteMem_mem0 : ByteMem mem0 := fun _ _ => by norm_num [mem0]

/-- C10 (amended): add_to_empty updates the length counter by a single
1-byte logged write of the value 1 to its least-significant byte, leaving the
upper three bytes unchanged; the resulting length is (entry length / 256)
* 256 + 1, which equals 1 exactly when the entry length is below 256 — in
particular when the asserted precondition length = 0 holds, but not only
then. -/
theorem C10_thm {st : Mtr} {bp bo ap ao : Nat} (hm : ByteMem st.mem)
    (hd : regDisj ap ao 12 bp bo 16) :
    (logDelta st (flst_add_to_empty st bp bo ap ao)).filter
        (fun rec => recTouches rec bp bo 4) =
      [LogRec.writeRec bp (bo + FLST_LEN + 3) 1 1] ∧
    (∀ i, i < 3 → (flst_add_to_empty st bp bo ap ao).mem bp (bo + i) =
      st.mem bp (bo + i)) ∧
    (flst_add_to_empty st bp bo ap ao).mem bp (bo + 3) = 1 ∧
    read4 (flst_add_to_empty st bp bo ap ao).mem bp (bo + FLST_LEN) =
      read4 st.mem bp (bo + FLST_LEN) / 256 * 256 + 1 ∧
    (read4 (flst_add_to_empty st bp bo ap ao).mem bp (bo + FLST_LEN) = 1 ↔
      read4 st.mem bp (bo + FLST_LEN) < 256) := by
  have hd' : ¬(ap = bp ∧ ao < bo + 16 ∧ bo < ao + 12) := hd
  have hbyte : ∀ r, bo ≤ r → r < bo + 4 →
      (flst_add_to_empty st bp bo ap ao).mem bp r =
      (mtrWrite1 st bp (bo + 3) 1).mem bp r := by
    intro r h1 h2
    simp only [flst_add_to_empty, FLST_LEN, FLST_FIRST, FLST_LAST, FLST_PREV,
      FIL_ADDR_SIZE, Nat.add_zero]
    exact ((flst_zero_both_frame (by omega)).trans
      ((mtrMemmove_frame (by omega)).trans (flst_write_addr_frame (by omega))))
  have k0 : (flst_add_to_empty st bp bo ap ao).mem bp bo = st.mem bp bo :=
    (hbyte bo (by omega) (by omega)).trans (mtrWrite1_frame (by omega))
  have k1 : (flst_add_to_empty st bp bo ap ao).mem bp (bo + 1) = st.mem bp (bo + 1) :=
    (hbyte (bo + 1) (by omega) (by omega)).trans (mtrWrite1_frame (by omega))
  have k2 : (flst_add_to_empty st bp bo ap ao).mem bp (bo + 2) = st.mem bp (bo + 2) :=
    (hbyte (bo + 2) (by omega) (by omega)).trans (mtrWrite1_frame (by omega))
  have k3 : (flst_add_to_empty st bp bo ap ao).mem bp (bo + 3) = 1 :=
    (hbyte (bo + 3) (by omega) (by omega)).trans (setByte_same 1)
  have hb0 := hm bp bo
  have hb1 := hm bp (bo + 1)
  have hb2 := hm bp (bo + 2)
  have hb3 := hm bp (bo + 3)
  have hform : read4 (flst_add_to_empty st bp bo ap ao).mem bp (bo + FLST_LEN) =
      read4 st.mem bp (bo + FLST_LEN) / 256 * 256 + 1 := by
    simp only [FLST_LEN, Nat.add_zero]
    unfold read4
    rw [k0, k1, k2, k3]
    omega
  refine ⟨?_, ?_, k3, hform, by rw [hform]; omega⟩
  · have hside1 : ∀ rec : LogRec, (recTarget rec).1 = bp →
        bo + FLST_FIRST ≤ (recTarget rec).2.1 →
        (recTarget rec).2.1 + (recTarget rec).2.2 ≤ bo + FLST_FIRST + 6 →
        recTouches rec bp bo 4 = false := by
      intro rec e1 e2 e3
      simp only [FLST_FIRST] at e2 e3
      have hns : ¬((recTarget rec).2.1 < bo + 4) := by omega
      simp [recTouches, hns]
    have hside2 : ∀ rec : LogRec, (recTarget rec).1 = bp →
        bo + FLST_LAST ≤ (recTarget rec).2.1 →
        (recTarget rec).2.1 + (recTarget rec).2.2 ≤ bo + FLST_LAST + 6 →
        recTouches rec bp bo 4 = false := by
      intro rec e1 e2 e3
      simp only [FLST_LAST] at e2 e3
      have hns : ¬((recTarget rec).2.1 < bo + 4) := by omega
      simp [recTouches, hns]
    have hside3 : ∀ rec : LogRec, (recTarget rec).1 = ap →
        ao + FLST_PREV ≤ (recTarget rec).2.1 →
        (recTarget rec).2.1 + (recTarget rec).2.2 ≤ ao + FLST_PREV + 12 →
        recTouches rec bp bo 4 = false := by
      intro rec e1 e2 e3
      simp only [FLST_PREV, Nat.add_zero] at e2 e3
      by_cases hab : ap = bp
      · subst hab
        have hcon : ¬(bo < (recTarget rec).2.1 + (recTarget rec).2.2 ∧
            (recTarget rec).2.1 < bo + 4) := by omega
        rcases Nat.lt_or_ge (recTarget rec).2.1 (bo + 4) with hlt | hge
        · have : ¬(bo < (recTarget rec).2.1 + (recTarget rec).2.2) := by omega
          simp [recTouches, this]
        · have : ¬((recTarget rec).2.1 < bo + 4) := by omega
          simp [recTouches, this]
      · simp [recTouches, e1, hab]
    have hT : TargetsSub (mtrWrite1 st bp (bo + FLST_LEN + 3) 1)
        (flst_add_to_empty st bp bo ap ao)
        (fun rec => recTouches rec bp bo 4 = false) := by
      simp only [flst_add_to_empty]
      refine TargetsSub.comp (mtrMemmove (flst_write_addr
        (mtrWrite1 st bp (bo + FLST_LEN + 3) 1) bp (bo + FLST_FIRST) ap ao)
        bp (bo + FLST_LAST) (bo + FLST_FIRST) FIL_ADDR_SIZE) ?_ ?_
      · refine TargetsSub.comp (flst_write_addr
          (mtrWrite1 st bp (bo + FLST_LEN + 3) 1) bp (bo + FLST_FIRST) ap ao) ?_ ?_
        · exact flst_write_addr_targets hside1
        · exact targetsSub_single rfl (hside2 _ rfl
            (show bo + FLST_LAST ≤ bo + FLST_LAST by omega)
            (show bo + FLST_LAST + FIL_ADDR_SIZE ≤ bo + FLST_LAST + 6 by simp))
      · exact flst_zero_both_targets hside3
    obtain ⟨l, hl, hP⟩ := hT
    have hdelta : logDelta st (flst_add_to_empty st bp bo ap ao) =
        LogRec.writeRec bp (bo + FLST_LEN + 3) 1 (1 % 256) :: l := by
      apply logDelta_of_append
      rw [hl]
      show (mtrWrite1 st bp (bo + FLST_LEN + 3) 1).log ++ l = _
      simp [mtrWrite1]
    rw [hdelta]
    have hw : recTouches (LogRec.writeRec bp (bo + FLST_LEN + 3) 1 (1 % 256))
        bp bo 4 = true := by
      simp [recTouches]
      omega
    rw [List.filter_cons]
    rw [hw]
    simp only [if_true]
    have hnil : l.filter (fun rec => recTouches rec bp bo 4) = [] :=
      List.filter_eq_nil_iff.mpr (fun rec h => by simp [hP rec h])
    rw [hnil]
  · intro i hi
    interval_cases i
    · exact k0
    · exact k1
    · exact k2

/-- C10 witness: the concrete call on the all-zero store. -/
theorem C10_wit :
    (logDelta ⟨mem0, []⟩ (flst_add_to_empty ⟨mem0, []⟩ 0 0 5 50)).filter
        (fun rec => recTouches rec 0 0 4) =
      [LogRec.writeRec 0 (0 + FLST_LEN + 3) 1 1] ∧
    (∀ i, i < 3 → (flst_add_to_empty ⟨mem0, []⟩ 0 0 5 50).mem 0 (0 + i) =
      (⟨mem0, []⟩ : Mtr).mem 0 (0 + i)) ∧
    (flst_add_to_empty ⟨mem0, []⟩ 0 0 5 50).mem 0 (0 + 3) = 1 ∧
    read4 (flst_add_to_empty ⟨mem0, []⟩ 0 0 5 50).mem 0 (0 + FLST_LEN) =
      read4 (⟨mem0, []⟩ : Mtr).mem 0 (0 + FLST_LEN) / 256 * 256 + 1 ∧
    (read4 (flst_add_to_empty ⟨mem0, []⟩ 0 0 5 50).mem 0 (0 + FLST_LEN) = 1 ↔
      read4 (⟨mem0, []⟩ : Mtr).mem 0 (0 + FLST_LEN) < 256) :=
  C10_thm byteMem_mem0 (by simp [regDisj])

set_option maxRecDepth 8000 in
theorem flst_insert_after_tail {env : FetchEnv} {st : Mtr} {bp bo cp co ap ao : Nat}
    (hm : ByteMem st.mem)
    (hcp : cp < 4294967296) (hco : co < 65536)
    (hap : ap < 4294967296) (hao : ao < 65536)
    (dac : regDisj ap ao 12 cp co 12)
    (dab : regDisj ap ao 12 bp bo 16)
    (dcb : regDisj cp co 12 bp bo 16)
    (hnull : flst_get_next_addr st.mem cp co = nullAddr)
    (hlen : read4 st.mem bp (bo + FLST_LEN) + 1 < 4294967296) :
    (flst_insert_after env st bp bo cp co ap ao).1 = Dberr.DB_SUCCESS ∧
    prevF (flst_insert_after env st bp bo cp co ap ao).2.mem ⟨ap, ao⟩ = ⟨cp, co⟩ ∧
    nextF (flst_insert_after env st bp bo cp co ap ao).2.mem ⟨ap, ao⟩ = nullAddr ∧
    nextF (flst_insert_after env st bp bo cp co ap ao).2.mem ⟨cp, co⟩ = ⟨ap, ao⟩ ∧
    readAddr (flst_insert_after env st bp bo cp co ap ao).2.mem bp (bo + FLST_LAST) =
      ⟨ap, ao⟩ ∧
    read4 (flst_insert_after env st bp bo cp co ap ao).2.mem bp (bo + FLST_LEN) =
      read4 st.mem bp (bo + FLST_LEN) + 1 ∧
    ByteMem (flst_insert_after env st bp bo cp co ap ao).2.mem ∧
    (∀ q r, ¬(q = ap ∧ ao ≤ r ∧ r < ao + 12) → ¬(q = cp ∧ co + 6 ≤ r ∧ r < co + 12) →
      ¬(q = bp ∧ bo ≤ r ∧ r < bo + 4) → ¬(q = bp ∧ bo + 10 ≤ r ∧ r < bo + 16) →
      (flst_insert_after env st bp bo cp co ap ao).2.mem q r = st.mem q r) := by
  have dbc := regDisj_symm dcb
  have dba := regDisj_symm dab
  simp only [flst_insert_after, FLST_LEN, FLST_PREV, FLST_NEXT, FLST_LAST,
    Nat.add_zero, hnull, nullAddr, if_true]
  refine ⟨by trivial, ?_, ?_, ?_, ?_, ?_, ?_, ?_⟩
  · simp only [prevF, FLST_PREV, Nat.add_zero]
    refine ((readAddr_frame_of fun r h1 h2 => write4mem_frame
      (regDisj_cond dab (by omega) (by omega) (by omega) (by omega) h1 h2)).trans ?_)
    refine ((readAddr_frame_of fun r h1 h2 => flst_write_addr_frame
      (regDisj_cond dac (by omega) (by omega) (by omega) (by omega) h1 h2)).trans ?_)
    refine ((readAddr_frame_of fun r h1 h2 => flst_write_addr_frame
      (regDisj_cond dab (by omega) (by omega) (by omega) (by omega) h1 h2)).trans ?_)
    refine ((readAddr_frame_of fun r h1 h2 => flst_write_addr_frame (by omega)).trans ?_)
    exact flst_write_addr_read hcp hco
  · simp only [nextF, FLST_NEXT, nullAddr]
    refine ((readAddr_frame_of fun r h1 h2 => write4mem_frame
      (regDisj_cond dab (by omega) (by omega) (by omega) (by omega) h1 h2)).trans ?_)
    refine ((readAddr_frame_of fun r h1 h2 => flst_write_addr_frame
      (regDisj_cond dac (by omega) (by omega) (by omega) (by omega) h1 h2)).trans ?_)
    refine ((readAddr_frame_of fun r h1 h2 => flst_write_addr_frame
      (regDisj_cond dab (by omega) (by omega) (by omega) (by omega) h1 h2)).trans ?_)
    exact flst_write_addr_read (by norm_num) (by norm_num)
  · simp only [nextF, FLST_NEXT]
    refine ((readAddr_frame_of fun r h1 h2 => write4mem_frame
      (regDisj_cond dcb (by omega) (by omega) (by omega) (by omega) h1 h2)).trans ?_)
    exact flst_write_addr_read hap hao
  · refine ((readAddr_frame_of fun r h1 h2 => write4mem_frame (by omega)).trans ?_)
    refine ((readAddr_frame_of fun r h1 h2 => flst_write_addr_frame
      (regDisj_cond dbc (by omega) (by omega) (by omega) (by omega) h1 h2)).trans ?_)
    exact flst_write_addr_read hap hao
  · simp only [FLST_LEN, Nat.add_zero] at hlen ⊢
    rw [mtrWrite4_read]
    have e3 : read4 (flst_write_addr (flst_write_addr (flst_write_addr (flst_write_addr st
        ap ao cp co) ap (ao + 6) FIL_NULL 0) bp (bo + 10) ap ao)
        cp (co + 6) ap ao).mem bp bo = read4 st.mem bp bo := by
      refine ((read4_frame_of fun r h1 h2 => flst_write_addr_frame
        (regDisj_cond dbc (by omega) (by omega) (by omega) (by omega) h1 h2)).trans ?_)
      refine ((read4_frame_of fun r h1 h2 => flst_write_addr_frame (by omega)).trans ?_)
      refine ((read4_frame_of fun r h1 h2 => flst_write_addr_frame
        (regDisj_cond dba (by omega) (by omega) (by omega) (by omega) h1 h2)).trans ?_)
      exact read4_frame_of fun r h1 h2 => flst_write_addr_frame
        (regDisj_cond dba (by omega) (by omega) (by omega) (by omega) h1 h2)
    rw [e3]
    omega
  · exact byteMem_write4mem (byteMem_flst_write_addr (byteMem_flst_write_addr
      (byteMem_flst_write_addr (byteMem_flst_write_addr hm _ _ _ _) _ _ _ _)
      _ _ _ _) _ _ _ _) _ _ _
  · intro q r h1 h2 h3 h4
    refine (write4mem_frame (by omega)).trans ?_
    refine (flst_write_addr_frame (by omega)).trans ?_
    refine (flst_write_addr_frame (by omega)).trans ?_
    refine (flst_write_addr_frame (by omega)).trans ?_
    exact flst_write_addr_frame (by omega)

set_option maxRecDepth 8000 in
theorem flst_insert_after_mid {env : FetchEnv} {st : Mtr} {bp bo cp co ap ao np no : Nat}
    (hm : ByteMem st.mem)
    (hna : flst_get_next_addr st.mem cp co = ⟨np, no⟩)
    (hcp : cp < 4294967296) (hco : co < 65536)
    (hap : ap < 4294967296) (hao : ao < 65536)
    (dac : regDisj ap ao 12 cp co 12)
    (dab : regDisj ap ao 12 bp bo 16)
    (dcb : regDisj cp co 12 bp bo 16)
    (dna : regDisj np no 12 ap ao 12)
    (dnc : regDisj np no 12 cp co 12)
    (dnb : regDisj np no 12 bp bo 16)
    (hnn : np ≠ FIL_NULL)
    (henv : env np = none)
    (hlen : read4 st.mem bp (bo + FLST_LEN) + 1 < 4294967296) :
    (flst_insert_after env st bp bo cp co ap ao).1 = Dberr.DB_SUCCESS ∧
    prevF (flst_insert_after env st bp bo cp co ap ao).2.mem ⟨ap, ao⟩ = ⟨cp, co⟩ ∧
    nextF (flst_insert_after env st bp bo cp co ap ao).2.mem ⟨ap, ao⟩ = ⟨np, no⟩ ∧
    nextF (flst_insert_after env st bp bo cp co ap ao).2.mem ⟨cp, co⟩ = ⟨ap, ao⟩ ∧
    prevF (flst_insert_after env st bp bo cp co ap ao).2.mem ⟨np, no⟩ = ⟨ap, ao⟩ ∧
    read4 (flst_insert_after env st bp bo cp co ap ao).2.mem bp (bo + FLST_LEN) =
      read4 st.mem bp (bo + FLST_LEN) + 1 ∧
    ByteMem (flst_insert_after env st bp bo cp co ap ao).2.mem ∧
    (∀ q r, ¬(q = ap ∧ ao ≤ r ∧ r < ao + 12) → ¬(q = cp ∧ co + 6 ≤ r ∧ r < co + 12) →
      ¬(q = bp ∧ bo ≤ r ∧ r < bo + 4) → ¬(q = np ∧ no ≤ r ∧ r < no + 6) →
      (flst_insert_after env st bp bo cp co ap ao).2.mem q r = st.mem q r) := by
  have dbc := regDisj_symm dcb
  have dba := regDisj_symm dab
  have dan := regDisj_symm dna
  have dbn := regDisj_symm dnb
  have hnap : np < 4294967296 := by
    have hx : (flst_get_next_addr st.mem cp co).page < 4294967296 := read4_lt hm _ _
    rwa [hna] at hx
  have hnao : no < 65536 := by
    have hx : (flst_get_next_addr st.mem cp co).boffset < 65536 := read2_lt hm _ _
    rwa [hna] at hx
  simp only [flst_insert_after, FLST_LEN, FLST_PREV, FLST_NEXT, FLST_LAST,
    Nat.add_zero, hna, henv, if_neg hnn]
  refine ⟨by trivial, ?_, ?_, ?_, ?_, ?_, ?_, ?_⟩
  · simp only [prevF, FLST_PREV, Nat.add_zero]
    refine ((readAddr_frame_of fun r h1 h2 => write4mem_frame
      (regDisj_cond dab (by omega) (by omega) (by omega) (by omega) h1 h2)).trans ?_)
    refine ((readAddr_frame_of fun r h1 h2 => flst_write_addr_frame
      (regDisj_cond dac (by omega) (by omega) (by omega) (by omega) h1 h2)).trans ?_)
    refine ((readAddr_frame_of fun r h1 h2 => flst_write_addr_frame
      (regDisj_cond dan (by omega) (by omega) (by omega) (by omega) h1 h2)).trans ?_)
    refine ((readAddr_frame_of fun r h1 h2 => flst_write_addr_frame (by omega)).trans ?_)
    exact flst_write_addr_read hcp hco
  · simp only [nextF, FLST_NEXT]
    refine ((readAddr_frame_of fun r h1 h2 => write4mem_frame
      (regDisj_cond dab (by omega) (by omega) (by omega) (by omega) h1 h2)).trans ?_)
    refine ((readAddr_frame_of fun r h1 h2 => flst_write_addr_frame
      (regDisj_cond dac (by omega) (by omega) (by omega) (by omega) h1 h2)).trans ?_)
    refine ((readAddr_frame_of fun r h1 h2 => flst_write_addr_frame
      (regDisj_cond dan (by omega) (by omega) (by omega) (by omega) h1 h2)).trans ?_)
    exact flst_write_addr_read hnap hnao
  · simp only [nextF, FLST_NEXT]
    refine ((readAddr_frame_of fun r h1 h2 => write4mem_frame
      (regDisj_cond dcb (by omega) (by omega) (by omega) (by omega) h1 h2)).trans ?_)
    exact flst_write_addr_read hap hao
  · simp only [prevF, FLST_PREV, Nat.add_zero]
    refine ((readAddr_frame_of fun r h1 h2 => write4mem_frame
      (regDisj_cond dnb (by omega) (by omega) (by omega) (by omega) h1 h2)).trans ?_)
    refine ((readAddr_frame_of fun r h1 h2 => flst_write_addr_frame
      (regDisj_cond dnc (by omega) (by omega) (by omega) (by omega) h1 h2)).trans ?_)
    exact flst_write_addr_read hap hao
  · simp only [FLST_LEN, Nat.add_zero] at hlen ⊢
    rw [mtrWrite4_read]
    have e3 : read4 (flst_write_addr (flst_write_addr (flst_write_addr (flst_write_addr st
        ap ao cp co) ap (ao + 6) np no) np no ap ao)
        cp (co + 6) ap ao).mem bp bo = read4 st.mem bp bo := by
      refine ((read4_frame_of fun r h1 h2 => flst_write_addr_frame
        (regDisj_cond dbc (by omega) (by omega) (by omega) (by omega) h1 h2)).trans ?_)
      refine ((read4_frame_of fun r h1 h2 => flst_write_addr_frame
        (regDisj_cond dbn (by omega) (by omega) (by omega) (by omega) h1 h2)).trans ?_)
      refine ((read4_frame_of fun r h1 h2 => flst_write_addr_frame
        (regDisj_cond dba (by omega) (by omega) (by omega) (by omega) h1 h2)).trans ?_)
      exact read4_frame_of fun r h1 h2 => flst_write_addr_frame
        (regDisj_cond dba (by omega) (by omega) (by omega) (by omega) h1 h2)
    rw [e3]
    omega
  · exact byteMem_write4mem (byteMem_flst_write_addr (byteMem_flst_write_addr
      (byteMem_flst_write_addr (byteMem_flst_write_addr hm _ _ _ _) _ _ _ _)
      _ _ _ _) _ _ _ _) _ _ _
  · intro q r h1 h2 h3 h4
    refine (write4mem_frame (by omega)).trans ?_
    refine (flst_write_addr_frame (by omega)).trans ?_
    refine (flst_write_addr_frame (by omega)).trans ?_
    refine (flst_write_addr_frame (by omega)).trans ?_
    exact flst_write_addr_frame (by omega)

set_option maxRecDepth 8000 in
theorem flst_insert_before_head {env : FetchEnv} {st : Mtr} {bp bo cp co ap ao : Nat}
    (hm : ByteMem st.mem)
    (hcp : cp < 4294967296) (hco : co < 65536)
    (hap : ap < 4294967296) (hao : ao < 65536)
    (dac : regDisj ap ao 12 cp co 12)
    (dab : regDisj ap ao 12 bp bo 16)
    (dcb : regDisj cp co 12 bp bo 16)
    (hnull : flst_get_prev_addr st.mem cp co = nullAddr)
    (hlen : read4 st.mem bp (bo + FLST_LEN) + 1 < 4294967296) :
    (flst_insert_before env st bp bo cp co ap ao).1 = Dberr.DB_SUCCESS ∧
    prevF (flst_insert_before env st bp bo cp co ap ao).2.mem ⟨ap, ao⟩ = nullAddr ∧
    nextF (flst_insert_before env st bp bo cp co ap ao).2.mem ⟨ap, ao⟩ = ⟨cp, co⟩ ∧
    prevF (flst_insert_before env st bp bo cp co ap ao).2.mem ⟨cp, co⟩ = ⟨ap, ao⟩ ∧
    readAddr (flst_insert_before env st bp bo cp co ap ao).2.mem bp (bo + FLST_FIRST) =
      ⟨ap, ao⟩ ∧
    read4 (flst_insert_before env st bp bo cp co ap ao).2.mem bp (bo + FLST_LEN) =
      read4 st.mem bp (bo + FLST_LEN) + 1 ∧
    ByteMem (flst_insert_before env st bp bo cp co ap ao).2.mem ∧
    (∀ q r, ¬(q = ap ∧ ao ≤ r ∧ r < ao + 12) → ¬(q = cp ∧ co ≤ r ∧ r < co + 6) →
      ¬(q = bp ∧ bo ≤ r ∧ r < bo + 10) →
      (flst_insert_before env st bp bo cp co ap ao).2.mem q r = st.mem q r) := by
  have dbc := regDisj_symm dcb
  have dba := regDisj_symm dab
  simp only [flst_insert_before, FLST_LEN, FLST_PREV, FLST_NEXT, FLST_FIRST,
    Nat.add_zero, hnull, nullAddr, if_true]
  refine ⟨by trivial, ?_, ?_, ?_, ?_, ?_, ?_, ?_⟩
  · simp only [prevF, FLST_PREV, Nat.add_zero, nullAddr]
    refine ((readAddr_frame_of fun r h1 h2 => write4mem_frame
      (regDisj_cond dab (by omega) (by omega) (by omega) (by omega) h1 h2)).trans ?_)
    refine ((readAddr_frame_of fun r h1 h2 => flst_write_addr_frame
      (regDisj_cond dac (by omega) (by omega) (by omega) (by omega) h1 h2)).trans ?_)
    refine ((readAddr_frame_of fun r h1 h2 => flst_write_addr_frame
      (regDisj_cond dab (by omega) (by omega) (by omega) (by omega) h1 h2)).trans ?_)
    refine ((readAddr_frame_of fun r h1 h2 => flst_write_addr_frame (by omega)).trans ?_)
    exact flst_write_addr_read (by norm_num) (by norm_num)
  · simp only [nextF, FLST_NEXT]
    refine ((readAddr_frame_of fun r h1 h2 => write4mem_frame
      (regDisj_cond dab (by omega) (by omega) (by omega) (by omega) h1 h2)).trans ?_)
    refine ((readAddr_frame_of fun r h1 h2 => flst_write_addr_frame
      (regDisj_cond dac (by omega) (by omega) (by omega) (by omega) h1 h2)).trans ?_)
    refine ((readAddr_frame_of fun r h1 h2 => flst_write_addr_frame
      (regDisj_cond dab (by omega) (by omega) (by omega) (by omega) h1 h2)).trans ?_)
    exact flst_write_addr_read hcp hco
  · simp only [prevF, FLST_PREV, Nat.add_zero]
    refine ((readAddr_frame_of fun r h1 h2 => write4mem_frame
      (regDisj_cond dcb (by omega) (by omega) (by omega) (by omega) h1 h2)).trans ?_)
    exact flst_write_addr_read hap hao
  · refine ((readAddr_frame_of fun r h1 h2 => write4mem_frame (by omega)).trans ?_)
    refine ((readAddr_frame_of fun r h1 h2 => flst_write_addr_frame
      (regDisj_cond dbc (by omega) (by omega) (by omega) (by omega) h1 h2)).trans ?_)
    exact flst_write_addr_read hap hao
  · simp only [FLST_LEN, Nat.add_zero] at hlen ⊢
    rw [mtrWrite4_read]
    have e3 : read4 (flst_write_addr (flst_write_addr (flst_write_addr (flst_write_addr st
        ap ao FIL_NULL 0) ap (ao + 6) cp co) bp (bo + 4) ap ao)
        cp co ap ao).mem bp bo = read4 st.mem bp bo := by
      refine ((read4_frame_of fun r h1 h2 => flst_write_addr_frame
        (regDisj_cond dbc (by omega) (by omega) (by omega) (by omega) h1 h2)).trans ?_)
      refine ((read4_frame_of fun r h1 h2 => flst_write_addr_frame (by omega)).trans ?_)
      refine ((read4_frame_of fun r h1 h2 => flst_write_addr_frame
        (regDisj_cond dba (by omega) (by omega) (by omega) (by omega) h1 h2)).trans ?_)
      exact read4_frame_of fun r h1 h2 => flst_write_addr_frame
        (regDisj_cond dba (by omega) (by omega) (by omega) (by omega) h1 h2)
    rw [e3]
    omega
  · exact byteMem_write4mem (byteMem_flst_write_addr (byteMem_flst_write_addr
      (byteMem_flst_write_addr (byteMem_flst_write_addr hm _ _ _ _) _ _ _ _)
      _ _ _ _) _ _ _ _) _ _ _
  · intro q r h1 h2 h3
    refine (write4mem_frame (by omega)).trans ?_
    refine (flst_write_addr_frame (by omega)).trans ?_
    refine (flst_write_addr_frame (by omega)).trans ?_
    refine (flst_write_addr_frame (by omega)).trans ?_
    exact flst_write_addr_frame (by omega)

set_option maxRecDepth 8000 in
theorem flst_insert_before_mid {env : FetchEnv} {st : Mtr} {bp bo cp co ap ao pp po : Nat}
    (hm : ByteMem st.mem)
    (hpa : flst_get_prev_addr st.mem cp co = ⟨pp, po⟩)
    (hcp : cp < 4294967296) (hco : co < 65536)
    (hap : ap < 4294967296) (hao : ao < 65536)
    (dac : regDisj ap ao 12 cp co 12)
    (dab : regDisj ap ao 12 bp bo 16)
    (dcb : regDisj cp co 12 bp bo 16)
    (dpa : regDisj pp po 12 ap ao 12)
    (dpc : regDisj pp po 12 cp co 12)
    (dpb : regDisj pp po 12 bp bo 16)
    (hnn : pp ≠ FIL_NULL)
    (henv : env pp = none)
    (hlen : read4 st.mem bp (bo + FLST_LEN) + 1 < 4294967296) :
    (flst_insert_before env st bp bo cp co ap ao).1 = Dberr.DB_SUCCESS ∧
    prevF (flst_insert_before env st bp bo cp co ap ao).2.mem ⟨ap, ao⟩ = ⟨pp, po⟩ ∧
    nextF (flst_insert_before env st bp bo cp co ap ao).2.mem ⟨ap, ao⟩ = ⟨cp, co⟩ ∧
    prevF (flst_insert_before env st bp bo cp co ap ao).2.mem ⟨cp, co⟩ = ⟨ap, ao⟩ ∧
    nextF (flst_insert_before env st bp bo cp co ap ao).2.mem ⟨pp, po⟩ = ⟨ap, ao⟩ ∧
    read4 (flst_insert_before env st bp bo cp co ap ao).2.mem bp (bo + FLST_LEN) =
      read4 st.mem bp (bo + FLST_LEN) + 1 ∧
    ByteMem (flst_insert_before env st bp bo cp co ap ao).2.mem ∧
    (∀ q r, ¬(q = ap ∧ ao ≤ r ∧ r < ao + 12) → ¬(q = cp ∧ co ≤ r ∧ r < co + 6) →
      ¬(q = bp ∧ bo ≤ r ∧ r < bo + 4) → ¬(q = pp ∧ po + 6 ≤ r ∧ r < po + 12) →
      (flst_insert_before env st bp bo cp co ap ao).2.mem q r = st.mem q r) := by
  have dbc := regDisj_symm dcb
  have dba := regDisj_symm dab
  have dap := regDisj_symm dpa
  have dbp := regDisj_symm dpb
  have hpap : pp < 4294967296 := by
    have hx : (flst_get_prev_addr st.mem cp co).page < 4294967296 := read4_lt hm _ _
    rwa [hpa] at hx
  have hpao : po < 65536 := by
    have hx : (flst_get_prev_addr st.mem cp co).boffset < 65536 := read2_lt hm _ _
    rwa [hpa] at hx
  simp only [flst_insert_before, FLST_LEN, FLST_PREV, FLST_NEXT, FLST_FIRST,
    Nat.add_zero, hpa, henv, if_neg hnn]
  refine ⟨by trivial, ?_, ?_, ?_, ?_, ?_, ?_, ?_⟩
  · simp only [prevF, FLST_PREV, Nat.add_zero]
    refine ((readAddr_frame_of fun r h1 h2 => write4mem_frame
      (regDisj_cond dab (by omega) (by omega) (by omega) (by omega) h1 h2)).trans ?_)
    refine ((readAddr_frame_of fun r h1 h2 => flst_write_addr_frame
      (regDisj_cond dac (by omega) (by omega) (by omega) (by omega) h1 h2)).trans ?_)
    refine ((readAddr_frame_of fun r h1 h2 => flst_write_addr_frame
      (regDisj_cond dap (by omega) (by omega) (by omega) (by omega) h1 h2)).trans ?_)
    refine ((readAddr_frame_of fun r h1 h2 => flst_write_addr_frame (by omega)).trans ?_)
    exact flst_write_addr_read hpap hpao
  · simp only [nextF, FLST_NEXT]
    refine ((readAddr_frame_of fun r h1 h2 => write4mem_frame
      (regDisj_cond dab (by omega) (by omega) (by omega) (by omega) h1 h2)).trans ?_)
    refine ((readAddr_frame_of fun r h1 h2 => flst_write_addr_frame
      (regDisj_cond dac (by omega) (by omega) (by omega) (by omega) h1 h2)).trans ?_)
    refine ((readAddr_frame_of fun r h1 h2 => flst_write_addr_frame
      (regDisj_cond dap (by omega) (by omega) (by omega) (by omega) h1 h2)).trans ?_)
    exact flst_write_addr_read hcp hco
  · simp only [prevF, FLST_PREV, Nat.add_zero]
    refine ((readAddr_frame_of fun r h1 h2 => write4mem_frame
      (regDisj_cond dcb (by omega) (by omega) (by omega) (by omega) h1 h2)).trans ?_)
    exact flst_write_addr_read hap hao
  · simp only [nextF, FLST_NEXT]
    refine ((readAddr_frame_of fun r h1 h2 => write4mem_frame
      (regDisj_cond dpb (by omega) (by omega) (by omega) (by omega) h1 h2)).trans ?_)
    refine ((readAddr_frame_of fun r h1 h2 => flst_write_addr_frame
      (regDisj_cond dpc (by omega) (by omega) (by omega) (by omega) h1 h2)).trans ?_)
    exact flst_write_addr_read hap hao
  · simp only [FLST_LEN, Nat.add_zero] at hlen ⊢
    rw [mtrWrite4_read]
    have e3 : read4 (flst_write_addr (flst_write_addr (flst_write_addr (flst_write_addr st
        ap ao pp po) ap (ao + 6) cp co) pp (po + 6) ap ao)
        cp co ap ao).mem bp bo = read4 st.mem bp bo := by
      refine ((read4_frame_of fun r h1 h2 => flst_write_addr_frame
        (regDisj_cond dbc (by omega) (by omega) (by omega) (by omega) h1 h2)).trans ?_)
      refine ((read4_frame_of fun r h1 h2 => flst_write_addr_frame
        (regDisj_cond dbp (by omega) (by omega) (by omega) (by omega) h1 h2)).trans ?_)
      refine ((read4_frame_of fun r h1 h2 => flst_write_addr_frame
        (regDisj_cond dba (by omega) (by omega) (by omega) (by omega) h1 h2)).trans ?_)
      exact read4_frame_of fun r h1 h2 => flst_write_addr_frame
        (regDisj_cond dba (by omega) (by omega) (by omega) (by omega) h1 h2)
    rw [e3]
    omega
  · exact byteMem_write4mem (byteMem_flst_write_addr (byteMem_flst_write_addr
      (byteMem_flst_write_addr (byteMem_flst_write_addr hm _ _ _ _) _ _ _ _)
      _ _ _ _) _ _ _ _) _ _ _
  · intro q r h1 h2 h3 h4
    refine (write4mem_frame (by omega)).trans ?_
    refine (flst_write_addr_frame (by omega)).trans ?_
    refine (flst_write_addr_frame (by omega)).trans ?_
    refine (flst_write_addr_frame (by omega)).trans ?_
    exact flst_write_addr_frame (by omega)

theorem flst_remove_side1_spec {env : FetchEnv} {st : Mtr} {bp bo cp : Nat}
    {pa na : FilAddr}
    (hm : ByteMem st.mem) (hnap : na.page < 4294967296) (hnao : na.boffset < 65536) :
    (flst_remove_side1 env st bp bo cp pa na).1 =
      (match (if pa.page = FIL_NULL ∨ pa.page = cp then none else env pa.page) with
       | some e => e
       | none => Dberr.DB_SUCCESS) ∧
    ((if pa.page = FIL_NULL ∨ pa.page = cp then none else env pa.page) = none →
      (if pa.page = FIL_NULL then
        readAddr (flst_remove_side1 env st bp bo cp pa na).2.mem bp (bo + FLST_FIRST) = na
       else nextF (flst_remove_side1 env st bp bo cp pa na).2.mem pa = na)) ∧
    ByteMem (flst_remove_side1 env st bp bo cp pa na).2.mem ∧
    (∀ q r, (pa.page = FIL_NULL → ¬(q = bp ∧ bo + 4 ≤ r ∧ r < bo + 10)) →
      (pa.page ≠ FIL_NULL → ¬(q = pa.page ∧ pa.boffset + 6 ≤ r ∧ r < pa.boffset + 12)) →
      (flst_remove_side1 env st bp bo cp pa na).2.mem q r = st.mem q r) := by
  by_cases h1 : pa.page = FIL_NULL
  · have hpf : (if pa.page = FIL_NULL ∨ pa.page = cp then none else env pa.page) =
        (none : Option Dberr) := if_pos (Or.inl h1)
    simp only [flst_remove_side1, if_pos h1, hpf, FLST_FIRST]
    refine ⟨by trivial, fun _ => ?_, byteMem_flst_write_addr hm _ _ _ _, ?_⟩
    · exact flst_write_addr_read hnap hnao
    · intro q r hq1 hq2
      exact flst_write_addr_frame (by have h5 := hq1 h1; omega)
  · by_cases h2 : pa.page = cp
    · have hpf : (if pa.page = FIL_NULL ∨ pa.page = cp then none else env pa.page) =
          (none : Option Dberr) := if_pos (Or.inr h2)
      simp only [flst_remove_side1, if_neg h1,
        if_neg (show ¬pa.page ≠ cp from not_not_intro h2), hpf, FLST_NEXT]
      refine ⟨by trivial, fun _ => ?_, byteMem_flst_write_addr hm _ _ _ _, ?_⟩
      · simp only [nextF, FLST_NEXT]
        rw [h2]
        exact flst_write_addr_read hnap hnao
      · intro q r hq1 hq2
        exact flst_write_addr_frame (by have h5 := hq2 h1; omega)
    · have hcond : (if pa.page = FIL_NULL ∨ pa.page = cp then none else env pa.page) =
          env pa.page := by
        rw [if_neg]
        rintro (h | h)
        · exact h1 h
        · exact h2 h
      rw [hcond]
      rcases h3 : env pa.page with _ | e
      · simp only [flst_remove_side1, if_neg h1,
          if_pos (show pa.page ≠ cp from h2), h3, FLST_NEXT]
        refine ⟨by trivial, fun _ => ?_, byteMem_flst_write_addr hm _ _ _ _, ?_⟩
        · simp only [nextF, FLST_NEXT]
          exact flst_write_addr_read hnap hnao
        · intro q r hq1 hq2
          exact flst_write_addr_frame (by have h5 := hq2 h1; omega)
      · simp only [flst_remove_side1, if_neg h1,
          if_pos (show pa.page ≠ cp from h2), h3]
        exact ⟨by trivial, fun h => Option.noConfusion h, hm, fun q r hq1 hq2 => by trivial⟩

theorem flst_remove_side2_spec {env : FetchEnv} {st : Mtr} {bp bo cp : Nat}
    {pa na : FilAddr} {e1 : Dberr}
    (hm : ByteMem st.mem) (hpap : pa.page < 4294967296) (hpao : pa.boffset < 65536) :
    (flst_remove_side2 env st bp bo cp pa na e1).1 =
      (match (if na.page = FIL_NULL ∨ na.page = cp then none else env na.page) with
       | some e2 => if e1 = Dberr.DB_SUCCESS then e2 else e1
       | none => e1) ∧
    ((if na.page = FIL_NULL ∨ na.page = cp then none else env na.page) = none →
      (if na.page = FIL_NULL then
        readAddr (flst_remove_side2 env st bp bo cp pa na e1).2.mem bp (bo + FLST_LAST) = pa
       else prevF (flst_remove_side2 env st bp bo cp pa na e1).2.mem na = pa)) ∧
    ByteMem (flst_remove_side2 env st bp bo cp pa na e1).2.mem ∧
    (∀ q r, (na.page = FIL_NULL → ¬(q = bp ∧ bo + 10 ≤ r ∧ r < bo + 16)) →
      (na.page ≠ FIL_NULL → ¬(q = na.page ∧ na.boffset ≤ r ∧ r < na.boffset + 6)) →
      (flst_remove_side2 env st bp bo cp pa na e1).2.mem q r = st.mem q r) := by
  by_cases h1 : na.page = FIL_NULL
  · have hpf : (if na.page = FIL_NULL ∨ na.page = cp then none else env na.page) =
        (none : Option Dberr) := if_pos (Or.inl h1)
    simp only [flst_remove_side2, if_pos h1, hpf, FLST_LAST]
    refine ⟨by trivial, fun _ => ?_, byteMem_flst_write_addr hm _ _ _ _, ?_⟩
    · exact flst_write_addr_read hpap hpao
    · intro q r hq1 hq2
      exact flst_write_addr_frame (by have h5 := hq1 h1; omega)
  · by_cases h2 : na.page = cp
    · have hpf : (if na.page = FIL_NULL ∨ na.page = cp then none else env na.page) =
          (none : Option Dberr) := if_pos (Or.inr h2)
      simp only [flst_remove_side2, if_neg h1,
        if_neg (show ¬na.page ≠ cp from not_not_intro h2), hpf, FLST_PREV, Nat.add_zero]
      refine ⟨by trivial, fun _ => ?_, byteMem_flst_write_addr hm _ _ _ _, ?_⟩
      · simp only [prevF, FLST_PREV, Nat.add_zero]
        rw [h2]
        exact flst_write_addr_read hpap hpao
      · intro q r hq1 hq2
        exact flst_write_addr_frame (by have h5 := hq2 h1; omega)
    · have hcond : (if na.page = FIL_NULL ∨ na.page = cp then none else env na.page) =
          env na.page := by
        rw [if_neg]
        rintro (h | h)
        · exact h1 h
        · exact h2 h
      rw [hcond]
      rcases h3 : env na.page with _ | e
      · simp only [flst_remove_side2, if_neg h1,
          if_pos (show na.page ≠ cp from h2), h3, FLST_PREV, Nat.add_zero]
        refine ⟨by trivial, fun _ => ?_, byteMem_flst_write_addr hm _ _ _ _, ?_⟩
        · simp only [prevF, FLST_PREV, Nat.add_zero]
          exact flst_write_addr_read hpap hpao
        · intro q r hq1 hq2
          exact flst_write_addr_frame (by have h5 := hq2 h1; omega)
      · simp only [flst_remove_side2, if_neg h1,
          if_pos (show na.page ≠ cp from h2), h3]
        exact ⟨by trivial, fun h => Option.noConfusion h, hm, fun q r hq1 hq2 => by trivial⟩

set_option maxRecDepth 8000 in
theorem flst_remove_spec {env : FetchEnv} {st : Mtr} {bp bo cp co : Nat} {pa na : FilAddr}
    (hm : ByteMem st.mem)
    (hpa : flst_get_prev_addr st.mem cp co = pa)
    (hna : flst_get_next_addr st.mem cp co = na)
    (hlen0 : read4 st.mem bp (bo + FLST_LEN) ≠ 0)
    (dpb : pa.page ≠ FIL_NULL → regDisj pa.page pa.boffset 12 bp bo 16)
    (dnb : na.page ≠ FIL_NULL → regDisj na.page na.boffset 12 bp bo 16)
    (dpn : pa.page ≠ FIL_NULL → na.page ≠ FIL_NULL →
      regDisj pa.page pa.boffset 12 na.page na.boffset 12)
    (hps : (if pa.page = FIL_NULL ∨ pa.page = cp then none else env pa.page) ≠
      some Dberr.DB_SUCCESS) :
    (flst_remove env st bp bo cp co).1 =
      (match (if pa.page = FIL_NULL ∨ pa.page = cp then none else env pa.page) with
       | some e => e
       | none =>
         match (if na.page = FIL_NULL ∨ na.page = cp then none else env na.page) with
         | some e2 => e2
         | none => Dberr.DB_SUCCESS) ∧
    read4 (flst_remove env st bp bo cp co).2.mem bp (bo + FLST_LEN) =
      read4 st.mem bp (bo + FLST_LEN) - 1 ∧
    ((if pa.page = FIL_NULL ∨ pa.page = cp then none else env pa.page) = none →
      (if pa.page = FIL_NULL then
        readAddr (flst_remove env st bp bo cp co).2.mem bp (bo + FLST_FIRST) = na
       else nextF (flst_remove env st bp bo cp co).2.mem pa = na)) ∧
    ((if na.page = FIL_NULL ∨ na.page = cp then none else env na.page) = none →
      (if na.page = FIL_NULL then
        readAddr (flst_remove env st bp bo cp co).2.mem bp (bo + FLST_LAST) = pa
       else prevF (flst_remove env st bp bo cp co).2.mem na = pa)) ∧
    ByteMem (flst_remove env st bp bo cp co).2.mem ∧
    (∀ q r, ¬(q = bp ∧ bo ≤ r ∧ r < bo + 4) →
      (pa.page = FIL_NULL → ¬(q = bp ∧ bo + 4 ≤ r ∧ r < bo + 10)) →
      (na.page = FIL_NULL → ¬(q = bp ∧ bo + 10 ≤ r ∧ r < bo + 16)) →
      (pa.page ≠ FIL_NULL → ¬(q = pa.page ∧ pa.boffset + 6 ≤ r ∧ r < pa.boffset + 12)) →
      (na.page ≠ FIL_NULL → ¬(q = na.page ∧ na.boffset ≤ r ∧ r < na.boffset + 6)) →
      (flst_remove env st bp bo cp co).2.mem q r = st.mem q r) := by
  have hpap : pa.page < 4294967296 := by
    rw [← hpa]
    exact read4_lt hm _ _
  have hpao : pa.boffset < 65536 := by
    rw [← hpa]
    exact read2_lt hm _ _
  have hnap : na.page < 4294967296 := by
    rw [← hna]
    exact read4_lt hm _ _
  have hnao : na.boffset < 65536 := by
    rw [← hna]
    exact read2_lt hm _ _
  obtain ⟨S1e, S1u, S1b, S1f⟩ :=
    @flst_remove_side1_spec env st bp bo cp pa na hm hnap hnao
  obtain ⟨S2e, S2u, S2b, S2f⟩ :=
    @flst_remove_side2_spec env (flst_remove_side1 env st bp bo cp pa na).2 bp bo cp
      pa na (flst_remove_side1 env st bp bo cp pa na).1 S1b hpap hpao
  have hfin : ∀ r, bo ≤ r → r < bo + 4 →
      (flst_remove_side2 env (flst_remove_side1 env st bp bo cp pa na).2 bp bo cp pa na
        (flst_remove_side1 env st bp bo cp pa na).1).2.mem bp r = st.mem bp r := by
    intro r hr1 hr2
    refine (S2f bp r ?_ ?_).trans (S1f bp r ?_ ?_)
    · intro h
      omega
    · intro h
      exact fun hc => (dnb h) ⟨hc.1.symm, by omega, by omega⟩
    · intro h
      omega
    · intro h
      exact fun hc => (dpb h) ⟨hc.1.symm, by omega, by omega⟩
  have hlenv : read4 (flst_remove_side2 env (flst_remove_side1 env st bp bo cp pa na).2
      bp bo cp pa na (flst_remove_side1 env st bp bo cp pa na).1).2.mem bp bo =
      read4 st.mem bp bo := read4_frame_of (fun r h1 h2 => hfin r h1 h2)
  simp only [FLST_LEN, Nat.add_zero] at hlen0 ⊢
  simp only [flst_remove, FLST_LEN, FLST_FIRST, FLST_LAST, Nat.add_zero, hpa, hna]
  rw [hlenv, if_neg hlen0]
  refine ⟨?_, ?_, ?_, ?_, byteMem_write4mem S2b _ _ _, ?_⟩
  · rw [S2e, S1e]
    rcases hPFv : (if pa.page = FIL_NULL ∨ pa.page = cp then none else env pa.page)
      with _ | e
    · rcases hNFv : (if na.page = FIL_NULL ∨ na.page = cp then none else env na.page)
        with _ | e2 <;> simp
    · have hne : e ≠ Dberr.DB_SUCCESS := by
        rintro rfl
        exact hps hPFv
      rcases hNFv : (if na.page = FIL_NULL ∨ na.page = cp then none else env na.page)
        with _ | e2 <;> simp [hne]
  · rw [mtrWrite4_read]
    have hb := read4_lt hm bp bo
    omega
  · intro hPFn
    have base := S1u hPFn
    by_cases hp1 : pa.page = FIL_NULL
    · rw [if_pos hp1] at base ⊢
      simp only [FLST_FIRST] at base ⊢
      refine ((readAddr_frame_of fun r h1 h2 => write4mem_frame (by omega)).trans ?_)
      refine ((readAddr_frame_of fun r h1 h2 => S2f bp r (fun h => by omega)
        (fun h hc => (dnb h) ⟨hc.1.symm, by omega, by omega⟩)).trans ?_)
      exact base
    · rw [if_neg hp1] at base ⊢
      simp only [nextF, FLST_NEXT] at base ⊢
      refine ((readAddr_frame_of fun r h1 h2 => write4mem_frame
        (fun hc => (dpb hp1) ⟨hc.1, by omega, by omega⟩)).trans ?_)
      refine ((readAddr_frame_of fun r h1 h2 => S2f pa.page r
        (fun h hc => (dpb hp1) ⟨hc.1, by omega, by omega⟩)
        (fun h hc => (dpn hp1 h) ⟨hc.1, by omega, by omega⟩)).trans ?_)
      exact base
  · intro hNFn
    have base := S2u hNFn
    by_cases hn1 : na.page = FIL_NULL
    · rw [if_pos hn1] at base ⊢
      simp only [FLST_LAST] at base ⊢
      refine ((readAddr_frame_of fun r h1 h2 => write4mem_frame (by omega)).trans ?_)
      exact base
    · rw [if_neg hn1] at base ⊢
      simp only [prevF, FLST_PREV, Nat.add_zero] at base ⊢
      refine ((readAddr_frame_of fun r h1 h2 => write4mem_frame
        (fun hc => (dnb hn1) ⟨hc.1, by omega, by omega⟩)).trans ?_)
      exact base
  · intro q r k1 k2 k3 k4 k5
    refine (write4mem_frame (by omega)).trans ?_
    exact (S2f q r k3 k5).trans (S1f q r k2 k4)

/-- C1 (amended): remove on a list whose base-node length field is 0 returns
the corruption error and never writes the four bytes of the length field; the
relink writes still run before the zero-length check, so whenever the
target's prev is null the base first field has been overwritten with the
target's next value, and whenever the target's next is null the base last
field with the target's prev value, by the time the error is returned; when
additionally the base node is a well-formed empty list (first and last null)
and the target's prev and next are both null, every relink write is a
minimal-write no-op and the entire state, log included, is left unmodified. -/
theorem C1_thm {env : FetchEnv} {st : Mtr} {bp bo cp co : Nat} {pa na : FilAddr}
    (hm : ByteMem st.mem)
    (hpa : flst_get_prev_addr st.mem cp co = pa)
    (hna : flst_get_next_addr st.mem cp co = na)
    (hlen : read4 st.mem bp (bo + FLST_LEN) = 0)
    (dpb : pa.page ≠ FIL_NULL → regDisj pa.page pa.boffset 12 bp bo 16)
    (dnb : na.page ≠ FIL_NULL → regDisj na.page na.boffset 12 bp bo 16) :
    (flst_remove env st bp bo cp co).1 = Dberr.DB_CORRUPTION ∧
    (∀ r, bo ≤ r → r < bo + 4 →
      (flst_remove env st bp bo cp co).2.mem bp r = st.mem bp r) ∧
    (pa.page = FIL_NULL →
      readAddr (flst_remove env st bp bo cp co).2.mem bp (bo + FLST_FIRST) = na) ∧
    (na.page = FIL_NULL →
      readAddr (flst_remove env st bp bo cp co).2.mem bp (bo + FLST_LAST) = pa) ∧
    (pa = nullAddr → na = nullAddr →
      readAddr st.mem bp (bo + FLST_FIRST) = nullAddr →
      readAddr st.mem bp (bo + FLST_LAST) = nullAddr →
      flst_remove env st bp bo cp co = (Dberr.DB_CORRUPTION, st)) := by
  have hspecial : pa = nullAddr → na = nullAddr →
      readAddr st.mem bp (bo + FLST_FIRST) = nullAddr →
      readAddr st.mem bp (bo + FLST_LAST) = nullAddr →
      flst_remove env st bp bo cp co = (Dberr.DB_CORRUPTION, st) := by
    intro hp0 hn0 hf0 hl0
    have hpa0 : flst_get_prev_addr st.mem cp co = nullAddr := by rw [hpa, hp0]
    have hna0 : flst_get_next_addr st.mem cp co = nullAddr := by rw [hna, hn0]
    simp only [readAddr, nullAddr, FIL_ADDR_PAGE, FIL_ADDR_BYTE, FLST_FIRST,
      FLST_LAST, Nat.add_zero, FilAddr.mk.injEq] at hf0 hl0
    obtain ⟨hf4, hf2⟩ := hf0
    obtain ⟨hl4, hl2⟩ := hl0
    have hlen0 : read4 st.mem bp bo = 0 := by
      simpa using hlen
    simp only [flst_remove, flst_remove_side1, flst_remove_side2]
    rw [hpa0, hna0]
    simp only [nullAddr, flst_write_addr, FIL_ADDR_PAGE, FIL_ADDR_BYTE, FLST_LEN,
      FLST_FIRST, FLST_LAST, Nat.add_zero]
    rw [hf4, hf2]
    simp [hl4, hl2, hlen0]
  have hpap : pa.page < 4294967296 := by
    rw [← hpa]
    exact read4_lt hm _ _
  have hpao : pa.boffset < 65536 := by
    rw [← hpa]
    exact read2_lt hm _ _
  have hnap : na.page < 4294967296 := by
    rw [← hna]
    exact read4_lt hm _ _
  have hnao : na.boffset < 65536 := by
    rw [← hna]
    exact read2_lt hm _ _
  obtain ⟨S1e, S1u, S1b, S1f⟩ :=
    @flst_remove_side1_spec env st bp bo cp pa na hm hnap hnao
  obtain ⟨S2e, S2u, S2b, S2f⟩ :=
    @flst_remove_side2_spec env (flst_remove_side1 env st bp bo cp pa na).2 bp bo cp
      pa na (flst_remove_side1 env st bp bo cp pa na).1 S1b hpap hpao
  have hfin : ∀ r, bo ≤ r → r < bo + 4 →
      (flst_remove_side2 env (flst_remove_side1 env st bp bo cp pa na).2 bp bo cp pa na
        (flst_remove_side1 env st bp bo cp pa na).1).2.mem bp r = st.mem bp r := by
    intro r hr1 hr2
    refine (S2f bp r ?_ ?_).trans (S1f bp r ?_ ?_)
    · intro h
      omega
    · intro h
      exact fun hc => (dnb h) ⟨hc.1.symm, by omega, by omega⟩
    · intro h
      omega
    · intro h
      exact fun hc => (dpb h) ⟨hc.1.symm, by omega, by omega⟩
  have hlenv : read4 (flst_remove_side2 env (flst_remove_side1 env st bp bo cp pa na).2
      bp bo cp pa na (flst_remove_side1 env st bp bo cp pa na).1).2.mem bp bo =
      read4 st.mem bp bo := read4_frame_of (fun r h1 h2 => hfin r h1 h2)
  have hmain : (flst_remove env st bp bo cp co).1 = Dberr.DB_CORRUPTION ∧
      (∀ r, bo ≤ r → r < bo + 4 →
        (flst_remove env st bp bo cp co).2.mem bp r = st.mem bp r) ∧
      (pa.page = FIL_NULL →
        readAddr (flst_remove env st bp bo cp co).2.mem bp (bo + FLST_FIRST) = na) ∧
      (na.page = FIL_NULL →
        readAddr (flst_remove env st bp bo cp co).2.mem bp (bo + FLST_LAST) = pa) := by
    have hlen0 : read4 st.mem bp bo = 0 := by
      simpa using hlen
    simp only [flst_remove, FLST_LEN, FLST_FIRST, FLST_LAST, Nat.add_zero, hpa, hna]
    rw [hlenv, if_pos hlen0]
    refine ⟨rfl, hfin, ?_, ?_⟩
    · intro h
      have base := S1u (if_pos (Or.inl h))
      rw [if_pos h] at base
      simp only [FLST_FIRST] at base
      refine ((readAddr_frame_of fun r h1 h2 => S2f bp r (fun h2n hc => by omega)
        (fun h2n hc => (dnb h2n) ⟨hc.1.symm, by omega, by omega⟩)).trans base)
    · intro h
      have base := S2u (if_pos (Or.inl h))
      rw [if_pos h] at base
      simp only [FLST_LAST] at base
      exact base
  exact ⟨hmain.1, hmain.2.1, hmain.2.2.1, hmain.2.2.2, hspecial⟩

/-- C1 witness: the concrete zero-length list of the counterexample store,
with a non-null target next field: the amended theorem applies, returning
corruption, keeping the length bytes at 0 and rewriting the base first field
to the target next value (5, 100). -/
theorem C1_wit :
    (flst_remove envAll ⟨c1m, []⟩ 0 0 1 50).1 = Dberr.DB_CORRUPTION ∧
    read4 (flst_remove envAll ⟨c1m, []⟩ 0 0 1 50).2.mem 0 0 = 0 ∧
    readAddr (flst_remove envAll ⟨c1m, []⟩ 0 0 1 50).2.mem 0 (0 + FLST_FIRST) =
      ⟨5, 100⟩ := by
  have hm : ByteMem c1m :=
    byteMem_write2mem (byteMem_write4mem (byteMem_write4mem (byteMem_write4mem
      (byteMem_write4mem byteMem_mem0 _ _ _) _ _ _) _ _ _) _ _ _) _ _ _
  have h := @C1_thm envAll ⟨c1m, []⟩ 0 0 1 50 nullAddr ⟨5, 100⟩ hm
    (by decide) (by decide) (by decide)
    (fun hc => absurd rfl hc) (fun hc => by simp [regDisj])
  refine ⟨h.1, ?_, h.2.2.1 (show nullAddr.page = FIL_NULL from rfl)⟩
  exact (read4_frame_of fun r h1 h2 => h.2.1 r h1 h2).trans (by decide)

/-- C6: remove on a list with nonzero length in which one or both neighbor
fetches fail (a fetch attempt is made exactly when the neighbor is non-null
and lives on a page other than the removed node's) still performs the length
decrement and the update belonging to each side whose fetch did not fail,
and returns the first fetch error encountered, the predecessor-side error
taking priority when both fail. -/
theorem C6_thm {env : FetchEnv} {st : Mtr} {bp bo cp co : Nat} {pa na : FilAddr}
    (hm : ByteMem st.mem)
    (hpa : flst_get_prev_addr st.mem cp co = pa)
    (hna : flst_get_next_addr st.mem cp co = na)
    (hlen0 : flst_get_len st.mem bp bo ≠ 0)
    (dpb : pa.page ≠ FIL_NULL → regDisj pa.page pa.boffset 12 bp bo 16)
    (dnb : na.page ≠ FIL_NULL → regDisj na.page na.boffset 12 bp bo 16)
    (dpn : pa.page ≠ FIL_NULL → na.page ≠ FIL_NULL →
      regDisj pa.page pa.boffset 12 na.page na.boffset 12)
    (hps : (if pa.page = FIL_NULL ∨ pa.page = cp then none else env pa.page) ≠
      some Dberr.DB_SUCCESS)
    (hfail : (if pa.page = FIL_NULL ∨ pa.page = cp then none else env pa.page) ≠ none ∨
      (if na.page = FIL_NULL ∨ na.page = cp then none else env na.page) ≠ none) :
    flst_get_len (flst_remove env st bp bo cp co).2.mem bp bo =
      flst_get_len st.mem bp bo - 1 ∧
    (∀ e, (if pa.page = FIL_NULL ∨ pa.page = cp then none else env pa.page) = some e →
      (flst_remove env st bp bo cp co).1 = e) ∧
    ((if pa.page = FIL_NULL ∨ pa.page = cp then none else env pa.page) = none →
      ∀ e, (if na.page = FIL_NULL ∨ na.page = cp then none else env na.page) = some e →
      (flst_remove env st bp bo cp co).1 = e) ∧
    ((if pa.page = FIL_NULL ∨ pa.page = cp then none else env pa.page) = none →
      (if pa.page = FIL_NULL then
        readAddr (flst_remove env st bp bo cp co).2.mem bp (bo + FLST_FIRST) = na
       else nextF (flst_remove env st bp bo cp co).2.mem pa = na)) ∧
    ((if na.page = FIL_NULL ∨ na.page = cp then none else env na.page) = none →
      (if na.page = FIL_NULL then
        readAddr (flst_remove env st bp bo cp co).2.mem bp (bo + FLST_LAST) = pa
       else prevF (flst_remove env st bp bo cp co).2.mem na = pa)) := by
  obtain ⟨he, hlen, hup, hun, _, _⟩ :=
    flst_remove_spec hm hpa hna (by simpa [flst_get_len] using hlen0) dpb dnb dpn hps
  refine ⟨by simpa [flst_get_len] using hlen, ?_, ?_, hup, hun⟩
  · intro e hpe
    rw [he, hpe]
  · intro hpn e hne
    rw [he, hpn, hne]

/-- Witness for C6: in the concrete state c6m, removing (1, 50) under the
environment in which page 2 cannot be fetched returns error 7 while still
decrementing the length to 1 and redirecting the base first pointer to (2, 50). -/
theorem C6_wit :
    (flst_remove c6env ⟨c6m, []⟩ 0 0 1 50).1 = Dberr.DB_OTHER 7 ∧
    flst_get_len (flst_remove c6env ⟨c6m, []⟩ 0 0 1 50).2.mem 0 0 = 1 ∧
    readAddr (flst_remove c6env ⟨c6m, []⟩ 0 0 1 50).2.mem 0 (0 + FLST_FIRST) =
      ⟨2, 50⟩ := by
  have hm : ByteMem c6m :=
    byteMem_write2mem (byteMem_write4mem (byteMem_write4mem (byteMem_write2mem
      (byteMem_write4mem (byteMem_write2mem (byteMem_write4mem (byteMem_write4mem
        byteMem_mem0 _ _ _) _ _ _) _ _ _) _ _ _) _ _ _) _ _ _) _ _ _) _ _ _
  have h := @C6_thm c6env ⟨c6m, []⟩ 0 0 1 50 ⟨4294967295, 0⟩ ⟨2, 50⟩ hm
    (by decide) (by decide) (by decide)
    (fun hc => absurd rfl hc) (fun hc => by simp [regDisj])
    (fun hc => absurd rfl hc) (by decide) (by decide)
  refine ⟨h.2.2.1 (by decide) (Dberr.DB_OTHER 7) (by decide), ?_, ?_⟩
  · exact (h.1).trans (by decide)
  · simpa using h.2.2.2.1 (by decide)

/-- C9: remove leaves the removed node's own 12 bytes (prev and next fields)
byte-for-byte unchanged, on every path including the zero-length corruption
path, provided the removed node does not overlap the base node and, when a
neighbor lives on the removed node's own page, does not overlap that
neighbor; moreover every write of remove lands inside the base node or a
neighbor's link field. -/
theorem C9_thm {env : FetchEnv} {st : Mtr} {bp bo cp co : Nat} {pa na : FilAddr}
    (hm : ByteMem st.mem)
    (hpa : flst_get_prev_addr st.mem cp co = pa)
    (hna : flst_get_next_addr st.mem cp co = na)
    (hd1 : regDisj cp co 12 bp bo 16)
    (hd2 : pa.page ≠ FIL_NULL → pa.page = cp → regDisj pa.page pa.boffset 12 cp co 12)
    (hd3 : na.page ≠ FIL_NULL → na.page = cp → regDisj na.page na.boffset 12 cp co 12) :
    (∀ r, co ≤ r → r < co + 12 →
      (flst_remove env st bp bo cp co).2.mem cp r = st.mem cp r) ∧
    flst_get_prev_addr (flst_remove env st bp bo cp co).2.mem cp co = pa ∧
    flst_get_next_addr (flst_remove env st bp bo cp co).2.mem cp co = na ∧
    (∀ q r, ¬(q = bp ∧ bo ≤ r ∧ r < bo + 16) →
      (pa.page ≠ FIL_NULL → ¬(q = pa.page ∧ pa.boffset + 6 ≤ r ∧ r < pa.boffset + 12)) →
      (na.page ≠ FIL_NULL → ¬(q = na.page ∧ na.boffset ≤ r ∧ r < na.boffset + 6)) →
      (flst_remove env st bp bo cp co).2.mem q r = st.mem q r) := by
  have hpap : pa.page < 4294967296 := by
    rw [← hpa]
    exact read4_lt hm _ _
  have hpao : pa.boffset < 65536 := by
    rw [← hpa]
    exact read2_lt hm _ _
  have hnap : na.page < 4294967296 := by
    rw [← hna]
    exact read4_lt hm _ _
  have hnao : na.boffset < 65536 := by
    rw [← hna]
    exact read2_lt hm _ _
  obtain ⟨-, -, S1b, S1f⟩ :=
    @flst_remove_side1_spec env st bp bo cp pa na hm hnap hnao
  obtain ⟨-, -, -, S2f⟩ :=
    @flst_remove_side2_spec env (flst_remove_side1 env st bp bo cp pa na).2 bp bo cp
      pa na (flst_remove_side1 env st bp bo cp pa na).1 S1b hpap hpao
  have hall : ∀ q r, ¬(q = bp ∧ bo ≤ r ∧ r < bo + 16) →
      (pa.page ≠ FIL_NULL → ¬(q = pa.page ∧ pa.boffset + 6 ≤ r ∧ r < pa.boffset + 12)) →
      (na.page ≠ FIL_NULL → ¬(q = na.page ∧ na.boffset ≤ r ∧ r < na.boffset + 6)) →
      (flst_remove env st bp bo cp co).2.mem q r = st.mem q r := by
    intro q r k1 k4 k5
    simp only [flst_remove, hpa, hna, FLST_LEN, Nat.add_zero, mtrWrite4]
    split
    · exact (S2f q r (fun h hc => k1 ⟨hc.1, by omega, by omega⟩)
        (fun h hc => k5 h hc)).trans
        (S1f q r (fun h hc => k1 ⟨hc.1, by omega, by omega⟩) (fun h hc => k4 h hc))
    · refine (write4mem_frame (fun hc => k1 ⟨hc.1, by omega, by omega⟩)).trans ?_
      exact (S2f q r (fun h hc => k1 ⟨hc.1, by omega, by omega⟩)
        (fun h hc => k5 h hc)).trans
        (S1f q r (fun h hc => k1 ⟨hc.1, by omega, by omega⟩) (fun h hc => k4 h hc))
  have hcur : ∀ r, co ≤ r → r < co + 12 →
      (flst_remove env st bp bo cp co).2.mem cp r = st.mem cp r := by
    intro r h1 h2
    refine hall cp r (fun hc => hd1 ⟨hc.1, by omega, by omega⟩) ?_ ?_
    · exact fun h hc => (hd2 h hc.1.symm) ⟨hc.1.symm, by omega, by omega⟩
    · exact fun h hc => (hd3 h hc.1.symm) ⟨hc.1.symm, by omega, by omega⟩
  refine ⟨hcur, ?_, ?_, hall⟩
  · simp only [flst_get_prev_addr, FLST_PREV, Nat.add_zero] at hpa ⊢
    exact (readAddr_frame_of fun r h1 h2 => hcur r (by omega) (by omega)).trans hpa
  · simp only [flst_get_next_addr, FLST_NEXT] at hna ⊢
    exact (readAddr_frame_of fun r h1 h2 => hcur r (by omega) (by omega)).trans hna

/-- Witness for C9: removing (1, 50) from the two-element list in c6m leaves
the removed node's prev and next fields exactly as they were. -/
theorem C9_wit :
    flst_get_prev_addr (flst_remove c6env ⟨c6m, []⟩ 0 0 1 50).2.mem 1 50 =
      ⟨4294967295, 0⟩ ∧
    flst_get_next_addr (flst_remove c6env ⟨c6m, []⟩ 0 0 1 50).2.mem 1 50 =
      ⟨2, 50⟩ := by
  have hm : ByteMem c6m :=
    byteMem_write2mem (byteMem_write4mem (byteMem_write4mem (byteMem_write2mem
      (byteMem_write4mem (byteMem_write2mem (byteMem_write4mem (byteMem_write4mem
        byteMem_mem0 _ _ _) _ _ _) _ _ _) _ _ _) _ _ _) _ _ _) _ _ _) _ _ _
  have h := @C9_thm c6env ⟨c6m, []⟩ 0 0 1 50 ⟨4294967295, 0⟩ ⟨2, 50⟩ hm
    (by decide) (by decide) (by simp [regDisj])
    (fun h1 h2 => absurd rfl h1) (fun h1 h2 => by simp at h2)
  exact ⟨h.2.1, h.2.2.1⟩

theorem flst_init_len {st : Mtr} (p b : Nat) :
    read4 (flst_init st p b).mem p b = 0 := by
  simp only [flst_init, FLST_LEN, FLST_FIRST, Nat.add_zero]
  refine ((read4_frame_of fun r h1 h2 => flst_zero_both_frame (by omega)).trans ?_)
  rw [mtrWrite4Nop_read]

theorem flst_init_byteMem {st : Mtr} (hm : ByteMem st.mem) (p b : Nat) :
    ByteMem (flst_init st p b).mem := by
  simp only [flst_init]
  exact byteMem_flst_zero_both (byteMem_mtrWrite4Nop hm _ _ _) _ _

theorem flst_init_first {st : Mtr} (p b : Nat) :
    readAddr (flst_init st p b).mem p (b + FLST_FIRST) = nullAddr := by
  simp only [flst_init]
  exact flst_zero_both_read1 _ _ _

theorem flst_init_last {st : Mtr} (p b : Nat) :
    readAddr (flst_init st p b).mem p (b + FLST_LAST) = nullAddr := by
  simp only [flst_init, FLST_FIRST, FLST_LAST]
  rw [show b + 10 = b + 4 + 6 by omega]
  exact flst_zero_both_read2 _ _ _

/-- C5: the single-element lifecycle.  After init followed by add_first(X)
the base node has first = last = X, length 1, and X's prev and next are both
null; the subsequent remove(X) succeeds and yields length 0 and
first = last = null.  X must lie inside the addressable space and must not
overlap the base node. -/
theorem C5_thm {env : FetchEnv} {st : Mtr} {bp bo ap ao : Nat}
    (hm : ByteMem st.mem) (hap : ap < 4294967296) (hao : ao < 65536)
    (hd : regDisj ap ao 12 bp bo 16) :
    (flst_add_first env (flst_init st bp bo) bp bo ap ao).1 = Dberr.DB_SUCCESS ∧
    flst_get_len (flst_add_first env (flst_init st bp bo) bp bo ap ao).2.mem bp bo = 1 ∧
    flst_get_first (flst_add_first env (flst_init st bp bo) bp bo ap ao).2.mem bp bo =
      ⟨ap, ao⟩ ∧
    flst_get_last (flst_add_first env (flst_init st bp bo) bp bo ap ao).2.mem bp bo =
      ⟨ap, ao⟩ ∧
    flst_get_prev_addr (flst_add_first env (flst_init st bp bo) bp bo ap ao).2.mem ap ao =
      nullAddr ∧
    flst_get_next_addr (flst_add_first env (flst_init st bp bo) bp bo ap ao).2.mem ap ao =
      nullAddr ∧
    (flst_remove env (flst_add_first env (flst_init st bp bo) bp bo ap ao).2
      bp bo ap ao).1 = Dberr.DB_SUCCESS ∧
    flst_get_len (flst_remove env (flst_add_first env (flst_init st bp bo) bp bo ap ao).2
      bp bo ap ao).2.mem bp bo = 0 ∧
    flst_get_first (flst_remove env (flst_add_first env (flst_init st bp bo) bp bo ap ao).2
      bp bo ap ao).2.mem bp bo = nullAddr ∧
    flst_get_last (flst_remove env (flst_add_first env (flst_init st bp bo) bp bo ap ao).2
      bp bo ap ao).2.mem bp bo = nullAddr := by
  have hbm0 : ByteMem (flst_init st bp bo).mem := flst_init_byteMem hm bp bo
  have hlen0 : flst_get_len (flst_init st bp bo).mem bp bo = 0 := by
    simp only [flst_get_len, FLST_LEN, Nat.add_zero]
    exact flst_init_len bp bo
  have hstep : flst_add_first env (flst_init st bp bo) bp bo ap ao =
      (Dberr.DB_SUCCESS, flst_add_to_empty (flst_init st bp bo) bp bo ap ao) := by
    simp only [flst_add_first]
    rw [if_pos hlen0]
  rw [hstep]
  have hA_bm : ByteMem (flst_add_to_empty (flst_init st bp bo) bp bo ap ao).mem :=
    byteMem_flst_add_to_empty hbm0 bp bo ap ao
  have hA_len : read4 (flst_add_to_empty (flst_init st bp bo) bp bo ap ao).mem bp
      (bo + FLST_LEN) = 1 := by
    refine flst_add_to_empty_len hbm0 hd ?_
    simp only [FLST_LEN, Nat.add_zero]
    exact flst_init_len bp bo
  have hA_first := @flst_add_to_empty_first (flst_init st bp bo) bp bo ap ao hap hao hd
  have hA_last := @flst_add_to_empty_last (flst_init st bp bo) bp bo ap ao hap hao hd
  have hA_prev := @flst_add_to_empty_prev (flst_init st bp bo) bp bo ap ao
  have hA_next := @flst_add_to_empty_next (flst_init st bp bo) bp bo ap ao
  have hPF : (if nullAddr.page = FIL_NULL ∨ nullAddr.page = ap then none
      else env nullAddr.page) = none := if_pos (Or.inl rfl)
  obtain ⟨he, hlen2, hup, hun, -, -⟩ :=
    flst_remove_spec hA_bm hA_prev hA_next (by rw [hA_len]; omega)
      (fun h => absurd rfl h) (fun h => absurd rfl h) (fun h => absurd rfl h)
      (by rw [hPF]; exact fun hc => Option.noConfusion hc)
  have herr : (flst_remove env (flst_add_to_empty (flst_init st bp bo) bp bo ap ao)
      bp bo ap ao).1 = Dberr.DB_SUCCESS := by
    rw [he, hPF]
  have hfst := hup hPF
  rw [if_pos (show nullAddr.page = FIL_NULL from rfl)] at hfst
  have hlst := hun hPF
  rw [if_pos (show nullAddr.page = FIL_NULL from rfl)] at hlst
  refine ⟨rfl, ?_, hA_first, hA_last, hA_prev, hA_next, herr, ?_, hfst, hlst⟩
  · simp only [flst_get_len]
    exact hA_len
  · simp only [flst_get_len]
    rw [hlen2, hA_len]

/-- Witness for C5: the lifecycle at base (0, 0) and node (1, 50) starting
from the all-zero page memory with every fetch succeeding. -/
theorem C5_wit :
    (flst_add_first envAll (flst_init ⟨mem0, []⟩ 0 0) 0 0 1 50).1 = Dberr.DB_SUCCESS ∧
    flst_get_len (flst_add_first envAll (flst_init ⟨mem0, []⟩ 0 0) 0 0 1 50).2.mem 0 0 = 1 ∧
    flst_get_first (flst_add_first envAll (flst_init ⟨mem0, []⟩ 0 0) 0 0 1 50).2.mem 0 0 =
      ⟨1, 50⟩ ∧
    flst_get_last (flst_add_first envAll (flst_init ⟨mem0, []⟩ 0 0) 0 0 1 50).2.mem 0 0 =
      ⟨1, 50⟩ ∧
    flst_get_prev_addr (flst_add_first envAll (flst_init ⟨mem0, []⟩ 0 0) 0 0 1 50).2.mem
      1 50 = nullAddr ∧
    flst_get_next_addr (flst_add_first envAll (flst_init ⟨mem0, []⟩ 0 0) 0 0 1 50).2.mem
      1 50 = nullAddr ∧
    (flst_remove envAll (flst_add_first envAll (flst_init ⟨mem0, []⟩ 0 0) 0 0 1 50).2
      0 0 1 50).1 = Dberr.DB_SUCCESS ∧
    flst_get_len (flst_remove envAll (flst_add_first envAll (flst_init ⟨mem0, []⟩ 0 0)
      0 0 1 50).2 0 0 1 50).2.mem 0 0 = 0 ∧
    flst_get_first (flst_remove envAll (flst_add_first envAll (flst_init ⟨mem0, []⟩ 0 0)
      0 0 1 50).2 0 0 1 50).2.mem 0 0 = nullAddr ∧
    flst_get_last (flst_remove envAll (flst_add_first envAll (flst_init ⟨mem0, []⟩ 0 0)
      0 0 1 50).2 0 0 1 50).2.mem 0 0 = nullAddr :=
  C5_thm byteMem_mem0 (by decide) (by decide) (by simp [regDisj])

/-- C7: insert_after whose successor-page fetch fails returns that fetch
error, but the writes of steps 1-2 (add.prev = cur, add.next = old next) have
already been performed, and steps 4-5 (cur.next = add, length incremented by
one) are still performed before returning. -/
theorem C7_thm {env : FetchEnv} {st : Mtr} {bp bo cp co ap ao np no : Nat}
    {e : Dberr}
    (hm : ByteMem st.mem)
    (hna : flst_get_next_addr st.mem cp co = ⟨np, no⟩)
    (hcp : cp < 4294967296) (hco : co < 65536)
    (hap : ap < 4294967296) (hao : ao < 65536)
    (dac : regDisj ap ao 12 cp co 12)
    (dab : regDisj ap ao 12 bp bo 16)
    (dcb : regDisj cp co 12 bp bo 16)
    (hnn : np ≠ FIL_NULL)
    (henv : env np = some e)
    (hlen : read4 st.mem bp (bo + FLST_LEN) + 1 < 4294967296) :
    (flst_insert_after env st bp bo cp co ap ao).1 = e ∧
    prevF (flst_insert_after env st bp bo cp co ap ao).2.mem ⟨ap, ao⟩ = ⟨cp, co⟩ ∧
    nextF (flst_insert_after env st bp bo cp co ap ao).2.mem ⟨ap, ao⟩ = ⟨np, no⟩ ∧
    nextF (flst_insert_after env st bp bo cp co ap ao).2.mem ⟨cp, co⟩ = ⟨ap, ao⟩ ∧
    read4 (flst_insert_after env st bp bo cp co ap ao).2.mem bp (bo + FLST_LEN) =
      read4 st.mem bp (bo + FLST_LEN) + 1 := by
  have dbc := regDisj_symm dcb
  have dba := regDisj_symm dab
  have hnap : np < 4294967296 := by
    have hx : (flst_get_next_addr st.mem cp co).page < 4294967296 := read4_lt hm _ _
    rwa [hna] at hx
  have hnao : no < 65536 := by
    have hx : (flst_get_next_addr st.mem cp co).boffset < 65536 := read2_lt hm _ _
    rwa [hna] at hx
  simp only [flst_insert_after, FLST_LEN, FLST_PREV, FLST_NEXT, FLST_LAST,
    Nat.add_zero, hna, henv, if_neg hnn]
  refine ⟨by trivial, ?_, ?_, ?_, ?_⟩
  · simp only [prevF, FLST_PREV, Nat.add_zero]
    refine ((readAddr_frame_of fun r h1 h2 => write4mem_frame
      (regDisj_cond dab (by omega) (by omega) (by omega) (by omega) h1 h2)).trans ?_)
    refine ((readAddr_frame_of fun r h1 h2 => flst_write_addr_frame
      (regDisj_cond dac (by omega) (by omega) (by omega) (by omega) h1 h2)).trans ?_)
    refine ((readAddr_frame_of fun r h1 h2 => flst_write_addr_frame (by omega)).trans ?_)
    exact flst_write_addr_read hcp hco
  · simp only [nextF, FLST_NEXT]
    refine ((readAddr_frame_of fun r h1 h2 => write4mem_frame
      (regDisj_cond dab (by omega) (by omega) (by omega) (by omega) h1 h2)).trans ?_)
    refine ((readAddr_frame_of fun r h1 h2 => flst_write_addr_frame
      (regDisj_cond dac (by omega) (by omega) (by omega) (by omega) h1 h2)).trans ?_)
    exact flst_write_addr_read hnap hnao
  · simp only [nextF, FLST_NEXT]
    refine ((readAddr_frame_of fun r h1 h2 => write4mem_frame
      (regDisj_cond dcb (by omega) (by omega) (by omega) (by omega) h1 h2)).trans ?_)
    exact flst_write_addr_read hap hao
  · simp only [FLST_LEN, Nat.add_zero] at hlen ⊢
    rw [mtrWrite4_read]
    have e3 : read4 (flst_write_addr (flst_write_addr (flst_write_addr st
        ap ao cp co) ap (ao + 6) np no)
        cp (co + 6) ap ao).mem bp bo = read4 st.mem bp bo := by
      refine ((read4_frame_of fun r h1 h2 => flst_write_addr_frame
        (regDisj_cond dbc (by omega) (by omega) (by omega) (by omega) h1 h2)).trans ?_)
      refine ((read4_frame_of fun r h1 h2 => flst_write_addr_frame
        (regDisj_cond dba (by omega) (by omega) (by omega) (by omega) h1 h2)).trans ?_)
      exact read4_frame_of fun r h1 h2 => flst_write_addr_frame
        (regDisj_cond dba (by omega) (by omega) (by omega) (by omega) h1 h2)
    rw [e3]
    omega

/-- Witness for C7: inserting (2, 80) after (1, 50) whose successor page 3
cannot be fetched returns error 7 yet performs the other four steps. -/
theorem C7_wit :
    (flst_insert_after c7env ⟨c7m, []⟩ 0 0 1 50 2 80).1 = Dberr.DB_OTHER 7 ∧
    prevF (flst_insert_after c7env ⟨c7m, []⟩ 0 0 1 50 2 80).2.mem ⟨2, 80⟩ = ⟨1, 50⟩ ∧
    nextF (flst_insert_after c7env ⟨c7m, []⟩ 0 0 1 50 2 80).2.mem ⟨2, 80⟩ = ⟨3, 70⟩ ∧
    nextF (flst_insert_after c7env ⟨c7m, []⟩ 0 0 1 50 2 80).2.mem ⟨1, 50⟩ = ⟨2, 80⟩ ∧
    read4 (flst_insert_after c7env ⟨c7m, []⟩ 0 0 1 50 2 80).2.mem 0 (0 + FLST_LEN) =
      read4 c7m 0 (0 + FLST_LEN) + 1 :=
  C7_thm (byteMem_write2mem (byteMem_write4mem (byteMem_write4mem byteMem_mem0 _ _ _)
      _ _ _) _ _ _)
    (by decide) (by decide) (by decide) (by decide) (by decide)
    (by simp [regDisj]) (by simp [regDisj]) (by simp [regDisj])
    (by decide) (by decide) (by decide)

theorem nodeDisj_symm {a b : FilAddr} (h : nodeDisj a b) : nodeDisj b a :=
  regDisj_symm h

theorem headD_append (l1 l2 : List FilAddr) (d : FilAddr) :
    headD (l1 ++ l2) d = headD l1 (headD l2 d) := by
  cases l1 <;> rfl

theorem lastD_cons (a : FilAddr) (l : List FilAddr) (d : FilAddr) :
    lastD (a :: l) d = lastD l a := rfl

theorem lastD_append (l1 l2 : List FilAddr) (d : FilAddr) :
    lastD (l1 ++ l2) d = lastD l2 (lastD l1 d) := by
  induction l1 generalizing d with
  | nil => rfl
  | cons a t ih => simp only [List.cons_append, lastD_cons, ih]

theorem lastD_concat (l : List FilAddr) (a d : FilAddr) :
    lastD (l ++ [a]) d = a := by
  rw [lastD_append]
  rfl

theorem lastD_mem (l : List FilAddr) (d : FilAddr) :
    lastD l d = d ∨ lastD l d ∈ l := by
  induction l generalizing d with
  | nil => exact Or.inl rfl
  | cons a t ih =>
    rcases ih a with h | h
    · exact Or.inr (by rw [lastD_cons, h]; exact List.mem_cons_self a t)
    · exact Or.inr (List.mem_cons_of_mem a h)

theorem chainSeg_append {m : Mem} (l1 l2 : List FilAddr) (pv nx : FilAddr) :
    chainSeg m pv (l1 ++ l2) nx ↔
      chainSeg m pv l1 (headD l2 nx) ∧ chainSeg m (lastD l1 pv) l2 nx := by
  induction l1 generalizing pv with
  | nil => simp [chainSeg, lastD]
  | cons a t ih =>
    simp only [List.cons_append, chainSeg, List.append_eq, headD_append, lastD_cons,
      ih, and_assoc]

theorem chainSeg_congr {m m' : Mem} :
    ∀ (ns : List FilAddr) (pv nx : FilAddr),
    (∀ a ∈ ns, ∀ r, a.boffset ≤ r → r < a.boffset + 12 → m' a.page r = m a.page r) →
    chainSeg m pv ns nx → chainSeg m' pv ns nx := by
  intro ns
  induction ns with
  | nil => intro pv nx h hc; trivial
  | cons a t ih =>
    intro pv nx h hc
    obtain ⟨h1, h2, h3⟩ := hc
    have ha := h a (List.mem_cons_self a t)
    refine ⟨?_, ?_, ih a nx (fun b hb => h b (List.mem_cons_of_mem a hb)) h3⟩
    · rw [← h1]
      exact readAddr_frame_of fun r h1 h2 => ha r (by simp only [FLST_PREV] at h2 ⊢; omega)
        (by simp only [FLST_PREV] at h2 ⊢; omega)
    · rw [← h2]
      exact readAddr_frame_of fun r h1 h2 => ha r (by simp only [FLST_NEXT] at h1 h2 ⊢; omega)
        (by simp only [FLST_NEXT] at h1 h2 ⊢; omega)

theorem hopNext_null (m : Mem) (f : Nat) {a : FilAddr} (h : a.page = FIL_NULL) :
    hopNext m f a = some 0 := by
  unfold hopNext
  rw [if_pos h]

theorem hopNext_succ (m : Mem) (f : Nat) {a : FilAddr} (h : a.page ≠ FIL_NULL) :
    hopNext m (f + 1) a = (hopNext m f (nextF m a)).map (fun k => k + 1) := by
  conv_lhs => unfold hopNext
  rw [if_neg h]

theorem hopPrev_null (m : Mem) (f : Nat) {a : FilAddr} (h : a.page = FIL_NULL) :
    hopPrev m f a = some 0 := by
  unfold hopPrev
  rw [if_pos h]

theorem hopPrev_succ (m : Mem) (f : Nat) {a : FilAddr} (h : a.page ≠ FIL_NULL) :
    hopPrev m (f + 1) a = (hopPrev m f (prevF m a)).map (fun k => k + 1) := by
  conv_lhs => unfold hopPrev
  rw [if_neg h]

theorem hopNext_chain {m : Mem} :
    ∀ (ns : List FilAddr) (pv : FilAddr), chainSeg m pv ns nullAddr →
    (∀ a ∈ ns, a.page ≠ FIL_NULL) → ∀ f, ns.length ≤ f →
    hopNext m f (headD ns nullAddr) = some ns.length := by
  intro ns
  induction ns with
  | nil =>
    intro pv hc hv f hf
    exact hopNext_null m f rfl
  | cons a t ih =>
    intro pv hc hv f hf
    obtain ⟨h1, h2, h3⟩ := hc
    simp only [List.length_cons] at hf
    rcases f with _ | f'
    · omega
    have hrec := ih a h3 (fun b hb => hv b (List.mem_cons_of_mem a hb)) f' (by omega)
    rw [← h2] at hrec
    show hopNext m (f' + 1) a = some (t.length + 1)
    rw [hopNext_succ m f' (hv a (List.mem_cons_self a t)), hrec]
    rfl

theorem hopPrev_chain {m : Mem} :
    ∀ (ns : List FilAddr), (∀ nx, chainSeg m nullAddr ns nx →
    (∀ a ∈ ns, a.page ≠ FIL_NULL) → ∀ f, ns.length ≤ f →
    hopPrev m f (lastD ns nullAddr) = some ns.length) := by
  intro ns
  induction ns using List.reverseRecOn with
  | nil =>
    intro nx hc hv f hf
    exact hopPrev_null m f rfl
  | append_singleton ms a ih =>
    intro nx hc hv f hf
    rw [chainSeg_append] at hc
    obtain ⟨hc1, hseg⟩ := hc
    obtain ⟨hp, hn, -⟩ := hseg
    simp only [List.length_append, List.length_cons, List.length_nil] at hf
    rcases f with _ | f'
    · omega
    have hrec := ih a hc1 (fun b hb => hv b (by simp [hb])) f' (by omega)
    rw [← hp] at hrec
    rw [lastD_concat]
    have hl : (ms ++ [a]).length = ms.length + 1 := by simp
    rw [hl, hopPrev_succ m f' (hv a (by simp)), hrec]
    rfl

theorem reps_init {st : Mtr} (hm : ByteMem st.mem) (bp bo : Nat) :
    Reps (flst_init st bp bo).mem bp bo [] := by
  refine ⟨flst_init_byteMem hm bp bo, by norm_num, ?_, ?_, ?_, trivial, ?_, ?_⟩
  · simp only [FLST_LEN, Nat.add_zero, List.length_nil]
    exact flst_init_len bp bo
  · exact flst_init_first bp bo
  · exact flst_init_last bp bo
  · intro a ha
    exact absurd ha (List.not_mem_nil a)
  · exact List.Pairwise.nil

theorem reps_add_to_empty {st : Mtr} {bp bo : Nat} {a : FilAddr}
    (hr : Reps st.mem bp bo []) (hv : validNode bp bo a) :
    Reps (flst_add_to_empty st bp bo a.page a.boffset).mem bp bo [a] := by
  obtain ⟨hvp, hvb, hvo, hvd⟩ := hv
  refine ⟨byteMem_flst_add_to_empty hr.bytes bp bo a.page a.boffset, by norm_num,
    ?_, ?_, ?_, ?_, ?_, ?_⟩
  · exact flst_add_to_empty_len hr.bytes hvd hr.len
  · exact flst_add_to_empty_first hvb hvo hvd
  · exact flst_add_to_empty_last hvb hvo hvd
  · exact ⟨flst_add_to_empty_prev _ _ _ _, flst_add_to_empty_next _ _ _ _, trivial⟩
  · intro x hx
    obtain rfl := List.mem_singleton.mp hx
    exact ⟨hvp, hvb, hvo, hvd⟩
  · exact List.pairwise_singleton _ _

theorem reps_insBefore_head {env : FetchEnv} {st : Mtr} {bp bo : Nat}
    {a b : FilAddr} {t : List FilAddr}
    (hr : Reps st.mem bp bo (b :: t)) (hv : validNode bp bo a)
    (hf : Fresh a (b :: t)) (hlen : (b :: t).length + 1 < 4294967296) :
    Reps (flst_insert_before env st bp bo b.page b.boffset a.page a.boffset).2.mem
      bp bo (a :: b :: t) := by
  obtain ⟨hvp, hvb, hvo, hvd⟩ := hv
  have hbv := hr.nodes b (List.mem_cons_self b t)
  have dac : regDisj a.page a.boffset 12 b.page b.boffset 12 :=
    hf b (List.mem_cons_self b t)
  have hnull : flst_get_prev_addr st.mem b.page b.boffset = nullAddr := hr.chain.1
  have hlenpre : read4 st.mem bp (bo + FLST_LEN) + 1 < 4294967296 := by
    rw [hr.len]
    exact hlen
  obtain ⟨-, hap, han, hbp, hfst, hln, hbm, hfr⟩ :=
    @flst_insert_before_head env st bp bo b.page b.boffset a.page a.boffset
      hr.bytes hbv.2.1 hbv.2.2.1 hvb hvo
      dac hvd hbv.2.2.2 hnull hlenpre
  have htail : ∀ x ∈ t, ∀ r, x.boffset ≤ r → r < x.boffset + 12 →
      (flst_insert_before env st bp bo b.page b.boffset a.page a.boffset).2.mem
        x.page r = st.mem x.page r := by
    intro x hx r h1 h2
    have hxv := hr.nodes x (List.mem_cons_of_mem b hx)
    have hxa : nodeDisj x a := nodeDisj_symm (hf x (List.mem_cons_of_mem b hx))
    have hxb : nodeDisj x b :=
      nodeDisj_symm (List.rel_of_pairwise_cons hr.disj hx)
    exact hfr x.page r
      (regDisj_cond hxa (by omega) (by omega) (by omega) (by omega) h1 h2)
      (regDisj_cond hxb (by omega) (by omega) (by omega) (by omega) h1 h2)
      (regDisj_cond hxv.2.2.2 (by omega) (by omega) (by omega) (by omega) h1 h2)
  have hbn : nextF (flst_insert_before env st bp bo b.page b.boffset
      a.page a.boffset).2.mem b = nextF st.mem b := by
    simp only [nextF, FLST_NEXT]
    refine readAddr_frame_of fun r h1 h2 => hfr b.page r ?_ ?_ ?_
    · exact regDisj_cond (nodeDisj_symm dac) (by omega) (by omega) (by omega)
        (by omega) h1 h2
    · omega
    · exact regDisj_cond hbv.2.2.2 (by omega) (by omega) (by omega) (by omega) h1 h2
  refine ⟨hbm, by simpa using hlen, ?_, ?_, ?_, ?_, ?_, ?_⟩
  · rw [hln, hr.len]
    rfl
  · exact hfst
  · have hlast : readAddr (flst_insert_before env st bp bo b.page b.boffset
        a.page a.boffset).2.mem bp (bo + 10) =
        readAddr st.mem bp (bo + 10) := by
      refine readAddr_frame_of fun r h1 h2 => hfr bp r ?_ ?_ ?_
      · exact regDisj_cond (regDisj_symm hvd) (by omega) (by omega) (by omega)
          (by omega) h1 h2
      · exact regDisj_cond (regDisj_symm hbv.2.2.2) (by omega) (by omega) (by omega)
          (by omega) h1 h2
      · omega
    simp only [FLST_LAST]
    rw [hlast]
    have hl := hr.last
    simp only [FLST_LAST] at hl
    rw [hl]
    rfl
  · refine ⟨hap, ?_, ?_, hbn.trans hr.chain.2.1, ?_⟩
    · show nextF _ ⟨a.page, a.boffset⟩ = b
      rw [han]
    · show prevF _ ⟨b.page, b.boffset⟩ = a
      rw [hbp]
    · exact chainSeg_congr t b nullAddr htail hr.chain.2.2
  · intro x hx
    rcases List.mem_cons.mp hx with rfl | hx2
    · exact ⟨hvp, hvb, hvo, hvd⟩
    · exact hr.nodes x hx2
  · exact List.Pairwise.cons hf hr.disj

theorem reps_addFirst {env : FetchEnv} {st st' : Mtr} {bp bo : Nat}
    {ns : List FilAddr} {a : FilAddr}
    (henv : EnvOK env) (hr : Reps st.mem bp bo ns) (hv : validNode bp bo a)
    (hf : Fresh a ns) (hlen : ns.length + 1 < 4294967296)
    (hs : flst_add_first env st bp bo a.page a.boffset = (Dberr.DB_SUCCESS, st')) :
    Reps st'.mem bp bo (a :: ns) := by
  cases ns with
  | nil =>
    have hz : flst_get_len st.mem bp bo = 0 := by
      simp only [flst_get_len]
      exact hr.len
    simp only [flst_add_first] at hs
    rw [if_pos hz] at hs
    injection hs with h1 h2
    rw [← h2]
    exact reps_add_to_empty hr hv
  | cons b t =>
    have hz : ¬ flst_get_len st.mem bp bo = 0 := by
      simp only [flst_get_len]
      rw [hr.len]
      simp
    have hfst : flst_get_first st.mem bp bo = b := hr.first
    simp only [flst_add_first] at hs
    rw [if_neg hz, hfst] at hs
    have hs' : flst_insert_before env st bp bo b.page b.boffset a.page a.boffset =
        (Dberr.DB_SUCCESS, st') := by
      by_cases hpg : b.page = a.page
      · rwa [if_neg (not_not_intro hpg)] at hs
      · rw [if_pos hpg] at hs
        cases hge : env b.page with
        | some e =>
          rw [hge] at hs
          have hs2 : (e, st) = (Dberr.DB_SUCCESS, st') := hs
          injection hs2 with h1 h2
          exact absurd (hge.trans (by rw [h1])) (henv b.page)
        | none =>
          rw [hge] at hs
          exact hs
    injection hs' with h1 h2
    rw [← h2]
    exact reps_insBefore_head hr hv hf hlen

theorem pairwise_insert_mid {a cur : FilAddr} {l1 l2 : List FilAddr}
    (h : List.Pairwise nodeDisj (l1 ++ cur :: l2))
    (hfa : ∀ b ∈ l1 ++ cur :: l2, nodeDisj a b) :
    List.Pairwise nodeDisj (l1 ++ cur :: a :: l2) := by
  rw [List.pairwise_append] at h ⊢
  obtain ⟨h1, h2, h3⟩ := h
  rw [List.pairwise_cons] at h2 ⊢
  obtain ⟨h21, h22⟩ := h2
  refine ⟨h1, ⟨?_, ?_⟩, ?_⟩
  · intro y hy
    rcases List.mem_cons.mp hy with rfl | hy2
    · exact nodeDisj_symm (hfa cur (by simp))
    · exact h21 y hy2
  · rw [List.pairwise_cons]
    exact ⟨fun y hy => hfa y (by simp [hy]), h22⟩
  · intro x hx y hy
    rcases List.mem_cons.mp hy with rfl | hy2
    · exact h3 x hx y (by simp)
    · rcases List.mem_cons.mp hy2 with rfl | hy3
      · exact nodeDisj_symm (hfa x (by simp [hx]))
      · exact h3 x hx y (by simp [hy3])

set_option maxRecDepth 8000 in
theorem reps_insAfter {env : FetchEnv} {st : Mtr} {bp bo : Nat}
    {l1 l2 : List FilAddr} {cur a : FilAddr}
    (henv : EnvOK env) (hr : Reps st.mem bp bo (l1 ++ cur :: l2))
    (hv : validNode bp bo a) (hf : Fresh a (l1 ++ cur :: l2))
    (hlen : (l1 ++ cur :: l2).length + 1 < 4294967296)
    (hs : (flst_insert_after env st bp bo cur.page cur.boffset a.page a.boffset).1 =
      Dberr.DB_SUCCESS) :
    Reps (flst_insert_after env st bp bo cur.page cur.boffset a.page a.boffset).2.mem
      bp bo (l1 ++ cur :: a :: l2) := by
  have hcurm : cur ∈ l1 ++ cur :: l2 := by simp
  have hcv := hr.nodes cur hcurm
  have dac : regDisj a.page a.boffset 12 cur.page cur.boffset 12 := hf cur hcurm
  have hlenpre : read4 st.mem bp (bo + FLST_LEN) + 1 < 4294967296 := by
    rw [hr.len]
    exact hlen
  have hch := hr.chain
  rw [chainSeg_append] at hch
  obtain ⟨hc1, hc2⟩ := hch
  obtain ⟨hcp, hcn, hc3⟩ := hc2
  obtain ⟨hp1, hp2, hp3⟩ := List.pairwise_append.mp hr.disj
  cases l2 with
  | nil =>
    have hnull : flst_get_next_addr st.mem cur.page cur.boffset = nullAddr := hcn
    obtain ⟨-, hap, han, hcn2, hlast, hln, hbm, hfr⟩ :=
      @flst_insert_after_tail env st bp bo cur.page cur.boffset a.page a.boffset
        hr.bytes hcv.2.1 hcv.2.2.1 hv.2.1 hv.2.2.1
        dac hv.2.2.2 hcv.2.2.2 hnull hlenpre
    have hnode : ∀ x : FilAddr, nodeDisj x a → nodeDisj x cur →
        regDisj x.page x.boffset 12 bp bo 16 →
        ∀ r, x.boffset ≤ r → r < x.boffset + 12 →
        (flst_insert_after env st bp bo cur.page cur.boffset a.page
          a.boffset).2.mem x.page r = st.mem x.page r := by
      intro x d1 d2 d3 r h1 h2
      exact hfr x.page r
        (fun hc => d1 ⟨hc.1, by omega, by omega⟩)
        (fun hc => d2 ⟨hc.1, by omega, by omega⟩)
        (fun hc => d3 ⟨hc.1, by omega, by omega⟩)
        (fun hc => d3 ⟨hc.1, by omega, by omega⟩)
    have hcong : ∀ x ∈ l1, ∀ r, x.boffset ≤ r → r < x.boffset + 12 →
        (flst_insert_after env st bp bo cur.page cur.boffset a.page
          a.boffset).2.mem x.page r = st.mem x.page r := by
      intro x hx
      exact hnode x (nodeDisj_symm (hf x (by simp [hx])))
        (hp3 x hx cur (by simp)) (hr.nodes x (by simp [hx])).2.2.2
    have hcurp : prevF (flst_insert_after env st bp bo cur.page cur.boffset a.page
        a.boffset).2.mem cur = prevF st.mem cur := by
      simp only [prevF, FLST_PREV, Nat.add_zero]
      refine readAddr_frame_of fun r h1 h2 => hfr cur.page r ?_ ?_ ?_ ?_
      · exact fun hc => (nodeDisj_symm dac) ⟨hc.1, by omega, by omega⟩
      · omega
      · exact fun hc => hcv.2.2.2 ⟨hc.1, by omega, by omega⟩
      · exact fun hc => hcv.2.2.2 ⟨hc.1, by omega, by omega⟩
    have hfirst : readAddr (flst_insert_after env st bp bo cur.page cur.boffset a.page
        a.boffset).2.mem bp (bo + 4) = readAddr st.mem bp (bo + 4) := by
      refine readAddr_frame_of fun r h1 h2 => hfr bp r ?_ ?_ ?_ ?_
      · exact fun hc => (regDisj_symm hv.2.2.2) ⟨hc.1, by omega, by omega⟩
      · exact fun hc => (regDisj_symm hcv.2.2.2) ⟨hc.1, by omega, by omega⟩
      · omega
      · omega
    refine ⟨hbm, by simpa using hlen, ?_, ?_, ?_, ?_, ?_, ?_⟩
    · rw [hln, hr.len]
      simp only [List.length_append, List.length_cons]
      omega
    · simp only [FLST_FIRST]
      rw [hfirst]
      have h0 := hr.first
      simp only [FLST_FIRST] at h0
      rw [h0, headD_append, headD_append]
      rfl
    · simp only [lastD_append, lastD_cons, lastD]
      exact hlast
    · rw [chainSeg_append]
      refine ⟨chainSeg_congr l1 nullAddr _ hcong hc1, hcurp.trans hcp, hcn2, hap, han,
        trivial⟩
    · intro x hx
      rcases List.mem_append.mp hx with hx1 | hx2
      · exact hr.nodes x (by simp [hx1])
      · rcases List.mem_cons.mp hx2 with rfl | hx3
        · exact hr.nodes x (by simp)
        · rcases List.mem_cons.mp hx3 with rfl | hx4
          · exact hv
          · exact absurd hx4 (List.not_mem_nil x)
    · exact pairwise_insert_mid hr.disj (fun b hb => hf b hb)
  | cons n l2' =>
    have hnm : n ∈ l1 ++ cur :: n :: l2' := by simp
    have hnv := hr.nodes n hnm
    have hna : flst_get_next_addr st.mem cur.page cur.boffset = ⟨n.page, n.boffset⟩ :=
      hcn
    have hge : env n.page = none := by
      cases hge0 : env n.page with
      | none => rfl
      | some e =>
        have he1 : (flst_insert_after env st bp bo cur.page cur.boffset a.page
            a.boffset).1 = e := by
          simp only [flst_insert_after, FLST_LEN, FLST_PREV, FLST_NEXT, FLST_LAST,
            Nat.add_zero, hna, if_neg hnv.1, hge0]
        exact absurd (hge0.trans (by rw [← he1, hs])) (henv n.page)
    obtain ⟨-, hap, han, hcn2, hnp, hln, hbm, hfr⟩ :=
      @flst_insert_after_mid env st bp bo cur.page cur.boffset a.page a.boffset
        n.page n.boffset hr.bytes hna hcv.2.1 hcv.2.2.1 hv.2.1
        hv.2.2.1 dac hv.2.2.2 hcv.2.2.2 (nodeDisj_symm (hf n hnm))
        (nodeDisj_symm (List.rel_of_pairwise_cons hp2 (by simp))) hnv.2.2.2 hnv.1
        hge hlenpre
    have hnode : ∀ x : FilAddr, nodeDisj x a → nodeDisj x cur →
        regDisj x.page x.boffset 12 bp bo 16 → nodeDisj x n →
        ∀ r, x.boffset ≤ r → r < x.boffset + 12 →
        (flst_insert_after env st bp bo cur.page cur.boffset a.page
          a.boffset).2.mem x.page r = st.mem x.page r := by
      intro x d1 d2 d3 d4 r h1 h2
      exact hfr x.page r
        (fun hc => d1 ⟨hc.1, by omega, by omega⟩)
        (fun hc => d2 ⟨hc.1, by omega, by omega⟩)
        (fun hc => d3 ⟨hc.1, by omega, by omega⟩)
        (fun hc => d4 ⟨hc.1, by omega, by omega⟩)
    have hcong1 : ∀ x ∈ l1, ∀ r, x.boffset ≤ r → r < x.boffset + 12 →
        (flst_insert_after env st bp bo cur.page cur.boffset a.page
          a.boffset).2.mem x.page r = st.mem x.page r := by
      intro x hx
      exact hnode x (nodeDisj_symm (hf x (by simp [hx]))) (hp3 x hx cur (by simp))
        (hr.nodes x (by simp [hx])).2.2.2 (hp3 x hx n (by simp))
    have hcong2 : ∀ x ∈ l2', ∀ r, x.boffset ≤ r → r < x.boffset + 12 →
        (flst_insert_after env st bp bo cur.page cur.boffset a.page
          a.boffset).2.mem x.page r = st.mem x.page r := by
      intro x hx
      refine hnode x (nodeDisj_symm (hf x (by simp [hx])))
        (nodeDisj_symm (List.rel_of_pairwise_cons hp2 (by simp [hx])))
        (hr.nodes x (by simp [hx])).2.2.2
        (nodeDisj_symm (List.rel_of_pairwise_cons (List.Pairwise.sublist
          (List.sublist_cons_self cur (n :: l2')) hp2) hx))
    have hcurp : prevF (flst_insert_after env st bp bo cur.page cur.boffset a.page
        a.boffset).2.mem cur = prevF st.mem cur := by
      simp only [prevF, FLST_PREV, Nat.add_zero]
      refine readAddr_frame_of fun r h1 h2 => hfr cur.page r ?_ ?_ ?_ ?_
      · exact fun hc => (nodeDisj_symm dac) ⟨hc.1, by omega, by omega⟩
      · omega
      · exact fun hc => hcv.2.2.2 ⟨hc.1, by omega, by omega⟩
      · exact fun hc => (List.rel_of_pairwise_cons hp2 (by simp)) ⟨hc.1, by omega, by omega⟩
    have hnn2 : nextF (flst_insert_after env st bp bo cur.page cur.boffset a.page
        a.boffset).2.mem n = nextF st.mem n := by
      simp only [nextF, FLST_NEXT]
      refine readAddr_frame_of fun r h1 h2 => hfr n.page r ?_ ?_ ?_ ?_
      · exact fun hc => (nodeDisj_symm (hf n hnm)) ⟨hc.1, by omega, by omega⟩
      · exact fun hc => (nodeDisj_symm (List.rel_of_pairwise_cons hp2 (by simp)))
          ⟨hc.1, by omega, by omega⟩
      · exact fun hc => hnv.2.2.2 ⟨hc.1, by omega, by omega⟩
      · omega
    have hfirst : readAddr (flst_insert_after env st bp bo cur.page cur.boffset a.page
        a.boffset).2.mem bp (bo + 4) = readAddr st.mem bp (bo + 4) := by
      refine readAddr_frame_of fun r h1 h2 => hfr bp r ?_ ?_ ?_ ?_
      · exact fun hc => (regDisj_symm hv.2.2.2) ⟨hc.1, by omega, by omega⟩
      · exact fun hc => (regDisj_symm hcv.2.2.2) ⟨hc.1, by omega, by omega⟩
      · omega
      · exact fun hc => (regDisj_symm hnv.2.2.2) ⟨hc.1, by omega, by omega⟩
    have hlast : readAddr (flst_insert_after env st bp bo cur.page cur.boffset a.page
        a.boffset).2.mem bp (bo + 10) = readAddr st.mem bp (bo + 10) := by
      refine readAddr_frame_of fun r h1 h2 => hfr bp r ?_ ?_ ?_ ?_
      · exact fun hc => (regDisj_symm hv.2.2.2) ⟨hc.1, by omega, by omega⟩
      · exact fun hc => (regDisj_symm hcv.2.2.2) ⟨hc.1, by omega, by omega⟩
      · omega
      · exact fun hc => (regDisj_symm hnv.2.2.2) ⟨hc.1, by omega, by omega⟩
    obtain ⟨hnp0, hnn0, hc4⟩ := hc3
    refine ⟨hbm, by simpa using hlen, ?_, ?_, ?_, ?_, ?_, ?_⟩
    · rw [hln, hr.len]
      simp only [List.length_append, List.length_cons]
      omega
    · simp only [FLST_FIRST]
      rw [hfirst]
      have h0 := hr.first
      simp only [FLST_FIRST] at h0
      rw [h0, headD_append, headD_append]
      rfl
    · simp only [FLST_LAST]
      rw [hlast]
      have h0 := hr.last
      simp only [FLST_LAST] at h0
      rw [h0]
      simp only [lastD_append, lastD_cons]
    · rw [chainSeg_append]
      exact ⟨chainSeg_congr l1 nullAddr _ hcong1 hc1, hcurp.trans hcp, hcn2, hap, han,
        hnp, hnn2.trans hnn0, chainSeg_congr l2' n nullAddr hcong2 hc4⟩
    · intro x hx
      rcases List.mem_append.mp hx with hx1 | hx2
      · exact hr.nodes x (by simp [hx1])
      · rcases List.mem_cons.mp hx2 with rfl | hx3
        · exact hr.nodes x (by simp)
        · rcases List.mem_cons.mp hx3 with rfl | hx4
          · exact hv
          · exact hr.nodes x (by simp [hx4])
    · exact pairwise_insert_mid hr.disj (fun b hb => hf b hb)

theorem pairwise_insert_before {a cur : FilAddr} {l1 l2 : List FilAddr}
    (h : List.Pairwise nodeDisj (l1 ++ cur :: l2))
    (hfa : ∀ b ∈ l1 ++ cur :: l2, nodeDisj a b) :
    List.Pairwise nodeDisj (l1 ++ a :: cur :: l2) := by
  rw [List.pairwise_append] at h ⊢
  obtain ⟨h1, h2, h3⟩ := h
  refine ⟨h1, ?_, ?_⟩
  · rw [List.pairwise_cons]
    exact ⟨fun y hy => hfa y (by simp [hy]), h2⟩
  · intro x hx y hy
    rcases List.mem_cons.mp hy with rfl | hy2
    · exact nodeDisj_symm (hfa x (by simp [hx]))
    · exact h3 x hx y hy2

set_option maxRecDepth 8000 in
theorem reps_insBefore {env : FetchEnv} {st : Mtr} {bp bo : Nat}
    {l1 l2 : List FilAddr} {cur a : FilAddr}
    (henv : EnvOK env) (hr : Reps st.mem bp bo (l1 ++ cur :: l2))
    (hv : validNode bp bo a) (hf : Fresh a (l1 ++ cur :: l2))
    (hlen : (l1 ++ cur :: l2).length + 1 < 4294967296)
    (hs : (flst_insert_before env st bp bo cur.page cur.boffset a.page a.boffset).1 =
      Dberr.DB_SUCCESS) :
    Reps (flst_insert_before env st bp bo cur.page cur.boffset a.page a.boffset).2.mem
      bp bo (l1 ++ a :: cur :: l2) := by
  have hcurm : cur ∈ l1 ++ cur :: l2 := by simp
  have hcv := hr.nodes cur hcurm
  have dac : regDisj a.page a.boffset 12 cur.page cur.boffset 12 := hf cur hcurm
  have hlenpre : read4 st.mem bp (bo + FLST_LEN) + 1 < 4294967296 := by
    rw [hr.len]
    exact hlen
  have hch := hr.chain
  rw [chainSeg_append] at hch
  obtain ⟨hc1, hc2⟩ := hch
  obtain ⟨hcp, hcn, hc3⟩ := hc2
  obtain ⟨hp1, hp2, hp3⟩ := List.pairwise_append.mp hr.disj
  rcases List.eq_nil_or_concat l1 with rfl | ⟨init, p, hl1⟩
  · exact reps_insBefore_head hr hv hf hlen
  rw [List.concat_eq_append] at hl1
  subst hl1
  have hpm : p ∈ (init ++ [p]) ++ cur :: l2 := by simp
  have hpv := hr.nodes p hpm
  have hpa : flst_get_prev_addr st.mem cur.page cur.boffset = ⟨p.page, p.boffset⟩ := by
    have h0 : prevF st.mem cur = lastD (init ++ [p]) nullAddr := hcp
    rw [lastD_concat] at h0
    exact h0
  have hpcur : nodeDisj p cur := hp3 p (by simp) cur (by simp)
  have hge : env p.page = none := by
    cases hge0 : env p.page with
    | none => rfl
    | some e =>
      have he1 : (flst_insert_before env st bp bo cur.page cur.boffset a.page
          a.boffset).1 = e := by
        simp only [flst_insert_before, FLST_LEN, FLST_PREV, FLST_NEXT, FLST_FIRST,
          Nat.add_zero, hpa, if_neg hpv.1, hge0]
      exact absurd (hge0.trans (by rw [← he1, hs])) (henv p.page)
  obtain ⟨-, hap, han, hcp2, hpn, hln, hbm, hfr⟩ :=
    @flst_insert_before_mid env st bp bo cur.page cur.boffset a.page a.boffset
      p.page p.boffset hr.bytes hpa hcv.2.1 hcv.2.2.1 hv.2.1
      hv.2.2.1 dac hv.2.2.2 hcv.2.2.2 (nodeDisj_symm (hf p hpm)) hpcur hpv.2.2.2
      hpv.1 hge hlenpre
  have hnode : ∀ x : FilAddr, nodeDisj x a → nodeDisj x cur →
      regDisj x.page x.boffset 12 bp bo 16 → nodeDisj x p →
      ∀ r, x.boffset ≤ r → r < x.boffset + 12 →
      (flst_insert_before env st bp bo cur.page cur.boffset a.page
        a.boffset).2.mem x.page r = st.mem x.page r := by
    intro x d1 d2 d3 d4 r h1 h2
    exact hfr x.page r (fun hc => d1 ⟨hc.1, by omega, by omega⟩)
      (fun hc => d2 ⟨hc.1, by omega, by omega⟩)
      (fun hc => d3 ⟨hc.1, by omega, by omega⟩)
      (fun hc => d4 ⟨hc.1, by omega, by omega⟩)
  have hcong1 : ∀ x ∈ init, ∀ r, x.boffset ≤ r → r < x.boffset + 12 →
      (flst_insert_before env st bp bo cur.page cur.boffset a.page
        a.boffset).2.mem x.page r = st.mem x.page r := by
    intro x hx
    refine hnode x (nodeDisj_symm (hf x (by simp [hx]))) (hp3 x (by simp [hx]) cur
      (by simp)) (hr.nodes x (by simp [hx])).2.2.2 ?_
    have hpp : List.Pairwise nodeDisj (init ++ [p]) := hp1
    rw [List.pairwise_append] at hpp
    exact hpp.2.2 x hx p (by simp)
  have hcong2 : ∀ x ∈ l2, ∀ r, x.boffset ≤ r → r < x.boffset + 12 →
      (flst_insert_before env st bp bo cur.page cur.boffset a.page
        a.boffset).2.mem x.page r = st.mem x.page r := by
    intro x hx
    exact hnode x (nodeDisj_symm (hf x (by simp [hx])))
      (nodeDisj_symm (List.rel_of_pairwise_cons hp2 hx))
      (hr.nodes x (by simp [hx])).2.2.2
      (nodeDisj_symm (hp3 p (by simp) x (by simp [hx])))
  have hcurn : nextF (flst_insert_before env st bp bo cur.page cur.boffset a.page
      a.boffset).2.mem cur = nextF st.mem cur := by
    simp only [nextF, FLST_NEXT]
    refine readAddr_frame_of fun r h1 h2 => hfr cur.page r ?_ ?_ ?_ ?_
    · exact fun hc => (nodeDisj_symm dac) ⟨hc.1, by omega, by omega⟩
    · omega
    · exact fun hc => hcv.2.2.2 ⟨hc.1, by omega, by omega⟩
    · exact fun hc => (nodeDisj_symm hpcur) ⟨hc.1, by omega, by omega⟩
  have hpp2 : prevF (flst_insert_before env st bp bo cur.page cur.boffset a.page
      a.boffset).2.mem p = prevF st.mem p := by
    simp only [prevF, FLST_PREV, Nat.add_zero]
    refine readAddr_frame_of fun r h1 h2 => hfr p.page r ?_ ?_ ?_ ?_
    · exact fun hc => (nodeDisj_symm (hf p hpm)) ⟨hc.1, by omega, by omega⟩
    · exact fun hc => hpcur ⟨hc.1, by omega, by omega⟩
    · exact fun hc => hpv.2.2.2 ⟨hc.1, by omega, by omega⟩
    · omega
  have hfirst : readAddr (flst_insert_before env st bp bo cur.page cur.boffset a.page
      a.boffset).2.mem bp (bo + 4) = readAddr st.mem bp (bo + 4) := by
    refine readAddr_frame_of fun r h1 h2 => hfr bp r ?_ ?_ ?_ ?_
    · exact fun hc => (regDisj_symm hv.2.2.2) ⟨hc.1, by omega, by omega⟩
    · exact fun hc => (regDisj_symm hcv.2.2.2) ⟨hc.1, by omega, by omega⟩
    · omega
    · exact fun hc => (regDisj_symm hpv.2.2.2) ⟨hc.1, by omega, by omega⟩
  have hlast : readAddr (flst_insert_before env st bp bo cur.page cur.boffset a.page
      a.boffset).2.mem bp (bo + 10) = readAddr st.mem bp (bo + 10) := by
    refine readAddr_frame_of fun r h1 h2 => hfr bp r ?_ ?_ ?_ ?_
    · exact fun hc => (regDisj_symm hv.2.2.2) ⟨hc.1, by omega, by omega⟩
    · exact fun hc => (regDisj_symm hcv.2.2.2) ⟨hc.1, by omega, by omega⟩
    · omega
    · exact fun hc => (regDisj_symm hpv.2.2.2) ⟨hc.1, by omega, by omega⟩
  have hdec := (chainSeg_append init [p] nullAddr (headD (cur :: l2) nullAddr)).mp hc1
  obtain ⟨hd1, hd2⟩ := hdec
  obtain ⟨hdp, hdn, -⟩ := hd2
  refine ⟨hbm, by simpa using hlen, ?_, ?_, ?_, ?_, ?_, ?_⟩
  · rw [hln, hr.len]
    simp only [List.length_append, List.length_cons]
    omega
  · simp only [FLST_FIRST]
    rw [hfirst]
    have h0 := hr.first
    simp only [FLST_FIRST] at h0
    rw [h0]
    simp only [headD_append]
    rfl
  · simp only [FLST_LAST]
    rw [hlast]
    have h0 := hr.last
    simp only [FLST_LAST] at h0
    rw [h0]
    simp only [lastD_append, lastD]
  · rw [chainSeg_append]
    refine ⟨?_, ?_, han, hcp2, hcurn.trans hcn,
      chainSeg_congr l2 cur nullAddr hcong2 hc3⟩
    · rw [chainSeg_append]
      exact ⟨chainSeg_congr init nullAddr _ hcong1 hd1, hpp2.trans hdp, hpn, trivial⟩
    · rw [lastD_concat]
      exact hap
  · intro x hx
    rcases List.mem_append.mp hx with hx1 | hx2
    · exact hr.nodes x (List.mem_append_left _ hx1)
    · rcases List.mem_cons.mp hx2 with rfl | hx3
      · exact hv
      · exact hr.nodes x (by simp [hx3])
  · exact pairwise_insert_before hr.disj (fun b hb => hf b hb)

theorem headD_eq_of_ne_nil {l : List FilAddr} (h : l ≠ []) (d d' : FilAddr) :
    headD l d = headD l d' := by
  cases l with
  | nil => exact absurd rfl h
  | cons a t => rfl

theorem headD_mem (l : List FilAddr) (d : FilAddr) :
    headD l d = d ∨ headD l d ∈ l := by
  cases l with
  | nil => exact Or.inl rfl
  | cons a t => exact Or.inr (List.mem_cons_self a t)

theorem reps_addLast {env : FetchEnv} {st st' : Mtr} {bp bo : Nat}
    {ns : List FilAddr} {a : FilAddr}
    (henv : EnvOK env) (hr : Reps st.mem bp bo ns) (hv : validNode bp bo a)
    (hf : Fresh a ns) (hlen : ns.length + 1 < 4294967296)
    (hs : flst_add_last env st bp bo a.page a.boffset = (Dberr.DB_SUCCESS, st')) :
    Reps st'.mem bp bo (ns ++ [a]) := by
  cases ns with
  | nil =>
    have hz : flst_get_len st.mem bp bo = 0 := by
      simp only [flst_get_len]
      exact hr.len
    simp only [flst_add_last] at hs
    rw [if_pos hz] at hs
    injection hs with h1 h2
    rw [← h2]
    exact reps_add_to_empty hr hv
  | cons b t =>
    have hz : ¬ flst_get_len st.mem bp bo = 0 := by
      simp only [flst_get_len]
      rw [hr.len]
      simp
    rcases List.eq_nil_or_concat (b :: t) with h0 | ⟨init, L, hbt⟩
    · exact absurd h0 (List.cons_ne_nil b t)
    rw [List.concat_eq_append] at hbt
    have hlst : flst_get_last st.mem bp bo = L := by
      have h0 := hr.last
      rw [hbt, lastD_concat] at h0
      exact h0
    have hLm : L ∈ b :: t := by
      rw [hbt]
      simp
    have hLv := hr.nodes L hLm
    simp only [flst_add_last] at hs
    rw [if_neg hz, hlst] at hs
    have hs' : flst_insert_after env st bp bo L.page L.boffset a.page a.boffset =
        (Dberr.DB_SUCCESS, st') := by
      by_cases hpg : L.page = a.page
      · rwa [if_neg (not_not_intro hpg)] at hs
      · rw [if_pos hpg] at hs
        cases hge : env L.page with
        | some e =>
          rw [hge] at hs
          have hs2 : (e, st) = (Dberr.DB_SUCCESS, st') := hs
          injection hs2 with h1 h2
          exact absurd (hge.trans (by rw [h1])) (henv L.page)
        | none =>
          rw [hge] at hs
          exact hs
    have hr2 : Reps st.mem bp bo (init ++ [L]) := hbt ▸ hr
    have hfr2 : Fresh a (init ++ [L]) := hbt ▸ hf
    have hlen2 : (init ++ [L]).length + 1 < 4294967296 := hbt ▸ hlen
    have hres : Reps (flst_insert_after env st bp bo L.page L.boffset a.page
        a.boffset).2.mem bp bo (init ++ L :: a :: []) :=
      reps_insAfter henv hr2 hv hfr2 hlen2 (by rw [hs'])
    have hst : (flst_insert_after env st bp bo L.page L.boffset a.page a.boffset).2 =
        st' := congrArg Prod.snd hs'
    rw [← hst, hbt, List.append_assoc]
    exact hres

set_option maxRecDepth 8000 in
theorem reps_remove {env : FetchEnv} {st st' : Mtr} {bp bo : Nat}
    {l1 l2 : List FilAddr} {cur : FilAddr}
    (henv : EnvOK env) (hr : Reps st.mem bp bo (l1 ++ cur :: l2))
    (hs : flst_remove env st bp bo cur.page cur.boffset = (Dberr.DB_SUCCESS, st')) :
    Reps st'.mem bp bo (l1 ++ l2) := by
  have hst : (flst_remove env st bp bo cur.page cur.boffset).2 = st' :=
    congrArg Prod.snd hs
  subst hst
  have hs1 : (flst_remove env st bp bo cur.page cur.boffset).1 = Dberr.DB_SUCCESS := by
    rw [hs]
  have hcurm : cur ∈ l1 ++ cur :: l2 := by simp
  have hcv := hr.nodes cur hcurm
  have hch := hr.chain
  rw [chainSeg_append] at hch
  obtain ⟨hc1, hc2⟩ := hch
  obtain ⟨hcp, hcn, hc3⟩ := hc2
  obtain ⟨hp1, hp2, hp3⟩ := List.pairwise_append.mp hr.disj
  have hpa : flst_get_prev_addr st.mem cur.page cur.boffset = lastD l1 nullAddr := hcp
  have hna : flst_get_next_addr st.mem cur.page cur.boffset = headD l2 nullAddr := hcn
  have hpam := lastD_mem l1 nullAddr
  have hnam := headD_mem l2 nullAddr
  have hlen0 : read4 st.mem bp (bo + FLST_LEN) ≠ 0 := by
    rw [hr.len]
    simp
  have dpb : (lastD l1 nullAddr).page ≠ FIL_NULL →
      regDisj (lastD l1 nullAddr).page (lastD l1 nullAddr).boffset 12 bp bo 16 := by
    intro h
    rcases hpam with h0 | h0
    · exact absurd (by rw [h0]; rfl) h
    · exact (hr.nodes _ (List.mem_append_left _ h0)).2.2.2
  have dnb : (headD l2 nullAddr).page ≠ FIL_NULL →
      regDisj (headD l2 nullAddr).page (headD l2 nullAddr).boffset 12 bp bo 16 := by
    intro h
    rcases hnam with h0 | h0
    · exact absurd (by rw [h0]; rfl) h
    · exact (hr.nodes _ (by simp [h0])).2.2.2
  have dpn : (lastD l1 nullAddr).page ≠ FIL_NULL → (headD l2 nullAddr).page ≠ FIL_NULL →
      regDisj (lastD l1 nullAddr).page (lastD l1 nullAddr).boffset 12
        (headD l2 nullAddr).page (headD l2 nullAddr).boffset 12 := by
    intro hq1 hq2
    rcases hpam with h0 | h0
    · exact absurd (by rw [h0]; rfl) hq1
    rcases hnam with h1 | h1
    · exact absurd (by rw [h1]; rfl) hq2
    exact hp3 _ h0 _ (by simp [h1])
  have hps : (if (lastD l1 nullAddr).page = FIL_NULL ∨
      (lastD l1 nullAddr).page = cur.page then none
      else env (lastD l1 nullAddr).page) ≠ some Dberr.DB_SUCCESS := by
    by_cases hcnd : (lastD l1 nullAddr).page = FIL_NULL ∨
        (lastD l1 nullAddr).page = cur.page
    · rw [if_pos hcnd]
      exact fun hcc => Option.noConfusion hcc
    · rw [if_neg hcnd]
      exact henv _
  obtain ⟨he, hlen2, hup, hun, hbm, hfr⟩ :=
    flst_remove_spec hr.bytes hpa hna hlen0 dpb dnb dpn hps
  have hm1 := he.symm.trans hs1
  have hPF : (if (lastD l1 nullAddr).page = FIL_NULL ∨
      (lastD l1 nullAddr).page = cur.page then none
      else env (lastD l1 nullAddr).page) = none := by
    cases hv0 : (if (lastD l1 nullAddr).page = FIL_NULL ∨
        (lastD l1 nullAddr).page = cur.page then none
        else env (lastD l1 nullAddr).page) with
    | none => rfl
    | some e =>
      rw [hv0] at hm1
      have he2 : e = Dberr.DB_SUCCESS := hm1
      rw [he2] at hv0
      exact absurd hv0 hps
  rw [hPF] at hm1
  have hNF : (if (headD l2 nullAddr).page = FIL_NULL ∨
      (headD l2 nullAddr).page = cur.page then none
      else env (headD l2 nullAddr).page) = none := by
    cases hv0 : (if (headD l2 nullAddr).page = FIL_NULL ∨
        (headD l2 nullAddr).page = cur.page then none
        else env (headD l2 nullAddr).page) with
    | none => rfl
    | some e =>
      rw [hv0] at hm1
      have he2 : e = Dberr.DB_SUCCESS := hm1
      by_cases hcnd : (headD l2 nullAddr).page = FIL_NULL ∨
          (headD l2 nullAddr).page = cur.page
      · rw [if_pos hcnd] at hv0
        exact Option.noConfusion hv0
      · rw [if_neg hcnd] at hv0
        rw [he2] at hv0
        exact absurd hv0 (henv _)
  have hupv := hup hPF
  have hunv := hun hNF
  have hlenv : read4 (flst_remove env st bp bo cur.page cur.boffset).2.mem bp
      (bo + FLST_LEN) = (l1 ++ l2).length := by
    rw [hlen2, hr.len]
    simp only [List.length_append, List.length_cons]
    omega
  have hlb : (l1 ++ l2).length < 4294967296 := by
    have hlb0 := hr.lenBound
    simp only [List.length_append, List.length_cons] at hlb0 ⊢
    omega
  have hnode : ∀ x : FilAddr, regDisj x.page x.boffset 12 bp bo 16 →
      ((lastD l1 nullAddr).page ≠ FIL_NULL → nodeDisj x (lastD l1 nullAddr)) →
      ((headD l2 nullAddr).page ≠ FIL_NULL → nodeDisj x (headD l2 nullAddr)) →
      ∀ r, x.boffset ≤ r → r < x.boffset + 12 →
      (flst_remove env st bp bo cur.page cur.boffset).2.mem x.page r =
        st.mem x.page r := by
    intro x d1 d4 d5 r h1 h2
    exact hfr x.page r (fun hc => d1 ⟨hc.1, by omega, by omega⟩)
      (fun h hc => d1 ⟨hc.1, by omega, by omega⟩)
      (fun h hc => d1 ⟨hc.1, by omega, by omega⟩)
      (fun h hc => (d4 h) ⟨hc.1, by omega, by omega⟩)
      (fun h hc => (d5 h) ⟨hc.1, by omega, by omega⟩)
  have hnodes : ∀ x ∈ l1 ++ l2, validNode bp bo x := by
    intro x hx
    rcases List.mem_append.mp hx with hx1 | hx2
    · exact hr.nodes x (List.mem_append_left _ hx1)
    · exact hr.nodes x (List.mem_append_right _ (List.mem_cons_of_mem cur hx2))
  have hdisj : List.Pairwise nodeDisj (l1 ++ l2) :=
    hr.disj.sublist ((List.Sublist.refl l1).append (List.sublist_cons_self cur l2))
  rcases List.eq_nil_or_concat l1 with rfl | ⟨init, p, hl1⟩
  · cases l2 with
    | nil =>
      rw [if_pos (show (lastD ([] : List FilAddr) nullAddr).page = FIL_NULL from rfl)]
        at hupv
      rw [if_pos (show (headD ([] : List FilAddr) nullAddr).page = FIL_NULL from rfl)]
        at hunv
      exact ⟨hbm, hlb, hlenv, hupv, hunv, trivial, hnodes, hdisj⟩
    | cons n l2' =>
      obtain ⟨hn1, hn2, hc4⟩ := hc3
      have hnv := hr.nodes n (by simp)
      rw [if_pos (show (lastD ([] : List FilAddr) nullAddr).page = FIL_NULL from rfl)]
        at hupv
      rw [if_neg (show ¬ (headD (n :: l2') nullAddr).page = FIL_NULL from hnv.1)]
        at hunv
      have hnn2 : nextF (flst_remove env st bp bo cur.page cur.boffset).2.mem n =
          nextF st.mem n := by
        simp only [nextF, FLST_NEXT]
        refine readAddr_frame_of fun r h1 h2 => hfr n.page r ?_ ?_ ?_ ?_ ?_
        · exact fun hc => hnv.2.2.2 ⟨hc.1, by omega, by omega⟩
        · exact fun h hc => hnv.2.2.2 ⟨hc.1, by omega, by omega⟩
        · exact fun h => absurd h hnv.1
        · exact fun h => absurd rfl h
        · intro h hc
          simp only [headD] at hc
          omega
      have hcong : ∀ x ∈ l2', ∀ r, x.boffset ≤ r → r < x.boffset + 12 →
          (flst_remove env st bp bo cur.page cur.boffset).2.mem x.page r =
            st.mem x.page r := by
        intro x hx
        refine hnode x (hr.nodes x (by simp [hx])).2.2.2 (fun h => absurd rfl h)
          (fun h => nodeDisj_symm (List.rel_of_pairwise_cons
            (List.pairwise_cons.mp hp2).2 hx))
      refine ⟨hbm, hlb, hlenv, hupv, ?_, ⟨hunv, hnn2.trans hn2,
        chainSeg_congr l2' n nullAddr hcong hc4⟩, hnodes, hdisj⟩
      have hlastU : readAddr (flst_remove env st bp bo cur.page
          cur.boffset).2.mem bp (bo + 10) = readAddr st.mem bp (bo + 10) := by
        refine readAddr_frame_of fun r h1 h2 => hfr bp r ?_ ?_ ?_ ?_ ?_
        · omega
        · intro h
          omega
        · exact fun h => absurd h hnv.1
        · exact fun h => absurd rfl h
        · exact fun h hc => (regDisj_symm (dnb h)) ⟨hc.1, by omega, by omega⟩
      simp only [FLST_LAST] at hlastU ⊢
      rw [hlastU]
      have h0 := hr.last
      simp only [FLST_LAST] at h0
      rw [h0]
      simp only [List.nil_append, lastD_append, lastD]
  · rw [List.concat_eq_append] at hl1
    subst hl1
    have hpm : p ∈ init ++ [p] := by simp
    have hpv := hr.nodes p (List.mem_append_left _ hpm)
    have hpnn : (lastD (init ++ [p]) nullAddr).page ≠ FIL_NULL := by
      rw [lastD_concat]
      exact hpv.1
    rw [if_neg hpnn] at hupv
    rw [lastD_concat] at hupv
    have hdec := (chainSeg_append init [p] nullAddr
      (headD (cur :: l2) nullAddr)).mp hc1
    obtain ⟨hd1, hd2⟩ := hdec
    obtain ⟨hdp, hdn, -⟩ := hd2
    have hpp1 : List.Pairwise nodeDisj (init ++ [p]) := hp1
    rw [List.pairwise_append] at hpp1
    have hppU : prevF (flst_remove env st bp bo cur.page cur.boffset).2.mem p =
        prevF st.mem p := by
      simp only [prevF, FLST_PREV, Nat.add_zero]
      refine readAddr_frame_of fun r h1 h2 => hfr p.page r ?_ ?_ ?_ ?_ ?_
      · exact fun hc => hpv.2.2.2 ⟨hc.1, by omega, by omega⟩
      · exact fun h hc => hpv.2.2.2 ⟨hc.1, by omega, by omega⟩
      · exact fun h hc => hpv.2.2.2 ⟨hc.1, by omega, by omega⟩
      · intro h hc
        rw [lastD_concat] at hc
        omega
      · intro h
        rcases hnam with h0 | h0
        · exact absurd (by rw [h0]; rfl) h
        · exact fun hc => (hp3 p hpm _ (by simp [h0])) ⟨hc.1, by omega, by omega⟩
    have hfirstU : readAddr (flst_remove env st bp bo cur.page cur.boffset).2.mem bp
        (bo + 4) = readAddr st.mem bp (bo + 4) := by
      refine readAddr_frame_of fun r h1 h2 => hfr bp r ?_ ?_ ?_ ?_ ?_
      · omega
      · exact fun h => absurd h hpnn
      · intro h
        omega
      · exact fun h hc => (regDisj_symm (dpb h)) ⟨hc.1, by omega, by omega⟩
      · exact fun h hc => (regDisj_symm (dnb h)) ⟨hc.1, by omega, by omega⟩
    have hcong1 : ∀ x ∈ init, ∀ r, x.boffset ≤ r → r < x.boffset + 12 →
        (flst_remove env st bp bo cur.page cur.boffset).2.mem x.page r =
          st.mem x.page r := by
      intro x hx
      refine hnode x (hr.nodes x (by simp [hx])).2.2.2 ?_ ?_
      · intro h
        rw [lastD_concat]
        exact hpp1.2.2 x hx p (by simp)
      · intro h
        rcases hnam with h0 | h0
        · exact absurd (by rw [h0]; rfl) h
        · exact hp3 x (by simp [hx]) _ (by simp [h0])
    have hfirstV : readAddr (flst_remove env st bp bo cur.page cur.boffset).2.mem bp
        (bo + FLST_FIRST) = headD ((init ++ [p]) ++ l2) nullAddr := by
      simp only [FLST_FIRST]
      rw [hfirstU]
      have h0 := hr.first
      simp only [FLST_FIRST] at h0
      rw [h0]
      simp only [headD_append]
      rfl
    cases l2 with
    | nil =>
      rw [if_pos (show (headD ([] : List FilAddr) nullAddr).page = FIL_NULL from rfl)]
        at hunv
      rw [lastD_concat] at hunv
      refine ⟨hbm, hlb, hlenv, hfirstV, ?_, ?_, hnodes, hdisj⟩
      · simp only [FLST_LAST] at hunv ⊢
        rw [List.append_nil, hunv, lastD_concat]
      · rw [List.append_nil, chainSeg_append]
        exact ⟨chainSeg_congr init nullAddr _ hcong1 hd1, hppU.trans hdp, hupv, trivial⟩
    | cons n l2' =>
      obtain ⟨hn1, hn2, hc4⟩ := hc3
      have hnv := hr.nodes n (by simp)
      rw [if_neg (show ¬ (headD (n :: l2') nullAddr).page = FIL_NULL from hnv.1)]
        at hunv
      have hnn2 : nextF (flst_remove env st bp bo cur.page cur.boffset).2.mem n =
          nextF st.mem n := by
        simp only [nextF, FLST_NEXT]
        refine readAddr_frame_of fun r h1 h2 => hfr n.page r ?_ ?_ ?_ ?_ ?_
        · exact fun hc => hnv.2.2.2 ⟨hc.1, by omega, by omega⟩
        · exact fun h hc => hnv.2.2.2 ⟨hc.1, by omega, by omega⟩
        · exact fun h => absurd h hnv.1
        · intro h hc
          rw [lastD_concat] at hc
          exact (nodeDisj_symm (hp3 p hpm n (by simp))) ⟨hc.1, by omega, by omega⟩
        · intro h hc
          simp only [headD] at hc
          omega
      have hcong2 : ∀ x ∈ l2', ∀ r, x.boffset ≤ r → r < x.boffset + 12 →
          (flst_remove env st bp bo cur.page cur.boffset).2.mem x.page r =
            st.mem x.page r := by
        intro x hx
        refine hnode x (hr.nodes x (by simp [hx])).2.2.2 ?_
          (fun h => nodeDisj_symm (List.rel_of_pairwise_cons
            (List.pairwise_cons.mp hp2).2 hx))
        intro h
        rw [lastD_concat]
        exact nodeDisj_symm (hp3 p hpm x (by simp [hx]))
      have hlastU : readAddr (flst_remove env st bp bo cur.page
          cur.boffset).2.mem bp (bo + 10) = readAddr st.mem bp (bo + 10) := by
        refine readAddr_frame_of fun r h1 h2 => hfr bp r ?_ ?_ ?_ ?_ ?_
        · omega
        · exact fun h => absurd h hpnn
        · exact fun h => absurd h hnv.1
        · exact fun h hc => (regDisj_symm (dpb h)) ⟨hc.1, by omega, by omega⟩
        · exact fun h hc => (regDisj_symm (dnb h)) ⟨hc.1, by omega, by omega⟩
      refine ⟨hbm, hlb, hlenv, hfirstV, ?_, ?_, hnodes, hdisj⟩
      · simp only [FLST_LAST] at hlastU ⊢
        rw [hlastU]
        have h0 := hr.last
        simp only [FLST_LAST] at h0
        rw [h0]
        simp only [lastD_append, lastD]
      · rw [chainSeg_append]
        refine ⟨?_, hunv, hnn2.trans hn2, chainSeg_congr l2' n nullAddr hcong2 hc4⟩
        rw [chainSeg_append]
        refine ⟨chainSeg_congr init nullAddr _ hcong1 hd1, hppU.trans hdp, ?_, trivial⟩
        exact hupv

theorem envAll_ok : EnvOK envAll := fun p h =>
  Option.noConfusion (show (none : Option Dberr) = some Dberr.DB_SUCCESS from h)

theorem chainSeg_prev_mem {m : Mem} :
    ∀ (ns : List FilAddr) (pv nx : FilAddr), chainSeg m pv ns nx →
    ∀ a ∈ ns, prevF m a = pv ∨ prevF m a ∈ ns := by
  intro ns
  induction ns with
  | nil =>
    intro pv nx hc a ha
    exact absurd ha (List.not_mem_nil a)
  | cons b t ih =>
    intro pv nx hc a ha
    obtain ⟨h1, h2, h3⟩ := hc
    rcases List.mem_cons.mp ha with rfl | ha2
    · exact Or.inl h1
    · rcases ih b nx h3 a ha2 with h0 | h0
      · exact Or.inr (by rw [h0]; exact List.mem_cons_self b t)
      · exact Or.inr (List.mem_cons_of_mem b h0)

theorem chainSeg_next_mem {m : Mem} :
    ∀ (ns : List FilAddr) (pv nx : FilAddr), chainSeg m pv ns nx →
    ∀ a ∈ ns, nextF m a = nx ∨ nextF m a ∈ ns := by
  intro ns
  induction ns with
  | nil =>
    intro pv nx hc a ha
    exact absurd ha (List.not_mem_nil a)
  | cons b t ih =>
    intro pv nx hc a ha
    obtain ⟨h1, h2, h3⟩ := hc
    rcases List.mem_cons.mp ha with rfl | ha2
    · cases t with
      | nil => exact Or.inl h2
      | cons c t' => exact Or.inr (by rw [h2]; simp [headD])
    · rcases ih b nx h3 a ha2 with h0 | h0
      · exact Or.inl h0
      · exact Or.inr (List.mem_cons_of_mem b h0)

theorem reps_step {env : FetchEnv} {bp bo : Nat} {x y : Mtr × List FilAddr}
    (henv : EnvOK env) (hr : Reps x.1.mem bp bo x.2)
    (hst : LegalStep env bp bo x y) : Reps y.1.mem bp bo y.2 := by
  cases hst with
  | addFirst st st' ns a hv hf hlen hs => exact reps_addFirst henv hr hv hf hlen hs
  | addLast st st' ns a hv hf hlen hs => exact reps_addLast henv hr hv hf hlen hs
  | insAfter st st' l1 l2 cur a hv hf hlen hs =>
    have h2 : (flst_insert_after env st bp bo cur.page cur.boffset a.page
        a.boffset).2 = st' := congrArg Prod.snd hs
    have h1 : (flst_insert_after env st bp bo cur.page cur.boffset a.page
        a.boffset).1 = Dberr.DB_SUCCESS := by rw [hs]
    have hres := reps_insAfter henv hr hv hf hlen h1
    rw [h2] at hres
    exact hres
  | insBefore st st' l1 l2 cur a hv hf hlen hs =>
    have h2 : (flst_insert_before env st bp bo cur.page cur.boffset a.page
        a.boffset).2 = st' := congrArg Prod.snd hs
    have h1 : (flst_insert_before env st bp bo cur.page cur.boffset a.page
        a.boffset).1 = Dberr.DB_SUCCESS := by rw [hs]
    have hres := reps_insBefore henv hr hv hf hlen h1
    rw [h2] at hres
    exact hres
  | removeStep st st' l1 l2 cur hs => exact reps_remove henv hr hs

theorem reps_of_trace {env : FetchEnv} {bp bo : Nat} {x y : Mtr × List FilAddr}
    (henv : EnvOK env) (hr : Reps x.1.mem bp bo x.2)
    (htr : LegalTrace env bp bo x y) : Reps y.1.mem bp bo y.2 := by
  induction htr with
  | refl => exact hr
  | step y1 z1 htr1 hstep ih => exact reps_step henv ih hstep

/-- C2: after any sequence of successfully completed legal operations starting
from an initialized empty list, the stored length equals the number of hops
from first to the null address via next fields, and independently the number
of hops from last to the null address via prev fields (hop counting fueled by
the stored length itself). -/
theorem C2_thm {env : FetchEnv} {st st1 : Mtr} {bp bo : Nat} {ns1 : List FilAddr}
    (henv : EnvOK env) (hm : ByteMem st.mem)
    (htr : LegalTrace env bp bo (flst_init st bp bo, []) (st1, ns1)) :
    hopNext st1.mem (flst_get_len st1.mem bp bo) (flst_get_first st1.mem bp bo) =
      some (flst_get_len st1.mem bp bo) ∧
    hopPrev st1.mem (flst_get_len st1.mem bp bo) (flst_get_last st1.mem bp bo) =
      some (flst_get_len st1.mem bp bo) := by
  have hr := reps_of_trace henv (reps_init hm bp bo) htr
  have hlen : flst_get_len st1.mem bp bo = ns1.length := hr.len
  rw [hlen]
  constructor
  · rw [show flst_get_first st1.mem bp bo = headD ns1 nullAddr from hr.first]
    exact hopNext_chain ns1 nullAddr hr.chain (fun a ha => (hr.nodes a ha).1)
      ns1.length le_rfl
  · rw [show flst_get_last st1.mem bp bo = lastD ns1 nullAddr from hr.last]
    exact hopPrev_chain ns1 nullAddr hr.chain (fun a ha => (hr.nodes a ha).1)
      ns1.length le_rfl

/-- Witness for C2: the empty trace on a freshly initialized list at (0, 0). -/
theorem C2_wit :
    hopNext (flst_init ⟨mem0, []⟩ 0 0).mem
        (flst_get_len (flst_init ⟨mem0, []⟩ 0 0).mem 0 0)
        (flst_get_first (flst_init ⟨mem0, []⟩ 0 0).mem 0 0) =
      some (flst_get_len (flst_init ⟨mem0, []⟩ 0 0).mem 0 0) ∧
    hopPrev (flst_init ⟨mem0, []⟩ 0 0).mem
        (flst_get_len (flst_init ⟨mem0, []⟩ 0 0).mem 0 0)
        (flst_get_last (flst_init ⟨mem0, []⟩ 0 0).mem 0 0) =
      some (flst_get_len (flst_init ⟨mem0, []⟩ 0 0).mem 0 0) :=
  C2_thm envAll_ok byteMem_mem0 (LegalTrace.refl (flst_init ⟨mem0, []⟩ 0 0, []))

/-- C8: after any sequence of successfully completed legal operations starting
from an initialized empty list, every stored 6-byte address field whose page
is the all-ones null sentinel has offset 0: the base first and last fields,
and the prev and next fields of every list node. -/
theorem C8_thm {env : FetchEnv} {st st1 : Mtr} {bp bo : Nat} {ns1 : List FilAddr}
    (henv : EnvOK env) (hm : ByteMem st.mem)
    (htr : LegalTrace env bp bo (flst_init st bp bo, []) (st1, ns1)) :
    ((flst_get_first st1.mem bp bo).page = FIL_NULL →
      (flst_get_first st1.mem bp bo).boffset = 0) ∧
    ((flst_get_last st1.mem bp bo).page = FIL_NULL →
      (flst_get_last st1.mem bp bo).boffset = 0) ∧
    (∀ a ∈ ns1,
      ((flst_get_prev_addr st1.mem a.page a.boffset).page = FIL_NULL →
        (flst_get_prev_addr st1.mem a.page a.boffset).boffset = 0) ∧
      ((flst_get_next_addr st1.mem a.page a.boffset).page = FIL_NULL →
        (flst_get_next_addr st1.mem a.page a.boffset).boffset = 0)) := by
  have hr := reps_of_trace henv (reps_init hm bp bo) htr
  refine ⟨?_, ?_, ?_⟩
  · intro h
    rcases headD_mem ns1 nullAddr with h0 | h0
    · rw [show flst_get_first st1.mem bp bo = headD ns1 nullAddr from hr.first, h0]
      rfl
    · rw [show flst_get_first st1.mem bp bo = headD ns1 nullAddr from hr.first] at h
      exact absurd h (hr.nodes _ h0).1
  · intro h
    rcases lastD_mem ns1 nullAddr with h0 | h0
    · rw [show flst_get_last st1.mem bp bo = lastD ns1 nullAddr from hr.last, h0]
      rfl
    · rw [show flst_get_last st1.mem bp bo = lastD ns1 nullAddr from hr.last] at h
      exact absurd h (hr.nodes _ h0).1
  · intro a ha
    constructor
    · intro h
      rcases chainSeg_prev_mem ns1 nullAddr nullAddr hr.chain a ha with h0 | h0
      · rw [show flst_get_prev_addr st1.mem a.page a.boffset = prevF st1.mem a
          from rfl, h0]
        rfl
      · exact absurd h (hr.nodes _ h0).1
    · intro h
      rcases chainSeg_next_mem ns1 nullAddr nullAddr hr.chain a ha with h0 | h0
      · rw [show flst_get_next_addr st1.mem a.page a.boffset = nextF st1.mem a
          from rfl, h0]
        rfl
      · exact absurd h (hr.nodes _ h0).1

/-- Witness for C8: the empty trace on a freshly initialized list at (0, 0). -/
theorem C8_wit :
    ((flst_get_first (flst_init ⟨mem0, []⟩ 0 0).mem 0 0).page = FIL_NULL →
      (flst_get_first (flst_init ⟨mem0, []⟩ 0 0).mem 0 0).boffset = 0) ∧
    ((flst_get_last (flst_init ⟨mem0, []⟩ 0 0).mem 0 0).page = FIL_NULL →
      (flst_get_last (flst_init ⟨mem0, []⟩ 0 0).mem 0 0).boffset = 0) ∧
    (∀ a ∈ ([] : List FilAddr),
      ((flst_get_prev_addr (flst_init ⟨mem0, []⟩ 0 0).mem a.page a.boffset).page =
          FIL_NULL →
        (flst_get_prev_addr (flst_init ⟨mem0, []⟩ 0 0).mem a.page
          a.boffset).boffset = 0) ∧
      ((flst_get_next_addr (flst_init ⟨mem0, []⟩ 0 0).mem a.page a.boffset).page =
          FIL_NULL →
        (flst_get_next_addr (flst_init ⟨mem0, []⟩ 0 0).mem a.page
          a.boffset).boffset = 0)) :=
  C8_thm envAll_ok byteMem_mem0 (LegalTrace.refl (flst_init ⟨mem0, []⟩ 0 0, []))

end Flst
